import Mathlib

/-!
# Inventory catalog back end: record-store cache, query engine, statistics engine

A shallow embedding of `backend/src/routes/items.js`, `backend/src/routes/stats.js` and
`backend/src/middleware/errorHandler.js`.

Modelling conventions

* Prices and averages are exact rationals (`ℚ`) and stand for finite numbers; ids and
  timestamps in milliseconds are integers. The rounding of double arithmetic on prices and
  the non-finite numbers are outside the model.
* `parseInt` returns the mathematical integer it reads (`none` for `NaN`). The list
  handler is given twice: `getItems` computes page and limit with exact integers, and
  `getItemsNumber` repeats the same lines with every number rounded to a double as the
  source does (53 significant bits, `Infinity` from 2^1024 on, `NaN` for `0 * Infinity`).
* JavaScript strings are Lean strings. `toLowerCase` lower-cases the ASCII letters and the
  Greek capital sigma (the one letter whose lower case depends on its neighbours); the rest
  of the Unicode case tables is outside the model and those characters are left as they are.
* The module-level `let` variables are explicit state records that every handler takes
  and returns; the file behind `DATA_PATH` is the explicit state `Fs`.
* Every handler also returns the list of storage operations it performed, in order.
* An `async` handler is run to completion; interleavings of handlers are not modelled.
* Query parameters are strings or missing (arrays and nested objects are not modelled).
-/

set_option autoImplicit false

namespace Catalog

/-! ## Values -/

/-- A stored record; field names as persisted: id, name, category, price. -/
structure Record where
  id : Int
  name : String
  category : String
  price : ℚ
deriving DecidableEq

/-- A thrown JavaScript error: its message and its `status` property when it has one. -/
structure JsError where
  message : String
  status : Option Nat
deriving DecidableEq

/-- What a handler does at its end: `res.status(s).json(body)` or `next(err)`. -/
inductive Outcome (α : Type) where
  | json (status : Nat) (body : α)
  | next (err : JsError)
deriving DecidableEq

/-- A storage operation on `DATA_PATH`. -/
inductive IoOp where
  | stat
  | readFile
  | writeFile
deriving DecidableEq

/-- The text of the data file, as far as `JSON.parse` tells texts apart. -/
inductive Raw where
  | json (items : List Record)
  | malformed
deriving DecidableEq

/-- The data file: its modification time (ms), its text, and which operations reject. -/
structure Fs where
  mtime : Int
  raw : Raw
  statFails : Bool
  readFails : Bool
  writeFails : Bool
deriving DecidableEq

/-- The error `fs.stat` rejects with (no `status` property). -/
def statError : JsError := ⟨"ENOENT: no such file or directory, stat", none⟩

/-- The error `fs.readFile` rejects with (no `status` property). -/
def readError : JsError := ⟨"EIO: i/o error, read", none⟩

/-- The error `fs.writeFile` rejects with (no `status` property). -/
def writeError : JsError := ⟨"EACCES: permission denied, open", none⟩

/-- The `SyntaxError` of `JSON.parse` (no `status` property). -/
def syntaxError : JsError := ⟨"Unexpected token in JSON", none⟩

/-- `JSON.parse(raw)`. -/
def jsonParse : Raw → Except JsError (List Record)
  | .json items => .ok items
  | .malformed => .error syntaxError

/-- `JSON.stringify(data, null, 2)`, on records whose prices are finite numbers: the text
written is read back by `JSON.parse` as the same records. (A price of `Infinity` would be
written as `null`; `Record.price` holds finite numbers only.) -/
def jsonStringify (data : List Record) : Raw := .json data

/-! ## JavaScript built-ins used by the handlers -/

/-- Code points of ECMAScript WhiteSpace and LineTerminator, skipped by `trim` and `parseInt`. -/
def jsWhiteSpaceCodes : List Nat :=
  [0x09, 0x0A, 0x0B, 0x0C, 0x0D, 0x20, 0xA0, 0x1680, 0x2000, 0x2001, 0x2002, 0x2003, 0x2004,
   0x2005, 0x2006, 0x2007, 0x2008, 0x2009, 0x200A, 0x2028, 0x2029, 0x202F, 0x205F, 0x3000,
   0xFEFF]

/-- Whether a character is stripped by `String.prototype.trim`. -/
def isJsWhiteSpace (c : Char) : Bool := jsWhiteSpaceCodes.contains c.toNat

/-- `String.prototype.trim` on the character list. -/
def trimChars (cs : List Char) : List Char :=
  ((cs.dropWhile isJsWhiteSpace).reverse.dropWhile isJsWhiteSpace).reverse

/-- `s.trim()`. -/
def trim (s : String) : String := ⟨trimChars s.data⟩

/-- GREEK CAPITAL LETTER SIGMA, U+03A3. -/
def capitalSigma : Char := Char.ofNat 0x03A3

/-- GREEK SMALL LETTER SIGMA, U+03C3. -/
def smallSigma : Char := Char.ofNat 0x03C3

/-- GREEK SMALL LETTER FINAL SIGMA, U+03C2. -/
def finalSigma : Char := Char.ofNat 0x03C2

/-- The Unicode property Cased, on the modelled range: ASCII letters and the sigmas. -/
def isCased (c : Char) : Bool :=
  c.isAlpha || c == capitalSigma || c == smallSigma || c == finalSigma

/-- The Unicode property Case_Ignorable, on the ASCII range: apostrophe, full stop, colon,
circumflex accent, grave accent. -/
def isCaseIgnorable (c : Char) : Bool := [0x27, 0x2E, 0x3A, 0x5E, 0x60].contains c.toNat

/-- Whether the characters start with zero or more case-ignorable characters and then a cased
letter (the look-around of the Final_Sigma condition of the Unicode special casing). -/
def casedAhead : List Char → Bool
  | [] => false
  | c :: cs => if isCased c then true else if isCaseIgnorable c then casedAhead cs else false

/-- Lower-case the characters `cs` that follow the characters `before` (nearest first). A
capital sigma becomes the final sigma when a cased letter precedes it and none follows it
(case-ignorable characters skipped), and the small sigma otherwise. -/
def lowerChars (before : List Char) : List Char → List Char
  | [] => []
  | c :: cs =>
    (if c = capitalSigma then
        (if casedAhead before && !casedAhead cs then finalSigma else smallSigma)
      else c.toLower) :: lowerChars (c :: before) cs

/-- `s.toLowerCase()`: the locale-insensitive Unicode lower-casing, Final_Sigma included. -/
def toLowerCase (s : String) : String := ⟨lowerChars [] s.data⟩

/-- Substring search on character lists: does `t` occur in `s` as a contiguous block. -/
def includesChars : List Char → List Char → Bool
  | [], t => t.isEmpty
  | c :: cs, t => t.isPrefixOf (c :: cs) || includesChars cs t

/-- `s.includes(t)`. -/
def includes (s t : String) : Bool := includesChars s.data t.data

/-- The value of a run of decimal digits. -/
def digitsValue (ds : List Char) : Int :=
  ds.foldl (fun acc d => acc * 10 + ((d.toNat - 48 : Nat) : Int)) 0

/-- `parseInt(s, 10)`: skip leading white space, read an optional sign, then the longest run
of decimal digits; `none` is `NaN` (no digit to read). The result is the mathematical
integer that was read; the number the source holds is the double nearest to it (`toDouble`
below). -/
def parseInt (s : String) : Option Int :=
  let cs := s.data.dropWhile isJsWhiteSpace
  let signed : Bool × List Char :=
    match cs with
    | '-' :: r => (true, r)
    | '+' :: r => (false, r)
    | r => (false, r)
  let ds := signed.2.takeWhile Char.isDigit
  if ds.isEmpty then none
  else some (if signed.1 then - digitsValue ds else digitsValue ds)

/-- The expression `x || d` for a number `x`: `NaN` and `0` are falsy. -/
def orDefault (x : Option Int) (d : Int) : Int :=
  match x with
  | none => d
  | some n => if n = 0 then d else n

/-- `xs.slice(start, stop)` as ECMAScript defines it, negative arguments included. -/
def jsSlice {α : Type} (xs : List α) (start stop : Int) : List α :=
  let len : Int := xs.length
  let k : Int := if start < 0 then max (len + start) 0 else min start len
  let final : Int := if stop < 0 then max (len + stop) 0 else min stop len
  (xs.drop k.toNat).take (final - k).toNat

/-- `Math.round(x)`: the nearest integer, halves towards plus infinity. -/
def mathRound (x : ℚ) : Int := ⌊x + 1 / 2⌋

/-- `Math.min(x, ...xs)` on a non-empty argument list. -/
def mathMin (x : ℚ) (xs : List ℚ) : ℚ := xs.foldl min x

/-- `Math.max(x, ...xs)` on a non-empty argument list. -/
def mathMax (x : ℚ) (xs : List ℚ) : ℚ := xs.foldl max x

/-- Modelled from the spec: the `mean` helper that stats.js imports from `../utils/stats` is
not among the sources; per the spec it is the sum of the values divided by their count, and
the mean of an empty set is treated as 0. -/
def mean (xs : List ℚ) : ℚ :=
  if xs.length = 0 then 0 else xs.sum / (xs.length : ℚ)

/-- The expression `Math.round(x * 100) / 100` (round to 2 decimal places), evaluated
exactly. The source evaluates it in doubles, where the product and the quotient are rounded:
no theorem below states the numeric value of an average, only that it is this expression
applied to the mean. -/
def round2 (x : ℚ) : ℚ := (mathRound (x * 100) : ℚ) / 100

/-! ## items.js: record-store cache -/

/-- The module-level variables `dataCache` and `lastModified` of items.js (`none` is `null`). -/
structure ItemsCache where
  dataCache : Option (List Record)
  lastModified : Option Int
deriving DecidableEq

/-- Lines 18-20 and 23 of `readData`, after a successful `fs.stat`: read the file, parse it,
replace `dataCache` and `lastModified`, return the new `dataCache`. A rejected read or a
parse error is rethrown with the cache as it was. -/
def refreshCache (c : ItemsCache) (fs : Fs) :
    Except JsError (List Record) × ItemsCache × List IoOp :=
  if fs.readFails then (.error readError, c, [.stat, .readFile])
  else
    match jsonParse fs.raw with
    | .error err => (.error err, c, [.stat, .readFile])
    | .ok data =>
      (.ok data, { dataCache := some data, lastModified := some fs.mtime }, [.stat, .readFile])

/-- `readData()` of items.js, lines 12-28: result, cache afterwards, storage operations.
The test of line 17 is `!dataCache || !lastModified || stats.mtime > lastModified`. -/
def readData (c : ItemsCache) (fs : Fs) :
    Except JsError (List Record) × ItemsCache × List IoOp :=
  if fs.statFails then (.error statError, c, [.stat])
  else
    match c.dataCache, c.lastModified with
    | some data, some last =>
      if fs.mtime > last then refreshCache c fs else (.ok data, c, [.stat])
    | _, _ => refreshCache c fs

/-- `writeData(data)` of items.js, lines 31-42. `nowW` is the `new Date()` read after the
write and `mtimeW` the modification time the write leaves on the file. A rejected write
leaves the file as it was. -/
def writeData (c : ItemsCache) (fs : Fs) (data : List Record) (nowW mtimeW : Int) :
    Except JsError Unit × ItemsCache × Fs × List IoOp :=
  if fs.writeFails then (.error writeError, c, fs, [.writeFile])
  else
    (.ok (), { dataCache := some data, lastModified := some nowW },
      { fs with raw := jsonStringify data, mtime := mtimeW }, [.writeFile])

/-! ## items.js: GET / -/

/-- The query string of `GET /api/items`: each parameter is a string or missing. -/
structure Query where
  limit : Option String
  page : Option String
  q : Option String
deriving DecidableEq

/-- The `pagination` object of the list response. -/
structure Pagination where
  currentPage : Int
  totalItems : Nat
  totalPages : Int
  itemsPerPage : Int
  hasNextPage : Bool
  hasPrevPage : Bool
deriving DecidableEq

/-- The body of the list response. -/
structure ItemsResponse where
  items : List Record
  pagination : Pagination
deriving DecidableEq

/-- The filter callback of lines 55-57. -/
def matchesTerm (searchTerm : String) (item : Record) : Bool :=
  includes (toLowerCase item.name) searchTerm || includes (toLowerCase item.category) searchTerm

/-- Lines 49-59: the copy of the snapshot, filtered when `q` is truthy (a non-empty string). -/
def searchResults (data : List Record) (q : Option String) : List Record :=
  match q with
  | none => data
  | some term =>
    if term.data.isEmpty then data
    else data.filter (matchesTerm (toLowerCase term))

/-- Line 62: `parseInt(page, 10) || 1`, where a missing `page` is the number 1. -/
def pageNumOf (query : Query) : Int :=
  orDefault (parseInt (query.page.getD "1")) 1

/-- Line 63: `parseInt(limit, 10) || 10`, where a missing `limit` is `undefined`. -/
def limitNumOf (query : Query) : Int :=
  orDefault (parseInt (query.limit.getD "undefined")) 10

/-- Lines 64-80: slice the filtered sequence and build the response body. -/
def paginate (results : List Record) (pageNum limitNum : Int) : ItemsResponse :=
  let startIndex := (pageNum - 1) * limitNum
  let endIndex := startIndex + limitNum
  let paginatedResults := jsSlice results startIndex endIndex
  { items := paginatedResults
    pagination :=
      { currentPage := pageNum
        totalItems := results.length
        totalPages := ⌈(results.length : ℚ) / (limitNum : ℚ)⌉
        itemsPerPage := limitNum
        hasNextPage := decide (endIndex < (results.length : Int))
        hasPrevPage := decide (pageNum > 1) } }

/-- The handler of `GET /api/items`, lines 45-84. -/
def getItems (c : ItemsCache) (fs : Fs) (query : Query) :
    Outcome ItemsResponse × ItemsCache × List IoOp :=
  match readData c fs with
  | (.error err, c1, ops) => (.next err, c1, ops)
  | (.ok data, c1, ops) =>
    let results := searchResults data query.q
    (.json 200 (paginate results (pageNumOf query) (limitNumOf query)), c1, ops)

/-! ## items.js: GET / with the numbers as IEEE doubles

`getItems` above computes with exact integers. The definitions below repeat lines 61-80 with
what a JavaScript number does to an integer: it is rounded to the nearest double, and becomes
`Infinity` beyond the largest double. -/

/-- A JavaScript number that holds an integer, or is not finite (the sign of zero is not
kept; `JSON.stringify` writes the three non-finite values as `null`). -/
inductive JsNumber where
  | int (n : Int)
  | posInf
  | negInf
  | nan
deriving DecidableEq

/-- The double nearest to the natural number `m` (round to nearest, ties to even), when it
is finite: 53 significant bits, and less than 2^1024. -/
def roundNat (m : Nat) : Option Nat :=
  if m < 2 ^ 53 then some m
  else
    let e := Nat.log2 m - 52
    let q := m / 2 ^ e
    let r := m % 2 ^ e
    let half := 2 ^ (e - 1)
    let q1 := if r > half ∨ (r = half ∧ q % 2 = 1) then q + 1 else q
    if q1 * 2 ^ e < 2 ^ 1024 then some (q1 * 2 ^ e) else none

/-- The JavaScript number for the mathematical integer `n`. -/
def toDouble (n : Int) : JsNumber :=
  match roundNat n.natAbs with
  | some v => .int (if n < 0 then - (v : Int) else (v : Int))
  | none => if n < 0 then .negInf else .posInf

/-- `x + y` on integer-valued doubles. -/
def numAdd : JsNumber → JsNumber → JsNumber
  | .int a, .int b => toDouble (a + b)
  | .int _, .posInf => .posInf
  | .int _, .negInf => .negInf
  | .posInf, .int _ => .posInf
  | .negInf, .int _ => .negInf
  | .posInf, .posInf => .posInf
  | .negInf, .negInf => .negInf
  | .posInf, .negInf => .nan
  | .negInf, .posInf => .nan
  | .nan, _ => .nan
  | _, .nan => .nan

/-- The sign of an integer applied to an infinity: `Infinity * 0` is `NaN`. -/
def infTimes (positive : Bool) (a : Int) : JsNumber :=
  if a = 0 then .nan
  else if (decide (0 < a)) = positive then .posInf else .negInf

/-- `x * y` on integer-valued doubles. -/
def numMul : JsNumber → JsNumber → JsNumber
  | .int a, .int b => toDouble (a * b)
  | .int a, .posInf => infTimes true a
  | .int a, .negInf => infTimes false a
  | .posInf, .int b => infTimes true b
  | .negInf, .int b => infTimes false b
  | .posInf, .posInf => .posInf
  | .negInf, .negInf => .posInf
  | .posInf, .negInf => .negInf
  | .negInf, .posInf => .negInf
  | .nan, _ => .nan
  | _, .nan => .nan

/-- The index `slice` makes of an argument, for an array of length `len`: `NaN` is 0, a
negative index counts from the end, and the result is clamped to `0 .. len`. -/
def sliceIndex (len : Int) : JsNumber → Int
  | .int i => if i < 0 then max (len + i) 0 else min i len
  | .posInf => len
  | .negInf => 0
  | .nan => 0

/-- `xs.slice(start, stop)` with number arguments. -/
def jsSliceNumber {α : Type} (xs : List α) (start stop : JsNumber) : List α :=
  let len : Int := xs.length
  let k := sliceIndex len start
  let final := sliceIndex len stop
  (xs.drop k.toNat).take (final - k).toNat

/-- `x < n` for a number `x` and an integer `n`. -/
def numLt (x : JsNumber) (n : Int) : Bool :=
  match x with
  | .int a => decide (a < n)
  | .negInf => true
  | .posInf => false
  | .nan => false

/-- `x > n` for a number `x` and an integer `n`. -/
def numGt (x : JsNumber) (n : Int) : Bool :=
  match x with
  | .int a => decide (a > n)
  | .posInf => true
  | .negInf => false
  | .nan => false

/-- `Math.ceil(length / limitNum)`: the quotient of an array length by a non-zero integer
is far enough from the integers below it that rounding it to a double does not change its
ceiling; a length divided by an infinity is 0. -/
def ceilDiv (length : Nat) : JsNumber → JsNumber
  | .int l =>
    if l = 0 then (if length = 0 then .nan else .posInf)
    else .int ⌈(length : ℚ) / (l : ℚ)⌉
  | .posInf => .int 0
  | .negInf => .int 0
  | .nan => .nan

/-- The expression `parseInt(s, 10) || d` as a number. -/
def orDefaultNumber (x : Option Int) (d : Int) : JsNumber :=
  match x with
  | none => .int d
  | some n => if n = 0 then .int d else toDouble n

/-- Line 62 as a number. -/
def pageNumber (query : Query) : JsNumber :=
  orDefaultNumber (parseInt (query.page.getD "1")) 1

/-- Line 63 as a number. -/
def limitNumber (query : Query) : JsNumber :=
  orDefaultNumber (parseInt (query.limit.getD "undefined")) 10

/-- The `pagination` object with its numbers as doubles. -/
structure PaginationNumber where
  currentPage : JsNumber
  totalItems : Nat
  totalPages : JsNumber
  itemsPerPage : JsNumber
  hasNextPage : Bool
  hasPrevPage : Bool
deriving DecidableEq

/-- The body of the list response with its numbers as doubles. -/
structure ItemsResponseNumber where
  items : List Record
  pagination : PaginationNumber
deriving DecidableEq

/-- Lines 64-80 on doubles. -/
def paginateNumber (results : List Record) (pageNum limitNum : JsNumber) :
    ItemsResponseNumber :=
  let startIndex := numMul (numAdd pageNum (.int (-1))) limitNum
  let endIndex := numAdd startIndex limitNum
  let paginatedResults := jsSliceNumber results startIndex endIndex
  { items := paginatedResults
    pagination :=
      { currentPage := pageNum
        totalItems := results.length
        totalPages := ceilDiv results.length limitNum
        itemsPerPage := limitNum
        hasNextPage := numLt endIndex (results.length : Int)
        hasPrevPage := numGt pageNum 1 } }

/-- The handler of `GET /api/items`, lines 45-84, with its numbers as doubles. -/
def getItemsNumber (c : ItemsCache) (fs : Fs) (query : Query) :
    Outcome ItemsResponseNumber × ItemsCache × List IoOp :=
  match readData c fs with
  | (.error err, c1, ops) => (.next err, c1, ops)
  | (.ok data, c1, ops) =>
    let results := searchResults data query.q
    (.json 200 (paginateNumber results (pageNumber query) (limitNumber query)), c1, ops)

/-! ## items.js: GET /:id -/

/-- The error thrown at lines 92-94. -/
def notFoundError : JsError := ⟨"Item not found", some 404⟩

/-- Line 90: `data.find((i) => i.id === parseInt(req.params.id, 10))`; a `NaN` id is
strictly equal to nothing. -/
def findItem (data : List Record) (idParam : String) : Option Record :=
  match parseInt idParam with
  | none => none
  | some n => data.find? (fun i => decide (i.id = n))

/-- The handler of `GET /api/items/:id`, lines 87-100. -/
def getItemById (c : ItemsCache) (fs : Fs) (idParam : String) :
    Outcome Record × ItemsCache × List IoOp :=
  match readData c fs with
  | (.error err, c1, ops) => (.next err, c1, ops)
  | (.ok data, c1, ops) =>
    match findItem data idParam with
    | none => (.next notFoundError, c1, ops)
    | some item => (.json 200 item, c1, ops)

/-! ## items.js: POST / -/

/-- A value of a JSON request body field; `undefined` is a missing field. A `number` is a
finite number: the `Infinity` that `JSON.parse` reads from a numeral such as `1e999` is not
a value of this type. -/
inductive JsValue where
  | undefined
  | null
  | bool (b : Bool)
  | number (x : ℚ)
  | string (s : String)
  | object
  | array
deriving DecidableEq

/-- The destructured request body `{ name, category, price }`. -/
structure Body where
  name : JsValue
  category : JsValue
  price : JsValue
deriving DecidableEq

/-- `!v`: the falsy values are undefined, null, false, 0 and the empty string. -/
def falsy : JsValue → Bool
  | .undefined => true
  | .null => true
  | .bool b => !b
  | .number x => decide (x = 0)
  | .string s => s.data.isEmpty
  | .object => false
  | .array => false

/-- `typeof v`. -/
def typeOf : JsValue → String
  | .undefined => "undefined"
  | .null => "object"
  | .bool _ => "boolean"
  | .number _ => "number"
  | .string _ => "string"
  | .object => "object"
  | .array => "object"

/-- The string held by a value whose `typeof` is "string". -/
def JsValue.str : JsValue → String
  | .string s => s
  | _ => ""

/-- `Number(v)` for a value whose `typeof` is "number". -/
def JsValue.num : JsValue → ℚ
  | .number x => x
  | _ => 0

/-- Lines 108 and 115-117: `!v || typeof v !== "string" || v.trim().length === 0`. -/
def invalidText (v : JsValue) : Bool :=
  falsy v || typeOf v != "string" || (trim v.str).data.length == 0

/-- Lines 127-130:
`price === undefined || price === null || typeof price !== "number" || price < 0`. -/
def invalidPrice (v : JsValue) : Bool :=
  v == .undefined || v == .null || typeOf v != "number" || decide (v.num < 0)

/-- The error thrown at lines 109-111. -/
def nameError : JsError := ⟨"Name is required and must be a non-empty string", some 400⟩

/-- The error thrown at lines 119-123. -/
def categoryError : JsError := ⟨"Category is required and must be a non-empty string", some 400⟩

/-- The error thrown at lines 132-136. -/
def priceError : JsError := ⟨"Price is required and must be a non-negative number", some 400⟩

/-- Lines 140-145: the record built from a validated body; `now` is `Date.now()`. -/
def newItem (body : Body) (now : Int) : Record :=
  { id := now, name := trim body.name.str, category := trim body.category.str,
    price := body.price.num }

/-- The handler of `POST /api/items`, lines 103-153. `now` is `Date.now()` at line 141;
`nowW` and `mtimeW` are the clock readings of `writeData`. The array `data` returned by
`readData` is the cached array itself, so `data.push(item)` changes `dataCache` before
anything is written. -/
def postItem (c : ItemsCache) (fs : Fs) (body : Body) (now nowW mtimeW : Int) :
    Outcome Record × ItemsCache × Fs × List IoOp :=
  if invalidText body.name then (.next nameError, c, fs, [])
  else if invalidText body.category then (.next categoryError, c, fs, [])
  else if invalidPrice body.price then (.next priceError, c, fs, [])
  else
    match readData c fs with
    | (.error err, c1, ops) => (.next err, c1, fs, ops)
    | (.ok data, c1, ops) =>
      let item := newItem body now
      let pushed := data ++ [item]
      let c2 : ItemsCache := { c1 with dataCache := some pushed }
      match writeData c2 fs pushed nowW mtimeW with
      | (.error err, c3, fs3, ops3) => (.next err, c3, fs3, ops ++ ops3)
      | (.ok _, c3, fs3, ops3) => (.json 201 item, c3, fs3, ops ++ ops3)

/-! ## stats.js -/

/-- One entry of the `categories` mapping. -/
structure CategoryStat where
  count : Nat
  averagePrice : ℚ
deriving DecidableEq

/-- The `priceRange` object. -/
structure PriceRange where
  min : ℚ
  max : ℚ
deriving DecidableEq

/-- The statistics summary; `none` for `categories` or `priceRange` means the key is not
there. The `categories` mapping is the list of its entries; their order carries no meaning. -/
structure Statistics where
  total : Nat
  averagePrice : ℚ
  categories : Option (List (String × CategoryStat))
  priceRange : Option PriceRange
deriving DecidableEq

/-- The module-level variables `statsCache` and `lastStatsUpdate` of stats.js. -/
structure StatsCache where
  statsCache : Option Statistics
  lastStatsUpdate : Option Int
deriving DecidableEq

/-- Line 11: `5 * 60 * 1000`. -/
def CACHE_DURATION : Int := 5 * 60 * 1000

/-- The property names a plain object `{}` inherits from `Object.prototype`. -/
def objectPrototypeKeys : List String :=
  ["constructor", "__defineGetter__", "__defineSetter__", "hasOwnProperty",
   "__lookupGetter__", "__lookupSetter__", "isPrototypeOf", "propertyIsEnumerable",
   "toString", "valueOf", "__proto__", "toLocaleString"]

/-- What `obj[key]` finds on a plain object. -/
inductive Lookup (α : Type) where
  | own (v : α)
  | inherited
  | absent

/-- The own properties of a plain object `{}`, in insertion order. -/
abbrev JsObject (α : Type) := List (String × α)

/-- `obj[key]`: an own property, else a member of `Object.prototype` (a function, or the
prototype object for `__proto__`: truthy, and without a `push` method), else `undefined`. -/
def JsObject.get {α : Type} (obj : JsObject α) (key : String) : Lookup α :=
  match obj.lookup key with
  | some v => .own v
  | none => if objectPrototypeKeys.contains key then .inherited else .absent

/-- `obj[key] = v`: overwrite the own property, or add it after the existing ones. -/
def JsObject.set {α : Type} : JsObject α → String → α → JsObject α
  | [], key, v => [(key, v)]
  | (k, w) :: rest, key, v =>
    if k = key then (k, v) :: rest else (k, w) :: JsObject.set rest key v

/-- The `TypeError` raised when `categoryPrices[item.category].push` is not callable. -/
def pushTypeError : JsError :=
  ⟨"categoryPrices[item.category].push is not a function", none⟩

/-- The `TypeError` raised when `categoryPrices[item.category]` is `undefined`. -/
def undefinedTypeError : JsError :=
  ⟨"Cannot read properties of undefined (reading push)", none⟩

/-- `categoryPrices[item.category].push(item.price)`, line 79. -/
def pushPrice (categoryPrices : JsObject (List ℚ)) (item : Record) :
    Except JsError (JsObject (List ℚ)) :=
  match categoryPrices.get item.category with
  | .own ps => .ok (categoryPrices.set item.category (ps ++ [item.price]))
  | .inherited => .error pushTypeError
  | .absent => .error undefinedTypeError

/-- The body of the `forEach` callback, lines 74-79, on the two accumulator objects.
When `categoryCount[item.category]` is an inherited member it is truthy, so nothing is
initialised; the increment stores `NaN`, and `categoryPrices[item.category]`, which has the
same own keys as `categoryCount`, is the same inherited member, whose `push` is not
callable: the callback throws. -/
def categoryStep (categoryCount : JsObject Nat) (categoryPrices : JsObject (List ℚ))
    (item : Record) : Except JsError (JsObject Nat × JsObject (List ℚ)) :=
  match categoryCount.get item.category with
  | .inherited => .error pushTypeError
  | .absent =>
    let categoryCount := categoryCount.set item.category 0
    let categoryPrices := categoryPrices.set item.category []
    match pushPrice categoryPrices item with
    | .error err => .error err
    | .ok prices => .ok (categoryCount.set item.category (0 + 1), prices)
  | .own n =>
    if n = 0 then
      let categoryCount := categoryCount.set item.category 0
      let categoryPrices := categoryPrices.set item.category []
      match pushPrice categoryPrices item with
      | .error err => .error err
      | .ok prices => .ok (categoryCount.set item.category (0 + 1), prices)
    else
      match pushPrice categoryPrices item with
      | .error err => .error err
      | .ok prices => .ok (categoryCount.set item.category (n + 1), prices)

/-- The `items.forEach` loop of lines 73-80. -/
def groupItems : List Record → JsObject Nat → JsObject (List ℚ) →
    Except JsError (JsObject Nat × JsObject (List ℚ))
  | [], categoryCount, categoryPrices => .ok (categoryCount, categoryPrices)
  | item :: rest, categoryCount, categoryPrices =>
    match categoryStep categoryCount categoryPrices item with
    | .error err => .error err
    | .ok (count1, prices1) => groupItems rest count1 prices1

/-- The prices collected for an own key (`categoryPrices[category]`, line 86). -/
def pricesOf (categoryPrices : JsObject (List ℚ)) (category : String) : List ℚ :=
  match categoryPrices.get category with
  | .own ps => ps
  | _ => []

/-- `getCategoryStats(items)` of stats.js, lines 69-91. -/
def getCategoryStats (items : List Record) : Except JsError (JsObject CategoryStat) :=
  match groupItems items [] [] with
  | .error err => .error err
  | .ok (categoryCount, categoryPrices) =>
    .ok (categoryCount.foldl
      (fun categoryStats entry =>
        categoryStats.set entry.1
          { count := entry.2, averagePrice := round2 (mean (pricesOf categoryPrices entry.1)) })
      [])

/-- Line 40: the summary for an empty store. -/
def emptyStats : Statistics :=
  { total := 0, averagePrice := 0, categories := none, priceRange := none }

/-- Lines 46-56: the summary computed from a non-empty record sequence. -/
def computeStats (item : Record) (rest : List Record) : Except JsError Statistics :=
  let items := item :: rest
  let prices := items.map (fun i => i.price)
  match getCategoryStats items with
  | .error err => .error err
  | .ok categories =>
    .ok { total := items.length
          averagePrice := round2 (mean prices)
          categories := some categories
          priceRange := some { min := mathMin item.price (rest.map (fun i => i.price))
                               max := mathMax item.price (rest.map (fun i => i.price)) } }

/-- Lines 19-23: the cached summary when `statsCache && lastStatsUpdate &&
now - lastStatsUpdate < CACHE_DURATION` holds. -/
def wallClockHit (c : StatsCache) (now : Int) : Option Statistics :=
  match c.statsCache, c.lastStatsUpdate with
  | some cached, some last => if now - last < CACHE_DURATION then some cached else none
  | _, _ => none

/-- Line 31: the cached summary when
`statsCache && lastStatsUpdate && fileStats.mtime <= lastStatsUpdate` holds. -/
def storageHit (c : StatsCache) (mtime : Int) : Option Statistics :=
  match c.statsCache, c.lastStatsUpdate with
  | some cached, some last => if mtime ≤ last then some cached else none
  | _, _ => none

/-- The handler of `GET /api/stats`, lines 14-66; `now` is `new Date()` at line 16. -/
def getStatistics (c : StatsCache) (fs : Fs) (now : Int) :
    Outcome Statistics × StatsCache × List IoOp :=
  match wallClockHit c now with
  | some cached => (.json 200 cached, c, [])
  | none =>
    if fs.statFails then (.next statError, c, [.stat])
    else
      match storageHit c fs.mtime with
      | some cached => (.json 200 cached, c, [.stat])
      | none =>
        if fs.readFails then (.next readError, c, [.stat, .readFile])
        else
          match jsonParse fs.raw with
          | .error err => (.next err, c, [.stat, .readFile])
          | .ok [] =>
            (.json 200 emptyStats, { statsCache := some emptyStats, lastStatsUpdate := some now },
              [.stat, .readFile])
          | .ok (item :: rest) =>
            match computeStats item rest with
            | .error err => (.next err, c, [.stat, .readFile])
            | .ok stats =>
              (.json 200 stats, { statsCache := some stats, lastStatsUpdate := some now },
                [.stat, .readFile])

/-- The record invariant of the data model: a non-empty name, a non-empty category and a
price that is at least 0. -/
def Record.WellFormed (r : Record) : Prop :=
  r.name ≠ "" ∧ r.category ≠ "" ∧ 0 ≤ r.price

/-- Every record the store holds, in the cached snapshot and in the data file, is well
formed. -/
def StoreWellFormed (c : ItemsCache) (fs : Fs) : Prop :=
  (∀ items, c.dataCache = some items → ∀ r ∈ items, r.WellFormed) ∧
  (∀ items, fs.raw = .json items → ∀ r ∈ items, r.WellFormed)

/-! ## The back end as a whole -/

/-- The state of the whole back end: the module-level variables of items.js, those of
stats.js, and the data file. -/
structure Server where
  items : ItemsCache
  stats : StatsCache
  fs : Fs
deriving DecidableEq

/-- The request `GET /api/items/:id` on the whole back end: the handler of items.js runs on
the variables of its own module; it cannot reach the variables of stats.js and it writes
nothing to the file. -/
def serveGetItemById (s : Server) (idParam : String) : Outcome Record × Server × List IoOp :=
  ((getItemById s.items s.fs idParam).1,
    { s with items := (getItemById s.items s.fs idParam).2.1 },
    (getItemById s.items s.fs idParam).2.2)

/-- The item list of a list response with its numbers as doubles (nothing when the handler
ended in `next(err)`). -/
def responseItemsNumber (out : Outcome ItemsResponseNumber) : List Record :=
  match out with
  | .json _ body => body.items
  | .next _ => []

/-- The items `GET /api/items` returns for page `page` with `limit` items per page and
search term `q`, both numbers sent as their decimal digits and read as doubles. -/
def pageItemsNumber (c : ItemsCache) (fs : Fs) (limit : Nat) (q : Option String) (page : Nat) :
    List Record :=
  responseItemsNumber (getItemsNumber c fs ⟨some (toString limit), some (toString page), q⟩).1

/-! ## middleware/errorHandler.js -/

/-- The properties of an error value that `errorHandler` reads: `name`, `code`, `status` (an
own enumerable property, as the handlers set it), `message`, `stack`, and `errors`, given by
the `message` of each of its values (`none` when `err.errors` is undefined). -/
structure ErrorValue where
  name : Option String
  code : JsValue
  status : Option Nat
  message : Option String
  stack : Option String
  errors : Option (List (Option String))
deriving DecidableEq

/-- The `message` of the response body: a string, or the array of messages built for a
`ValidationError`. -/
inductive BodyMessage where
  | text (s : String)
  | list (messages : List (Option String))
deriving DecidableEq

/-- What `errorHandler` sends: `res.status(status).json(body)` with `success: false` and
`error: { message, stack }`, the `stack` key only in development. -/
structure ErrorResponse where
  status : Nat
  success : Bool
  message : BodyMessage
  stack : Option String
deriving DecidableEq

/-- The local variable `error` of `errorHandler`: its `message` and `status`. -/
structure ErrorCopy where
  message : Option BodyMessage
  status : Option Nat
deriving DecidableEq

/-- The `TypeError` of `Object.values(undefined)`. -/
def objectValuesTypeError : JsError := ⟨"Cannot convert undefined or null to object", none⟩

/-- The expression `error.status || 500`: a missing status and the status 0 are falsy. -/
def statusOr (status : Option Nat) (d : Nat) : Nat :=
  match status with
  | none => d
  | some n => if n = 0 then d else n

/-- The expression `error.message || 'Server Error'`: a missing message and the empty string
are falsy, an array is truthy. -/
def messageOr (message : Option BodyMessage) (d : String) : BodyMessage :=
  match message with
  | none => .text d
  | some (.text s) => if s.data.isEmpty then .text d else .text s
  | some (.list ms) => .list ms

/-- `errorHandler(err, req, res, next)` of errorHandler.js, lines 9-41; `development` is
`process.env.NODE_ENV === 'development'`. The result is the response sent, or the error
thrown by the handler itself. -/
def errorHandler (err : ErrorValue) (development : Bool) : Except JsError ErrorResponse :=
  -- lines 10-11: let error = { ...err }; error.message = err.message
  let error : ErrorCopy := { message := err.message.map BodyMessage.text, status := err.status }
  -- lines 17-20
  let error : ErrorCopy :=
    if err.name = some "CastError" then
      { message := some (.text "Resource not found"), status := some 404 }
    else error
  -- lines 23-26
  let error : ErrorCopy :=
    if err.code = .number 11000 then
      { message := some (.text "Duplicate field value entered"), status := some 400 }
    else error
  -- lines 29-32
  let checked : Except JsError ErrorCopy :=
    if err.name = some "ValidationError" then
      match err.errors with
      | none => .error objectValuesTypeError
      | some values => .ok { message := some (.list values), status := some 400 }
    else .ok error
  -- lines 34-40
  match checked with
  | .error thrown => .error thrown
  | .ok error =>
    .ok { status := statusOr error.status 500
          success := false
          message := messageOr error.message "Server Error"
          stack := if development then err.stack else none }

/-- The error value that reaches `errorHandler` when a route handler calls `next(err)` with
one of the errors of this model: its name is that of a built-in error class, it has no
numeric `code` and no `errors`. -/
def JsError.toErrorValue (e : JsError) : ErrorValue :=
  { name := some "Error", code := .undefined, status := e.status, message := some e.message,
    stack := none, errors := none }

/-! ## Sample data (the records of the test suite) -/

/-- The first record of `testItems` in items.test.js. -/
def sampleRecord1 : Record := ⟨1, "Test Laptop", "Electronics", 1000⟩

/-- The second record of `testItems` in items.test.js. -/
def sampleRecord2 : Record := ⟨2, "Test Chair", "Furniture", 500⟩

/-- A data file holding the two test records, modified at time 5, with working storage. -/
def sampleFs : Fs := ⟨5, .json [sampleRecord1, sampleRecord2], false, false, false⟩

/-- The same data file on storage that rejects writes. -/
def readOnlyFs : Fs := ⟨5, .json [sampleRecord1, sampleRecord2], false, false, true⟩

/-- The cache right after it loaded `sampleFs`. -/
def loadedCache : ItemsCache := ⟨some [sampleRecord1, sampleRecord2], some 5⟩

/-- The cache at process start. -/
def emptyCache : ItemsCache := ⟨none, none⟩

/-- The valid body of the test "should create new item with valid data". -/
def sampleBody : Body := ⟨.string "Test Product", .string "Test Category", .number 299⟩

/-- A statistics cache holding the empty-store summary, computed at time 1000. -/
def warmStatsCache : StatsCache := ⟨some emptyStats, some 1000⟩

/-- A record whose category names a member of `Object.prototype`. -/
def inheritedNameRecord : Record := ⟨3, "Widget", "constructor", 10⟩

/-- A record whose name is the letter A followed by the Greek capital sigma. -/
def sigmaRecord : Record := ⟨4, ⟨['A', capitalSigma]⟩, "Tools", 1⟩

/-- The search term made of the Greek capital sigma alone. -/
def sigmaTerm : String := ⟨[capitalSigma]⟩

/-- A data file holding `sigmaRecord` alone, with working storage. -/
def sigmaFs : Fs := ⟨5, .json [sigmaRecord], false, false, false⟩

/-- The back end at process start, before any request, over the test data file. -/
def freshServer : Server := ⟨emptyCache, warmStatsCache, sampleFs⟩

/-- An error named `CastError` that carries a status and a message of its own. -/
def castError : ErrorValue :=
  { name := some "CastError", code := .undefined, status := some 418,
    message := some "teapot", stack := none, errors := none }

/-! ## Helper lemmas -/

theorem jsSlice_of_nat {α : Type} (xs : List α) (a b : Nat) :
    jsSlice xs (a : Int) ((a : Int) + (b : Int)) = (xs.drop a).take b := by
  unfold jsSlice
  have h1 : ¬ ((a : Int) < 0) := by omega
  have h2 : ¬ ((a : Int) + (b : Int) < 0) := by omega
  simp only [h1, h2, if_false]
  by_cases h : a ≤ xs.length
  · have hk : (min (a : Int) (xs.length : Int)).toNat = a := by omega
    rw [hk]
    have hf : (min ((a : Int) + (b : Int)) (xs.length : Int)
        - min (a : Int) (xs.length : Int)).toNat = min b (xs.length - a) := by omega
    rw [hf]
    rw [List.take_eq_take]
    simp
  · have hk : (min (a : Int) (xs.length : Int)).toNat = xs.length := by omega
    rw [hk]
    have : xs.drop a = [] := by
      apply List.drop_eq_nil_of_le; omega
    simp [this]

theorem includesChars_iff (s t : List Char) : includesChars s t = true ↔ t <:+: s := by
  induction s with
  | nil => simp [includesChars]
  | cons c cs ih =>
    simp only [includesChars, Bool.or_eq_true, ih, List.isPrefixOf_iff_prefix]
    rw [List.infix_cons_iff]

theorem includes_iff (s t : String) : includes s t = true ↔ t.data <:+: s.data :=
  includesChars_iff s.data t.data

theorem lookup_isSome_iff {α : Type} (obj : JsObject α) (key : String) :
    (List.lookup key obj).isSome = true ↔ key ∈ obj.map Prod.fst := by
  induction obj with
  | nil => simp
  | cons e rest ih =>
    obtain ⟨k, w⟩ := e
    by_cases h : key = k
    · subst h; simp [List.lookup]
    · have hb : (key == k) = false := by simpa using h
      simp [List.lookup, hb, ih, h]

theorem set_keys {α : Type} (obj : JsObject α) (key : String) (v : α) :
    (JsObject.set obj key v).map Prod.fst =
      if key ∈ obj.map Prod.fst then obj.map Prod.fst else obj.map Prod.fst ++ [key] := by
  induction obj with
  | nil => simp [JsObject.set]
  | cons e rest ih =>
    obtain ⟨k, w⟩ := e
    by_cases h : k = key
    · subst h; simp [JsObject.set]
    · have h2 : ¬ key = k := fun e => h e.symm
      simp only [JsObject.set, h, if_false, List.map_cons, ih, List.mem_cons, h2, false_or]
      split_ifs <;> simp

theorem lookup_set_self {α : Type} (obj : JsObject α) (key : String) (v : α) :
    List.lookup key (JsObject.set obj key v) = some v := by
  induction obj with
  | nil => simp [JsObject.set, List.lookup]
  | cons e rest ih =>
    obtain ⟨k, w⟩ := e
    by_cases h : k = key
    · subst h; simp [JsObject.set, List.lookup]
    · have hb : (key == k) = false := by simpa using (fun e : key = k => h e.symm)
      simp [JsObject.set, h, List.lookup, hb, ih]

theorem pushPrice_ok (categoryPrices : JsObject (List ℚ)) (item : Record)
    (h : item.category ∈ categoryPrices.map Prod.fst) :
    ∃ prices, pushPrice categoryPrices item = .ok prices ∧
      prices.map Prod.fst = categoryPrices.map Prod.fst := by
  have hs := (lookup_isSome_iff categoryPrices item.category).2 h
  obtain ⟨ps, hps⟩ := Option.isSome_iff_exists.1 hs
  refine ⟨categoryPrices.set item.category (ps ++ [item.price]), ?_, ?_⟩
  · simp [pushPrice, JsObject.get, hps]
  · rw [set_keys, if_pos h]

theorem categoryStep_ok (categoryCount : JsObject Nat) (categoryPrices : JsObject (List ℚ))
    (item : Record) (hkeys : categoryCount.map Prod.fst = categoryPrices.map Prod.fst)
    (hcat : item.category ∉ objectPrototypeKeys) :
    ∃ count1 prices1, categoryStep categoryCount categoryPrices item = .ok (count1, prices1) ∧
      count1.map Prod.fst = prices1.map Prod.fst := by
  have hnot : objectPrototypeKeys.contains item.category = false := by
    simpa using hcat
  have hinit : ∃ count1 prices1,
      (match pushPrice (JsObject.set categoryPrices item.category []) item with
        | .error err => (Except.error err : Except JsError (JsObject Nat × JsObject (List ℚ)))
        | .ok prices =>
          .ok (JsObject.set (JsObject.set categoryCount item.category 0) item.category (0 + 1),
            prices)) = .ok (count1, prices1) ∧
      count1.map Prod.fst = prices1.map Prod.fst := by
    have hmem : item.category ∈ (JsObject.set categoryPrices item.category []).map Prod.fst := by
      rw [← lookup_isSome_iff, lookup_set_self]; rfl
    obtain ⟨prices, hp, hk⟩ := pushPrice_ok _ item hmem
    refine ⟨_, prices, by rw [hp], ?_⟩
    rw [hk, set_keys, set_keys, set_keys, hkeys]
    split_ifs <;> simp_all
  unfold categoryStep
  cases hl : List.lookup item.category categoryCount with
  | none =>
    simp only [JsObject.get, hl, hnot]
    exact hinit
  | some n =>
    simp only [JsObject.get, hl]
    by_cases hn : n = 0
    · simp only [hn, if_true]
      exact hinit
    · simp only [hn, if_false]
      have hmem : item.category ∈ categoryPrices.map Prod.fst := by
        rw [← hkeys, ← lookup_isSome_iff, hl]; rfl
      obtain ⟨prices, hp, hk⟩ := pushPrice_ok _ item hmem
      refine ⟨_, prices, by rw [hp], ?_⟩
      rw [hk, set_keys, hkeys, if_pos hmem]

theorem groupItems_ok (items : List Record) :
    ∀ (categoryCount : JsObject Nat) (categoryPrices : JsObject (List ℚ)),
      categoryCount.map Prod.fst = categoryPrices.map Prod.fst →
      (∀ r ∈ items, r.category ∉ objectPrototypeKeys) →
      ∃ count1 prices1, groupItems items categoryCount categoryPrices = .ok (count1, prices1) ∧
        count1.map Prod.fst = prices1.map Prod.fst := by
  induction items with
  | nil =>
    intro categoryCount categoryPrices hkeys _
    exact ⟨categoryCount, categoryPrices, rfl, hkeys⟩
  | cons item rest ih =>
    intro categoryCount categoryPrices hkeys hcat
    obtain ⟨count1, prices1, hstep, hk1⟩ :=
      categoryStep_ok categoryCount categoryPrices item hkeys
        (hcat item (List.mem_cons_self _ _))
    obtain ⟨count2, prices2, hrest, hk2⟩ :=
      ih count1 prices1 hk1 (fun r hr => hcat r (List.mem_cons_of_mem _ hr))
    exact ⟨count2, prices2, by simp only [groupItems, hstep, hrest], hk2⟩

theorem getCategoryStats_ok (items : List Record)
    (hcat : ∀ r ∈ items, r.category ∉ objectPrototypeKeys) :
    ∃ categories, getCategoryStats items = .ok categories := by
  obtain ⟨count1, prices1, h, _⟩ := groupItems_ok items [] [] rfl hcat
  simp only [getCategoryStats, h]
  exact ⟨_, rfl⟩


theorem computeStats_ok (item : Record) (rest : List Record)
    (hcat : ∀ r ∈ item :: rest, r.category ∉ objectPrototypeKeys) :
    ∃ stats, computeStats item rest = .ok stats := by
  obtain ⟨categories, h⟩ := getCategoryStats_ok (item :: rest) hcat
  simp only [computeStats, h]
  exact ⟨_, rfl⟩

theorem computeStats_fields (item : Record) (rest : List Record) (stats : Statistics)
    (h : computeStats item rest = .ok stats) :
    stats.total = (item :: rest).length ∧
    stats.averagePrice = round2 (mean ((item :: rest).map (fun i => i.price))) ∧
    stats.priceRange = some ⟨mathMin item.price (rest.map (fun i => i.price)),
      mathMax item.price (rest.map (fun i => i.price))⟩ := by
  unfold computeStats at h
  cases hc : getCategoryStats (item :: rest) with
  | error err => simp [hc] at h
  | ok categories =>
    simp only [hc, Except.ok.injEq] at h
    subst h
    exact ⟨rfl, rfl, rfl⟩


theorem trim_eq_empty_iff (s : String) : (trim s).data.length = 0 ↔ trim s = "" := by
  constructor
  · intro h
    apply String.ext
    exact List.length_eq_zero.1 h
  · intro h
    rw [h]; rfl

theorem trim_of_empty (s : String) (h : s.data.isEmpty = true) : trim s = "" := by
  apply String.ext
  have : s.data = [] := by simpa using h
  simp [trim, trimChars, this]

theorem invalidText_eq_false_iff (v : JsValue) :
    invalidText v = false ↔ ∃ s, v = .string s ∧ trim s ≠ "" := by
  cases v with
  | string s =>
    simp only [invalidText, falsy, typeOf, JsValue.str, JsValue.string.injEq, exists_eq_left']
    constructor
    · intro h
      simp only [Bool.or_eq_false_iff, beq_eq_false_iff_ne, ne_eq] at h
      intro he
      exact h.2 ((trim_eq_empty_iff s).2 he)
    · intro h
      have h1 : s.data.isEmpty = false := by
        by_contra hc
        exact h (trim_of_empty s (by simpa using hc))
      have h2 : ((trim s).data.length == 0) = false := by
        simpa using fun he => h ((trim_eq_empty_iff s).1 he)
      rw [h1, h2]; rfl
  | _ => simp [invalidText, falsy, typeOf]

theorem invalidPrice_eq_false_iff (v : JsValue) :
    invalidPrice v = false ↔ ∃ x, v = .number x ∧ 0 ≤ x := by
  cases v <;> simp [invalidPrice, typeOf, JsValue.num]

theorem readData_error_status (c : ItemsCache) (fs : Fs) (err : JsError) (c1 : ItemsCache)
    (ops : List IoOp) (h : readData c fs = (.error err, c1, ops)) : err.status = none := by
  have hrefresh : ∀ res, refreshCache c fs = (.error res, c1, ops) → res.status = none := by
    intro res hres
    unfold refreshCache at hres
    split_ifs at hres
    · simp only [Prod.mk.injEq, Except.error.injEq] at hres; rw [← hres.1]; rfl
    · cases hr : fs.raw with
      | json items => simp [hr, jsonParse] at hres
      | malformed =>
        simp only [hr, jsonParse, Prod.mk.injEq, Except.error.injEq] at hres
        rw [← hres.1]; rfl
  unfold readData at h
  split_ifs at h
  · simp only [Prod.mk.injEq, Except.error.injEq] at h; rw [← h.1]; rfl
  · split at h
    · split_ifs at h
      · exact hrefresh err h
      · simp at h
    · exact hrefresh err h


theorem writeData_error_status (c : ItemsCache) (fs : Fs) (data : List Record) (nowW mtimeW : Int)
    (err : JsError) (c1 : ItemsCache) (fs1 : Fs) (ops : List IoOp)
    (h : writeData c fs data nowW mtimeW = (.error err, c1, fs1, ops)) : err.status = none := by
  unfold writeData at h
  split_ifs at h
  · simp only [Prod.mk.injEq, Except.error.injEq] at h; rw [← h.1]; rfl
  · simp at h

theorem postItem_of_valid (c : ItemsCache) (fs : Fs) (body : Body) (now nowW mtimeW : Int)
    (hname : invalidText body.name = false) (hcategory : invalidText body.category = false)
    (hprice : invalidPrice body.price = false) :
    (∃ c1 fs1 ops, postItem c fs body now nowW mtimeW = (.json 201 (newItem body now), c1, fs1, ops)) ∨
    (∃ err c1 fs1 ops, postItem c fs body now nowW mtimeW = (.next err, c1, fs1, ops) ∧
      err.status = none) := by
  unfold postItem
  simp only [hname, hcategory, hprice, Bool.false_eq_true, if_false]
  rcases hr : readData c fs with ⟨res, c1, ops⟩
  cases res with
  | error err =>
    exact Or.inr ⟨err, c1, fs, ops, rfl, readData_error_status c fs err c1 ops hr⟩
  | ok data =>
    simp only
    rcases hw : writeData { c1 with dataCache := some (data ++ [newItem body now]) } fs
      (data ++ [newItem body now]) nowW mtimeW with ⟨res, c3, fs3, ops3⟩
    cases res with
    | error err =>
      exact Or.inr ⟨err, c3, fs3, ops ++ ops3, rfl, writeData_error_status _ _ _ _ _ _ _ _ _ hw⟩
    | ok u =>
      exact Or.inl ⟨c3, fs3, ops ++ ops3, rfl⟩


theorem wallClockHit_some (c : StatsCache) (now : Int) (cached : Statistics)
    (h : wallClockHit c now = some cached) : c.statsCache = some cached := by
  unfold wallClockHit at h
  split at h
  · next s l hs hl =>
    split_ifs at h
    simp only [Option.some.injEq] at h
    rw [hs, h]
  · simp at h

theorem storageHit_some (c : StatsCache) (mtime : Int) (cached : Statistics)
    (h : storageHit c mtime = some cached) : c.statsCache = some cached := by
  unfold storageHit at h
  split at h
  · next s l hs hl =>
    split_ifs at h
    simp only [Option.some.injEq] at h
    rw [hs, h]
  · simp at h

theorem getStatistics_cache_after (c0 : StatsCache) (fs0 : Fs) (now0 : Int)
    (first : Statistics) (c : StatsCache) (ops0 : List IoOp)
    (h : getStatistics c0 fs0 now0 = (.json 200 first, c, ops0)) :
    c.statsCache = some first := by
  unfold getStatistics at h
  cases hw : wallClockHit c0 now0 with
  | some cached =>
    simp only [hw, Prod.mk.injEq, Outcome.json.injEq, true_and] at h
    rw [← h.2.1, ← h.1]
    exact wallClockHit_some c0 now0 cached hw
  | none =>
    simp only [hw] at h
    cases hsf : fs0.statFails with
    | true => simp [hsf] at h
    | false =>
      simp only [hsf, Bool.false_eq_true, if_false] at h
      cases hs : storageHit c0 fs0.mtime with
      | some cached =>
        simp only [hs, Prod.mk.injEq, Outcome.json.injEq, true_and] at h
        rw [← h.2.1, ← h.1]
        exact storageHit_some c0 fs0.mtime cached hs
      | none =>
        simp only [hs] at h
        cases hrf : fs0.readFails with
        | true => simp [hrf] at h
        | false =>
          simp only [hrf, Bool.false_eq_true, if_false] at h
          cases hraw : fs0.raw with
          | malformed => simp [hraw, jsonParse] at h
          | json items =>
            cases items with
            | nil =>
              simp only [hraw, jsonParse, Prod.mk.injEq, Outcome.json.injEq, true_and] at h
              rw [← h.2.1, ← h.1]
            | cons item rest =>
              simp only [hraw, jsonParse] at h
              cases hc : computeStats item rest with
              | error err => simp [hc] at h
              | ok stats =>
                simp only [hc, Prod.mk.injEq, Outcome.json.injEq, true_and] at h
                rw [← h.2.1, ← h.1]

theorem getStatistics_ops_of_miss (c : StatsCache) (fs : Fs) (now : Int)
    (h : wallClockHit c now = none) :
    (getStatistics c fs now).2.2.head? = some IoOp.stat := by
  simp only [getStatistics, h]
  cases fs.statFails with
  | true => rfl
  | false =>
    simp only [Bool.false_eq_true, if_false]
    cases storageHit c fs.mtime with
    | some cached => rfl
    | none =>
      simp only
      cases fs.readFails with
      | true => rfl
      | false =>
        simp only [Bool.false_eq_true, if_false]
        cases fs.raw with
        | malformed => rfl
        | json items =>
          cases items with
          | nil => rfl
          | cons item rest =>
            simp only [jsonParse]
            cases computeStats item rest <;> rfl

theorem digitChar_facts (d : Nat) (h : d < 10) :
    (Nat.digitChar d).isDigit = true ∧ ((Nat.digitChar d).toNat - 48 : Nat) = d ∧
    isJsWhiteSpace (Nat.digitChar d) = false ∧ Nat.digitChar d ≠ '-' ∧ Nat.digitChar d ≠ '+' := by
  interval_cases d <;> decide

theorem toDigitsCore_acc (fuel : Nat) : ∀ (n : Nat) (ds : List Char),
    Nat.toDigitsCore 10 fuel n ds = Nat.toDigitsCore 10 fuel n [] ++ ds := by
  induction fuel with
  | zero => intro n ds; simp [Nat.toDigitsCore]
  | succ fuel ih =>
    intro n ds
    simp only [Nat.toDigitsCore]
    split_ifs
    · simp
    · rw [ih (n / 10) (Nat.digitChar (n % 10) :: ds), ih (n / 10) [Nat.digitChar (n % 10)]]
      simp

theorem digitsValue_append_singleton (xs : List Char) (d : Char) :
    digitsValue (xs ++ [d]) = digitsValue xs * 10 + ((d.toNat - 48 : Nat) : Int) := by
  simp [digitsValue, List.foldl_append]

theorem toDigitsCore_spec (fuel : Nat) : ∀ n : Nat, n < fuel →
    (∀ ch ∈ Nat.toDigitsCore 10 fuel n [], ch.isDigit = true) ∧
    digitsValue (Nat.toDigitsCore 10 fuel n []) = (n : Int) ∧
    Nat.toDigitsCore 10 fuel n [] ≠ [] := by
  induction fuel with
  | zero => intro n h; omega
  | succ fuel ih =>
    intro n hn
    have hd := digitChar_facts (n % 10) (Nat.mod_lt _ (by decide))
    simp only [Nat.toDigitsCore]
    by_cases h0 : n / 10 = 0
    · simp only [h0, if_true]
      refine ⟨?_, ?_, by simp⟩
      · intro ch hch
        rw [List.mem_singleton] at hch
        rw [hch]; exact hd.1
      · have : digitsValue [Nat.digitChar (n % 10)]
            = ((((Nat.digitChar (n % 10)).toNat - 48 : Nat)) : Int) := by
          simp [digitsValue]
        rw [this, hd.2.1]
        have : n % 10 = n := by omega
        rw [this]
    · simp only [h0, if_false]
      rw [toDigitsCore_acc]
      obtain ⟨a, b, _⟩ := ih (n / 10) (by omega)
      refine ⟨?_, ?_, by simp⟩
      · intro ch hch
        rcases List.mem_append.1 hch with h | h
        · exact a ch h
        · rw [List.mem_singleton] at h
          rw [h]; exact hd.1
      · rw [digitsValue_append_singleton, b, hd.2.1]
        omega

theorem isDigit_toNat (c : Char) (h : c.isDigit = true) : 48 ≤ c.toNat ∧ c.toNat ≤ 57 := by
  simp only [Char.isDigit, Bool.and_eq_true, decide_eq_true_eq] at h
  obtain ⟨h1, h2⟩ := h
  have h1' : (48 : UInt32).toNat ≤ c.val.toNat := h1
  have h2' : c.val.toNat ≤ (57 : UInt32).toNat := h2
  exact ⟨h1', h2'⟩

theorem isDigit_not_special (c : Char) (h : c.isDigit = true) :
    isJsWhiteSpace c = false ∧ c ≠ '-' ∧ c ≠ '+' := by
  obtain ⟨h1, h2⟩ := isDigit_toNat c h
  refine ⟨?_, ?_, ?_⟩
  · unfold isJsWhiteSpace
    generalize c.toNat = n at h1 h2
    interval_cases n <;> rfl
  · intro hc; rw [hc] at h1; revert h1; decide
  · intro hc; rw [hc] at h1; revert h1; decide

theorem takeWhile_eq_self_of_all {α : Type} (p : α → Bool) (xs : List α)
    (h : ∀ x ∈ xs, p x = true) : xs.takeWhile p = xs := by
  induction xs with
  | nil => rfl
  | cons x rest ih =>
    simp only [List.takeWhile, h x (List.mem_cons_self _ _)]
    rw [ih (fun y hy => h y (List.mem_cons_of_mem _ hy))]

theorem parseInt_of_digits (cs : List Char) (hne : cs ≠ [])
    (hdig : ∀ ch ∈ cs, ch.isDigit = true) : parseInt ⟨cs⟩ = some (digitsValue cs) := by
  obtain ⟨c0, rest, rfl⟩ := List.exists_cons_of_ne_nil hne
  obtain ⟨hw, hminus, hplus⟩ := isDigit_not_special c0 (hdig c0 (List.mem_cons_self _ _))
  have hdrop : (c0 :: rest).dropWhile isJsWhiteSpace = c0 :: rest := by
    simp [List.dropWhile, hw]
  unfold parseInt
  simp only [hdrop]
  have hsigned : (match c0 :: rest with
      | '-' :: r => (true, r)
      | '+' :: r => (false, r)
      | r => (false, r)) = (false, c0 :: rest) := by
    split
    · next r heq => simp only [List.cons.injEq] at heq; exact absurd heq.1 hminus
    · next r heq => simp only [List.cons.injEq] at heq; exact absurd heq.1 hplus
    · rfl
  rw [hsigned]
  simp only [takeWhile_eq_self_of_all Char.isDigit (c0 :: rest) hdig]
  simp

theorem parseInt_toString (n : Nat) : parseInt (toString n) = some (n : Int) := by
  obtain ⟨hdig, hval, hne⟩ := toDigitsCore_spec (n + 1) n (Nat.lt_succ_self n)
  have h := parseInt_of_digits (Nat.toDigitsCore 10 (n + 1) n []) hne hdig
  rw [hval] at h
  exact h

theorem getStatistics_of_storageHit (c : StatsCache) (fs : Fs) (now : Int) (cached : Statistics)
    (hmiss : wallClockHit c now = none) (hstat : fs.statFails = false)
    (hhit : storageHit c fs.mtime = some cached) :
    getStatistics c fs now = (.json 200 cached, c, [.stat]) := by
  simp [getStatistics, hmiss, hstat, hhit]

theorem getStatistics_recompute (c : StatsCache) (fs : Fs) (now : Int) (items : List Record)
    (hmiss : wallClockHit c now = none) (hstat : fs.statFails = false)
    (hstorage : storageHit c fs.mtime = none) (hread : fs.readFails = false)
    (hraw : fs.raw = .json items) :
    getStatistics c fs now =
      match items with
      | [] =>
        (.json 200 emptyStats, { statsCache := some emptyStats, lastStatsUpdate := some now },
          [.stat, .readFile])
      | item :: rest =>
        match computeStats item rest with
        | .error err => (.next err, c, [.stat, .readFile])
        | .ok stats =>
          (.json 200 stats, { statsCache := some stats, lastStatsUpdate := some now },
            [.stat, .readFile]) := by
  cases items with
  | nil => simp [getStatistics, hmiss, hstat, hstorage, hread, hraw, jsonParse]
  | cons item rest =>
    simp only [getStatistics, hmiss, hstat, hstorage, hread, hraw, jsonParse]
    simp

theorem readData_ok_stat (c : ItemsCache) (fs : Fs) (data : List Record) (c1 : ItemsCache)
    (ops : List IoOp) (h : readData c fs = (.ok data, c1, ops)) : fs.statFails = false := by
  cases hs : fs.statFails with
  | false => rfl
  | true => simp [readData, hs] at h

theorem readData_fresh (fs : Fs) (data : List Record) (last : Int)
    (hstat : fs.statFails = false) (hfresh : fs.mtime ≤ last) :
    readData ⟨some data, some last⟩ fs = (.ok data, ⟨some data, some last⟩, [.stat]) := by
  have : ¬ (fs.mtime > last) := by omega
  simp [readData, hstat, this]

theorem readData_ok_cases (c : ItemsCache) (fs : Fs) (data : List Record) (c1 : ItemsCache)
    (ops : List IoOp) (h : readData c fs = (.ok data, c1, ops)) :
    (c1 = ⟨some data, some fs.mtime⟩ ∧ ops = [.stat, .readFile]) ∨
    (c1 = c ∧ ops = [.stat] ∧ ∃ last, c = ⟨some data, some last⟩ ∧ fs.mtime ≤ last) := by
  have hrefresh : refreshCache c fs = (.ok data, c1, ops) →
      c1 = ⟨some data, some fs.mtime⟩ ∧ ops = [.stat, .readFile] := by
    intro hr
    unfold refreshCache at hr
    split_ifs at hr
    · simp at hr
    · cases hraw : fs.raw with
      | malformed => simp [hraw, jsonParse] at hr
      | json items =>
        simp only [hraw, jsonParse, Prod.mk.injEq, Except.ok.injEq] at hr
        obtain ⟨h1, h2, h3⟩ := hr
        subst h1
        exact ⟨h2.symm, h3.symm⟩
  have hstat := readData_ok_stat c fs data c1 ops h
  obtain ⟨dc, lm⟩ := c
  unfold readData at h
  simp only [hstat, Bool.false_eq_true, if_false] at h
  cases dc with
  | none => exact Or.inl (hrefresh h)
  | some cached =>
    cases lm with
    | none => exact Or.inl (hrefresh h)
    | some last =>
      simp only at h
      split_ifs at h with hgt
      · exact Or.inl (hrefresh h)
      · simp only [Prod.mk.injEq, Except.ok.injEq] at h
        obtain ⟨h1, h2, h3⟩ := h
        subst h1
        exact Or.inr ⟨h2.symm, h3.symm, last, rfl, by omega⟩

theorem readData_twice (c : ItemsCache) (fs : Fs) (data : List Record) (c1 : ItemsCache)
    (ops : List IoOp) (h : readData c fs = (.ok data, c1, ops)) :
    readData c1 fs = (.ok data, c1, [.stat]) := by
  have hstat := readData_ok_stat c fs data c1 ops h
  rcases readData_ok_cases c fs data c1 ops h with ⟨hc, _⟩ | ⟨hc, _, last, hcl, hm⟩
  · rw [hc]; exact readData_fresh fs data fs.mtime hstat (le_refl _)
  · rw [hc, hcl]; exact readData_fresh fs data last hstat hm

theorem readData_error_cache (c : ItemsCache) (fs : Fs) (err : JsError) (c1 : ItemsCache)
    (ops : List IoOp) (h : readData c fs = (.error err, c1, ops)) : c1 = c := by
  have hrefresh : refreshCache c fs = (.error err, c1, ops) → c1 = c := by
    intro hr
    unfold refreshCache at hr
    split_ifs at hr
    · simp only [Prod.mk.injEq] at hr; exact hr.2.1.symm
    · cases hraw : fs.raw with
      | json items => simp [hraw, jsonParse] at hr
      | malformed =>
        simp only [hraw, jsonParse, Prod.mk.injEq] at hr; exact hr.2.1.symm
  unfold readData at h
  split_ifs at h
  · simp only [Prod.mk.injEq] at h; exact h.2.1.symm
  · split at h
    · split_ifs at h
      · exact hrefresh h
      · simp at h
    · exact hrefresh h

theorem readData_of_refresh (c : ItemsCache) (fs : Fs) (hstat : fs.statFails = false)
    (hneed : c.dataCache = none ∨ c.lastModified = none ∨
      ∃ last, c.lastModified = some last ∧ last < fs.mtime) :
    readData c fs = refreshCache c fs := by
  obtain ⟨dc, lm⟩ := c
  unfold readData
  simp only [hstat, Bool.false_eq_true, if_false]
  cases dc with
  | none => rfl
  | some cached =>
    cases lm with
    | none => rfl
    | some last =>
      simp only at hneed ⊢
      rcases hneed with h | h | ⟨l, h1, h2⟩
      · simp at h
      · simp at h
      · simp only [Option.some.injEq] at h1
        subst h1
        simp [h2]

theorem getItems_of_read (c : ItemsCache) (fs : Fs) (query : Query) (data : List Record)
    (c1 : ItemsCache) (ops : List IoOp) (hread : readData c fs = (.ok data, c1, ops)) :
    getItems c fs query =
      (.json 200 (paginate (searchResults data query.q) (pageNumOf query) (limitNumOf query)),
        c1, ops) := by
  simp [getItems, hread]

theorem pageNumOf_toString (limit : Option String) (q : Option String) (page : Nat)
    (hpage : 1 ≤ page) : pageNumOf ⟨limit, some (toString page), q⟩ = (page : Int) := by
  have : (page : Int) ≠ 0 := by omega
  simp [pageNumOf, parseInt_toString, orDefault, this]

theorem limitNumOf_toString (page : Option String) (q : Option String) (limit : Nat)
    (hlimit : 1 ≤ limit) : limitNumOf ⟨some (toString limit), page, q⟩ = (limit : Int) := by
  have : (limit : Int) ≠ 0 := by omega
  simp [limitNumOf, parseInt_toString, orDefault, this]

theorem paginate_items_of_nat (results : List Record) (page limit : Nat) (hpage : 1 ≤ page) :
    (paginate results (page : Int) (limit : Int)).items =
      (results.drop ((page - 1) * limit)).take limit := by
  have hstart : ((page : Int) - 1) * (limit : Int) = (((page - 1) * limit : Nat) : Int) := by
    push_cast [Nat.cast_sub hpage]; ring
  simp only [paginate, hstart]
  exact jsSlice_of_nat results ((page - 1) * limit) limit

theorem paginate_hasNextPage_of_nat (results : List Record) (page limit : Nat) :
    (paginate results (page : Int) (limit : Int)).pagination.hasNextPage = true ↔
      page * limit < results.length := by
  have hend : ((page : Int) - 1) * (limit : Int) + (limit : Int) = ((page * limit : Nat) : Int) := by
    push_cast; ring
  simp only [paginate, hend, decide_eq_true_eq]
  exact Int.ofNat_lt

theorem ceil_div_least (total : Nat) (limit : Int) (hlimit : 1 ≤ limit) :
    0 ≤ ⌈(total : ℚ) / (limit : ℚ)⌉ ∧
    (total : Int) ≤ ⌈(total : ℚ) / (limit : ℚ)⌉ * limit ∧
    ∀ n : Int, (total : Int) ≤ n * limit → ⌈(total : ℚ) / (limit : ℚ)⌉ ≤ n := by
  have hl : (0 : ℚ) < (limit : ℚ) := by exact_mod_cast (by omega : (0 : Int) < limit)
  refine ⟨?_, ?_, ?_⟩
  · apply Int.ceil_nonneg
    apply div_nonneg
    · exact_mod_cast Nat.zero_le total
    · exact le_of_lt hl
  · have h := Int.le_ceil ((total : ℚ) / (limit : ℚ))
    rw [div_le_iff₀ hl] at h
    exact_mod_cast h
  · intro n hn
    rw [Int.ceil_le, div_le_iff₀ hl]
    exact_mod_cast hn

theorem searchResults_of_nonempty (data : List Record) (q : String) (hq : q ≠ "") :
    searchResults data (some q) = data.filter (matchesTerm (toLowerCase q)) := by
  have hne : q.data.isEmpty = false := by
    cases hd : q.data with
    | nil => exact absurd (String.ext hd) hq
    | cons a as => rfl
  simp [searchResults, hne]

theorem matchesTerm_eq_decide (q : String) (r : Record) :
    matchesTerm (toLowerCase q) r = decide
      ((toLowerCase q).data <:+: (toLowerCase r.name).data ∨
       (toLowerCase q).data <:+: (toLowerCase r.category).data) := by
  rw [Bool.eq_iff_iff]
  simp [matchesTerm, includes_iff]

theorem lowerChars_of_no_sigma (cs : List Char) : ∀ before : List Char,
    capitalSigma ∉ cs → lowerChars before cs = cs.map Char.toLower := by
  induction cs with
  | nil => intro _ _; rfl
  | cons c rest ih =>
    intro before h
    have hc : c ≠ capitalSigma := fun e => h (by rw [e]; exact List.mem_cons_self _ _)
    have hrest : capitalSigma ∉ rest := fun e => h (List.mem_cons_of_mem _ e)
    simp only [lowerChars, hc, if_false, List.map_cons, ih (c :: before) hrest]

theorem toLowerCase_infix_of_no_sigma (s : String) (sub : List Char)
    (hsub : sub <:+: s.data) (hs : capitalSigma ∉ s.data) :
    (toLowerCase ⟨sub⟩).data <:+: (toLowerCase s).data := by
  have hsubs : capitalSigma ∉ sub := fun e => hs (hsub.subset e)
  simp only [toLowerCase, lowerChars_of_no_sigma _ [] hs, lowerChars_of_no_sigma _ [] hsubs]
  obtain ⟨pre, post, h⟩ := hsub
  exact ⟨pre.map Char.toLower, post.map Char.toLower, by rw [← h]; simp⟩

theorem getItemById_not_found (c : ItemsCache) (fs : Fs) (idParam : String)
    (data : List Record) (c1 : ItemsCache) (ops : List IoOp)
    (hread : readData c fs = (.ok data, c1, ops))
    (hnone : ∀ r ∈ data, parseInt idParam ≠ some r.id) :
    getItemById c fs idParam = (.next notFoundError, c1, ops) := by
  have : findItem data idParam = none := by
    unfold findItem
    cases hp : parseInt idParam with
    | none => rfl
    | some n =>
      simp only [List.find?_eq_none, decide_eq_true_eq]
      intro r hr he
      exact hnone r hr (by rw [hp, he])
  simp [getItemById, hread, this]

theorem postItem_success (c : ItemsCache) (fs : Fs) (name category : String) (price : ℚ)
    (now nowW mtimeW : Int) (data : List Record) (c1 : ItemsCache) (ops : List IoOp)
    (hname : trim name ≠ "") (hcategory : trim category ≠ "") (hprice : 0 ≤ price)
    (hread : readData c fs = (.ok data, c1, ops)) (hwrite : fs.writeFails = false) :
    postItem c fs ⟨.string name, .string category, .number price⟩ now nowW mtimeW =
      (.json 201 ⟨now, trim name, trim category, price⟩,
        ⟨some (data ++ [⟨now, trim name, trim category, price⟩]), some nowW⟩,
        { fs with raw := .json (data ++ [⟨now, trim name, trim category, price⟩]),
                  mtime := mtimeW },
        ops ++ [.writeFile]) := by
  have hN : invalidText (.string name) = false :=
    (invalidText_eq_false_iff _).2 ⟨name, rfl, hname⟩
  have hC : invalidText (.string category) = false :=
    (invalidText_eq_false_iff _).2 ⟨category, rfl, hcategory⟩
  have hP : invalidPrice (.number price) = false :=
    (invalidPrice_eq_false_iff _).2 ⟨price, rfl, hprice⟩
  simp [postItem, hN, hC, hP, hread, writeData, hwrite, newItem, JsValue.str, JsValue.num,
    jsonStringify]

theorem readData_ok_source (c : ItemsCache) (fs : Fs) (data : List Record) (c1 : ItemsCache)
    (ops : List IoOp) (h : readData c fs = (.ok data, c1, ops)) :
    (c.dataCache = some data ∧ c1 = c) ∨
    (fs.raw = .json data ∧ c1 = ⟨some data, some fs.mtime⟩) := by
  have hrefresh : refreshCache c fs = (.ok data, c1, ops) →
      fs.raw = .json data ∧ c1 = ⟨some data, some fs.mtime⟩ := by
    intro hr
    unfold refreshCache at hr
    split_ifs at hr
    · simp at hr
    · cases hraw : fs.raw with
      | malformed => simp [hraw, jsonParse] at hr
      | json items =>
        simp only [hraw, jsonParse, Prod.mk.injEq, Except.ok.injEq] at hr
        obtain ⟨h1, h2, _⟩ := hr
        subst h1
        exact ⟨rfl, h2.symm⟩
  have hstat := readData_ok_stat c fs data c1 ops h
  obtain ⟨dc, lm⟩ := c
  unfold readData at h
  simp only [hstat, Bool.false_eq_true, if_false] at h
  cases dc with
  | none => exact Or.inr (hrefresh h)
  | some cached =>
    cases lm with
    | none => exact Or.inr (hrefresh h)
    | some last =>
      simp only at h
      split_ifs at h
      · exact Or.inr (hrefresh h)
      · simp only [Prod.mk.injEq, Except.ok.injEq] at h
        obtain ⟨h1, h2, _⟩ := h
        subst h1
        exact Or.inl ⟨rfl, h2.symm⟩

theorem trim_has_visible_char (s : String) (h : trim s ≠ "") :
    ∃ ch ∈ (trim s).data, isJsWhiteSpace ch = false := by
  have hne : trimChars s.data ≠ [] := by
    intro he
    exact h (String.ext he)
  unfold trimChars at hne
  have hB : (s.data.dropWhile isJsWhiteSpace).reverse.dropWhile isJsWhiteSpace ≠ [] := by
    intro he
    rw [he] at hne
    exact hne rfl
  refine ⟨((s.data.dropWhile isJsWhiteSpace).reverse.dropWhile isJsWhiteSpace).head hB, ?_, ?_⟩
  · show _ ∈ trimChars s.data
    unfold trimChars
    rw [List.mem_reverse]
    exact List.head_mem hB
  · exact List.head_dropWhile_not isJsWhiteSpace _ hB

theorem newItem_wellFormed (body : Body) (now : Int)
    (hname : invalidText body.name = false) (hcategory : invalidText body.category = false)
    (hprice : invalidPrice body.price = false) :
    (newItem body now).WellFormed ∧
    (∃ ch ∈ (newItem body now).name.data, isJsWhiteSpace ch = false) ∧
    (∃ ch ∈ (newItem body now).category.data, isJsWhiteSpace ch = false) := by
  obtain ⟨n, hn, hn2⟩ := (invalidText_eq_false_iff _).1 hname
  obtain ⟨k, hk, hk2⟩ := (invalidText_eq_false_iff _).1 hcategory
  obtain ⟨x, hx, hx2⟩ := (invalidPrice_eq_false_iff _).1 hprice
  simp only [newItem, hn, hk, hx, JsValue.str, JsValue.num]
  exact ⟨⟨hn2, hk2, hx2⟩, trim_has_visible_char n hn2, trim_has_visible_char k hk2⟩

theorem parseInt_toString_int (z : Int) : parseInt (toString z) = some z := by
  cases z with
  | ofNat m => exact parseInt_toString m
  | negSucc m =>
    obtain ⟨hdig, hval, hne⟩ := toDigitsCore_spec (m + 1 + 1) (m + 1) (Nat.lt_succ_self _)
    have hdata : (toString (Int.negSucc m)).data
        = '-' :: Nat.toDigitsCore 10 (m + 1 + 1) (m + 1) [] := rfl
    unfold parseInt
    rw [hdata]
    have hdrop : ('-' :: Nat.toDigitsCore 10 (m + 1 + 1) (m + 1) []).dropWhile isJsWhiteSpace
        = '-' :: Nat.toDigitsCore 10 (m + 1 + 1) (m + 1) [] := by
      have : isJsWhiteSpace '-' = false := by decide
      simp [List.dropWhile, this]
    simp only [hdrop]
    simp only [takeWhile_eq_self_of_all Char.isDigit _ hdig, hval]
    have : (Nat.toDigitsCore 10 (m + 1 + 1) (m + 1) []).isEmpty = false := by
      cases hl : Nat.toDigitsCore 10 (m + 1 + 1) (m + 1) [] with
      | nil => exact absurd hl hne
      | cons a as => rfl
    simp only [this, Bool.false_eq_true, if_false, if_true, Option.some.injEq]
    rw [Int.negSucc_eq]
    push_cast
    ring

theorem isEmpty_data_eq_false (s : String) (h : s ≠ "") : s.data.isEmpty = false := by
  cases hd : s.data with
  | nil => exact absurd (String.ext hd) h
  | cons a as => rfl

theorem errorHandler_plain (err : ErrorValue) (development : Bool)
    (hcast : err.name ≠ some "CastError") (hvalidation : err.name ≠ some "ValidationError")
    (hcode : err.code ≠ .number 11000) :
    errorHandler err development =
      .ok { status := statusOr err.status 500
            success := false
            message := messageOr (err.message.map BodyMessage.text) "Server Error"
            stack := if development then err.stack else none } := by
  simp [errorHandler, hcast, hvalidation, hcode]

theorem flatten_pages {α : Type} (xs : List α) (limit : Nat) : ∀ pages : Nat,
    ((List.range pages).map (fun k => (xs.drop (k * limit)).take limit)).flatten
      = xs.take (pages * limit) := by
  intro pages
  induction pages with
  | zero => simp
  | succ n ih =>
    rw [List.range_succ, List.map_append, List.flatten_append, ih]
    simp only [List.map_cons, List.map_nil, List.flatten_cons, List.flatten_nil,
      List.append_nil]
    rw [Nat.succ_mul, List.take_add]

theorem sum_set_of_lookup_none (obj : JsObject Nat) (key : String) (v : Nat)
    (h : List.lookup key obj = none) :
    ((JsObject.set obj key v).map Prod.snd).sum = (obj.map Prod.snd).sum + v := by
  induction obj with
  | nil => simp [JsObject.set]
  | cons e rest ih =>
    obtain ⟨k, w⟩ := e
    by_cases hk : k = key
    · subst hk; simp [List.lookup] at h
    · have hb : (key == k) = false := by simpa using (fun e : key = k => hk e.symm)
      simp only [List.lookup, hb] at h
      simp only [JsObject.set, hk, if_false, List.map_cons, List.sum_cons, ih h]
      omega

theorem sum_set_of_lookup_some (obj : JsObject Nat) (key : String) (v n : Nat)
    (h : List.lookup key obj = some n) :
    ((JsObject.set obj key v).map Prod.snd).sum + n = (obj.map Prod.snd).sum + v := by
  induction obj with
  | nil => simp [List.lookup] at h
  | cons e rest ih =>
    obtain ⟨k, w⟩ := e
    by_cases hk : k = key
    · subst hk
      simp only [List.lookup, beq_self_eq_true, Option.some.injEq] at h
      subst h
      simp only [JsObject.set, if_true, List.map_cons, List.sum_cons]
      omega
    · have hb : (key == k) = false := by simpa using (fun e : key = k => hk e.symm)
      simp only [List.lookup, hb] at h
      have := ih h
      simp only [JsObject.set, hk, if_false, List.map_cons, List.sum_cons]
      omega

theorem values_pos_set (obj : JsObject Nat) (key : String) (v : Nat)
    (hobj : ∀ e ∈ obj, 1 ≤ e.2) (hv : 1 ≤ v) : ∀ e ∈ JsObject.set obj key v, 1 ≤ e.2 := by
  induction obj with
  | nil =>
    intro e he
    simp only [JsObject.set, List.mem_singleton] at he
    rw [he]; exact hv
  | cons e0 rest ih =>
    obtain ⟨k, w⟩ := e0
    intro e he
    by_cases hk : k = key
    · simp only [JsObject.set, hk, if_true, List.mem_cons] at he
      rcases he with h | h
      · rw [h]; exact hv
      · exact hobj e (List.mem_cons_of_mem _ h)
    · simp only [JsObject.set, hk, if_false, List.mem_cons] at he
      rcases he with h | h
      · rw [h]; exact hobj (k, w) (List.mem_cons_self _ _)
      · exact ih (fun x hx => hobj x (List.mem_cons_of_mem _ hx)) e h

theorem keys_nodup_set {α : Type} (obj : JsObject α) (key : String) (v : α)
    (h : (obj.map Prod.fst).Nodup) : ((JsObject.set obj key v).map Prod.fst).Nodup := by
  rw [set_keys]
  split_ifs with hmem
  · exact h
  · rw [List.nodup_append]
    refine ⟨h, by simp, ?_⟩
    intro a ha hb
    simp only [List.mem_singleton] at hb
    exact hmem (by rw [← hb]; exact ha)

theorem key_mem_set {α : Type} (obj : JsObject α) (key : String) (v : α) :
    key ∈ (JsObject.set obj key v).map Prod.fst := by
  rw [set_keys]
  split_ifs with hmem
  · exact hmem
  · simp

theorem keys_subset_set {α : Type} (obj : JsObject α) (key : String) (v : α) :
    ∀ k ∈ obj.map Prod.fst, k ∈ (JsObject.set obj key v).map Prod.fst := by
  intro k hk
  rw [set_keys]
  split_ifs
  · exact hk
  · exact List.mem_append_left _ hk

theorem set_set {α : Type} (obj : JsObject α) (key : String) (a b : α) :
    JsObject.set (JsObject.set obj key a) key b = JsObject.set obj key b := by
  induction obj with
  | nil => simp [JsObject.set]
  | cons e rest ih =>
    obtain ⟨k, w⟩ := e
    by_cases hk : k = key
    · simp [JsObject.set, hk]
    · simp [JsObject.set, hk, ih]

theorem categoryStep_count (categoryCount : JsObject Nat) (categoryPrices : JsObject (List ℚ))
    (item : Record) (count1 : JsObject Nat) (prices1 : JsObject (List ℚ))
    (h : categoryStep categoryCount categoryPrices item = .ok (count1, prices1)) :
    (count1.map Prod.snd).sum = (categoryCount.map Prod.snd).sum + 1 ∧
    ((∀ e ∈ categoryCount, 1 ≤ e.2) → ∀ e ∈ count1, 1 ≤ e.2) ∧
    ((categoryCount.map Prod.fst).Nodup → (count1.map Prod.fst).Nodup) ∧
    item.category ∈ count1.map Prod.fst ∧
    (∀ k ∈ categoryCount.map Prod.fst, k ∈ count1.map Prod.fst) := by
  have hset : ∀ n v : Nat, (List.lookup item.category categoryCount = none ∧ v = 1 ∨
        List.lookup item.category categoryCount = some n ∧ v = n + 1) →
      count1 = JsObject.set categoryCount item.category v →
      (count1.map Prod.snd).sum = (categoryCount.map Prod.snd).sum + 1 ∧
      ((∀ e ∈ categoryCount, 1 ≤ e.2) → ∀ e ∈ count1, 1 ≤ e.2) ∧
      ((categoryCount.map Prod.fst).Nodup → (count1.map Prod.fst).Nodup) ∧
      item.category ∈ count1.map Prod.fst ∧
      (∀ k ∈ categoryCount.map Prod.fst, k ∈ count1.map Prod.fst) := by
    intro n v hl hc
    subst hc
    refine ⟨?_, ?_, keys_nodup_set _ _ _, key_mem_set _ _ _, keys_subset_set _ _ _⟩
    · rcases hl with ⟨hl, hv⟩ | ⟨hl, hv⟩
      · rw [sum_set_of_lookup_none categoryCount item.category v hl, hv]
      · have := sum_set_of_lookup_some categoryCount item.category v n hl
        omega
    · intro hpos
      apply values_pos_set _ _ _ hpos
      rcases hl with ⟨_, hv⟩ | ⟨_, hv⟩ <;> omega
  unfold categoryStep at h
  cases hl : List.lookup item.category categoryCount with
  | none =>
    by_cases hc : item.category ∈ objectPrototypeKeys
    · simp [JsObject.get, hl, hc] at h
    · have hcb : objectPrototypeKeys.contains item.category = false := by simpa using hc
      simp only [JsObject.get, hl, hcb, Bool.false_eq_true, if_false] at h
      cases hp : pushPrice (JsObject.set categoryPrices item.category []) item with
      | error err => simp [hp] at h
      | ok prices =>
        simp only [hp, Except.ok.injEq, Prod.mk.injEq] at h
        exact hset 0 1 (Or.inl ⟨hl, rfl⟩) (by rw [← h.1, set_set])
  | some n =>
    simp only [JsObject.get, hl] at h
    by_cases hn : n = 0
    · simp only [hn, if_true] at h
      cases hp : pushPrice (JsObject.set categoryPrices item.category []) item with
      | error err => simp [hp] at h
      | ok prices =>
        simp only [hp, Except.ok.injEq, Prod.mk.injEq] at h
        exact hset 0 1 (Or.inr ⟨by rw [hl, hn], rfl⟩) (by rw [← h.1, set_set])
    · simp only [hn, if_false] at h
      cases hp : pushPrice categoryPrices item with
      | error err => simp [hp] at h
      | ok prices =>
        simp only [hp, Except.ok.injEq, Prod.mk.injEq] at h
        exact hset n (n + 1) (Or.inr ⟨hl, rfl⟩) h.1.symm

theorem groupItems_count (items : List Record) :
    ∀ (categoryCount : JsObject Nat) (categoryPrices : JsObject (List ℚ))
      (count1 : JsObject Nat) (prices1 : JsObject (List ℚ)),
      groupItems items categoryCount categoryPrices = .ok (count1, prices1) →
      (count1.map Prod.snd).sum = (categoryCount.map Prod.snd).sum + items.length ∧
      ((∀ e ∈ categoryCount, 1 ≤ e.2) → ∀ e ∈ count1, 1 ≤ e.2) ∧
      ((categoryCount.map Prod.fst).Nodup → (count1.map Prod.fst).Nodup) ∧
      (∀ r ∈ items, r.category ∈ count1.map Prod.fst) ∧
      (∀ k ∈ categoryCount.map Prod.fst, k ∈ count1.map Prod.fst) := by
  induction items with
  | nil =>
    intro categoryCount categoryPrices count1 prices1 h
    simp only [groupItems, Except.ok.injEq, Prod.mk.injEq] at h
    rw [← h.1]
    exact ⟨by simp, fun hp => hp, fun hn => hn, by simp, fun k hk => hk⟩
  | cons item rest ih =>
    intro categoryCount categoryPrices count1 prices1 h
    simp only [groupItems] at h
    cases hs : categoryStep categoryCount categoryPrices item with
    | error err => simp [hs] at h
    | ok mid =>
      obtain ⟨countM, pricesM⟩ := mid
      simp only [hs] at h
      obtain ⟨s1, p1, n1, m1, k1⟩ := categoryStep_count _ _ _ _ _ hs
      obtain ⟨s2, p2, n2, m2, k2⟩ := ih countM pricesM count1 prices1 h
      refine ⟨?_, fun hp => p2 (p1 hp), fun hn => n2 (n1 hn), ?_, fun k hk => k2 k (k1 k hk)⟩
      · rw [s2, s1, List.length_cons]; omega
      · intro r hr
        rcases List.mem_cons.1 hr with hr | hr
        · rw [hr]; exact k2 _ m1
        · exact m2 r hr

theorem set_of_not_mem {α : Type} (obj : JsObject α) (key : String) (v : α)
    (h : key ∉ obj.map Prod.fst) : JsObject.set obj key v = obj ++ [(key, v)] := by
  induction obj with
  | nil => rfl
  | cons e rest ih =>
    obtain ⟨k, w⟩ := e
    have hne : k ≠ key := by
      intro hk; apply h; rw [← hk]; simp
    have hrest : key ∉ rest.map Prod.fst := by
      intro hm; apply h; simp only [List.map_cons, List.mem_cons]; exact Or.inr hm
    simp only [JsObject.set, hne, if_false, List.cons_append, ih hrest]

theorem foldl_set_eq_append {α β : Type} (f : String × α → β) (entries : JsObject α) :
    ∀ acc : JsObject β, (entries.map Prod.fst).Nodup →
      (∀ k ∈ entries.map Prod.fst, k ∉ acc.map Prod.fst) →
      entries.foldl (fun stats entry => JsObject.set stats entry.1 (f entry)) acc
        = acc ++ entries.map (fun entry => (entry.1, f entry)) := by
  induction entries with
  | nil => intro acc _ _; simp
  | cons e rest ih =>
    intro acc hnd hdis
    have hnd2 := List.nodup_cons.1 hnd
    simp only [List.foldl_cons, List.map_cons]
    rw [set_of_not_mem acc e.1 (f e) (hdis e.1 (List.mem_cons_self _ _))]
    rw [ih (acc ++ [(e.1, f e)]) hnd2.2]
    · simp
    · intro k hk hmem
      simp only [List.map_append, List.map_cons, List.map_nil, List.mem_append,
        List.mem_singleton] at hmem
      rcases hmem with hm | hm
      · exact hdis k (List.mem_cons_of_mem _ hk) hm
      · rw [hm] at hk; exact hnd2.1 hk

theorem getCategoryStats_counts (items : List Record) (categories : JsObject CategoryStat)
    (h : getCategoryStats items = .ok categories) :
    (∀ e ∈ categories, 1 ≤ e.2.count) ∧
    (categories.map (fun e => e.2.count)).sum = items.length ∧
    (categories.map Prod.fst).Nodup ∧
    (∀ r ∈ items, r.category ∈ categories.map Prod.fst) := by
  unfold getCategoryStats at h
  cases hg : groupItems items [] [] with
  | error err => simp [hg] at h
  | ok res =>
    obtain ⟨count1, prices1⟩ := res
    simp only [hg, Except.ok.injEq] at h
    obtain ⟨hsum, hpos, hnd, hmem, _⟩ := groupItems_count items [] [] count1 prices1 hg
    have hnodup := hnd (by simp)
    rw [foldl_set_eq_append _ count1 [] hnodup (by simp)] at h
    simp only [List.nil_append] at h
    subst h
    refine ⟨?_, ?_, ?_, ?_⟩
    · intro e he
      obtain ⟨x, hx, hxe⟩ := List.mem_map.1 he
      rw [← hxe]
      exact hpos (by simp) x hx
    · simp only [List.map_map]
      have : ((fun e : String × CategoryStat => e.2.count) ∘
          fun entry : String × Nat => (entry.1,
            ({ count := entry.2, averagePrice := round2 (mean (pricesOf prices1 entry.1)) }
              : CategoryStat))) = Prod.snd := by
        funext x; rfl
      rw [this, hsum]; simp
    · simp only [List.map_map]
      have : (Prod.fst ∘
          fun entry : String × Nat => (entry.1,
            ({ count := entry.2, averagePrice := round2 (mean (pricesOf prices1 entry.1)) }
              : CategoryStat))) = Prod.fst := by
        funext x; rfl
      rw [this]; exact hnodup
    · intro r hr
      simp only [List.map_map]
      have : (Prod.fst ∘
          fun entry : String × Nat => (entry.1,
            ({ count := entry.2, averagePrice := round2 (mean (pricesOf prices1 entry.1)) }
              : CategoryStat))) = Prod.fst := by
        funext x; rfl
      rw [this]; exact hmem r hr

/-! ### Numbers as doubles -/

theorem toDouble_of_small (n : Int) (h : n.natAbs < 2 ^ 53) : toDouble n = .int n := by
  unfold toDouble roundNat
  rw [if_pos h]
  simp only
  split_ifs with hneg
  · congr 1; omega
  · congr 1; omega

theorem toDouble_natCast_of_small (n : Nat) (h : n < 2 ^ 53) : toDouble (n : Int) = .int n :=
  toDouble_of_small n (by simpa using h)

theorem roundNat_of_huge (m : Nat) (h : 2 ^ 1024 ≤ m) : roundNat m = none := by
  have hm0 : m ≠ 0 := by
    have : 0 < 2 ^ 1024 := Nat.two_pow_pos _
    omega
  have hlog : 1024 ≤ Nat.log2 m := (Nat.le_log2 hm0).2 h
  have hself : 2 ^ Nat.log2 m ≤ m := Nat.log2_self_le hm0
  unfold roundNat
  have h53 : ¬ m < 2 ^ 53 := by
    have : (2 : Nat) ^ 53 ≤ 2 ^ 1024 := Nat.pow_le_pow_right (by decide) (by decide)
    omega
  rw [if_neg h53]
  simp only
  have hq : 2 ^ 52 ≤ m / 2 ^ (Nat.log2 m - 52) := by
    rw [Nat.le_div_iff_mul_le (Nat.two_pow_pos _)]
    rw [← Nat.pow_add]
    have : 52 + (Nat.log2 m - 52) = Nat.log2 m := by omega
    rw [this]; exact hself
  have hbig : ∀ q1 : Nat, m / 2 ^ (Nat.log2 m - 52) ≤ q1 →
      ¬ q1 * 2 ^ (Nat.log2 m - 52) < 2 ^ 1024 := by
    intro q1 hq1
    have h1 : 2 ^ 52 * 2 ^ (Nat.log2 m - 52) ≤ q1 * 2 ^ (Nat.log2 m - 52) :=
      Nat.mul_le_mul_right _ (le_trans hq hq1)
    have h2 : (2 : Nat) ^ 1024 ≤ 2 ^ 52 * 2 ^ (Nat.log2 m - 52) := by
      rw [← Nat.pow_add]
      exact Nat.pow_le_pow_right (by decide) (by omega)
    omega
  split_ifs with hc hlt hlt
  · exact absurd hlt (hbig _ (Nat.le_succ _))
  · rfl
  · exact absurd hlt (hbig _ (le_refl _))
  · rfl

theorem toDouble_of_huge (n : Nat) (h : 2 ^ 1024 ≤ n) : toDouble (n : Int) = .posInf := by
  unfold toDouble
  have : ((n : Int)).natAbs = n := Int.natAbs_ofNat n
  rw [this, roundNat_of_huge n h]
  simp

theorem pow_ten_huge : 2 ^ 1024 ≤ 10 ^ 400 := by
  calc (2 : Nat) ^ 1024 ≤ 2 ^ 1200 := Nat.pow_le_pow_right (by decide) (by decide)
    _ = (2 ^ 3) ^ 400 := by rw [← Nat.pow_mul]
    _ ≤ 10 ^ 400 := Nat.pow_le_pow_left (by decide) 400

theorem getItemsNumber_of_read (c : ItemsCache) (fs : Fs) (query : Query) (data : List Record)
    (c1 : ItemsCache) (ops : List IoOp) (hread : readData c fs = (.ok data, c1, ops)) :
    getItemsNumber c fs query =
      (.json 200
        (paginateNumber (searchResults data query.q) (pageNumber query) (limitNumber query)),
        c1, ops) := by
  simp [getItemsNumber, hread]

theorem pageNumber_toString (limit : Option String) (q : Option String) (page : Nat)
    (hpage : 1 ≤ page) :
    pageNumber ⟨limit, some (toString page), q⟩ = toDouble (page : Int) := by
  have : (page : Int) ≠ 0 := by omega
  simp [pageNumber, parseInt_toString, orDefaultNumber, this]

theorem limitNumber_toString (page : Option String) (q : Option String) (limit : Nat)
    (hlimit : 1 ≤ limit) :
    limitNumber ⟨some (toString limit), page, q⟩ = toDouble (limit : Int) := by
  have : (limit : Int) ≠ 0 := by omega
  simp [limitNumber, parseInt_toString, orDefaultNumber, this]

theorem jsSliceNumber_int {α : Type} (xs : List α) (a b : Int) :
    jsSliceNumber xs (.int a) (.int b) = jsSlice xs a b := rfl

theorem roundNat_ge_of_large (m v : Nat) (hm : 2 ^ 53 ≤ m) (h : roundNat m = some v) :
    2 ^ 53 ≤ v := by
  have hm0 : m ≠ 0 := by
    have : 0 < 2 ^ 53 := Nat.two_pow_pos _
    omega
  have hlog : 53 ≤ Nat.log2 m := (Nat.le_log2 hm0).2 hm
  have hself : 2 ^ Nat.log2 m ≤ m := Nat.log2_self_le hm0
  unfold roundNat at h
  rw [if_neg (by omega)] at h
  simp only at h
  have hq : 2 ^ 52 ≤ m / 2 ^ (Nat.log2 m - 52) := by
    rw [Nat.le_div_iff_mul_le (Nat.two_pow_pos _), ← Nat.pow_add]
    have : 52 + (Nat.log2 m - 52) = Nat.log2 m := by omega
    rw [this]; exact hself
  have hbig : ∀ q1 : Nat, m / 2 ^ (Nat.log2 m - 52) ≤ q1 →
      2 ^ 53 ≤ q1 * 2 ^ (Nat.log2 m - 52) := by
    intro q1 hq1
    have h1 : 2 ^ 52 * 2 ^ (Nat.log2 m - 52) ≤ q1 * 2 ^ (Nat.log2 m - 52) :=
      Nat.mul_le_mul_right _ (le_trans hq hq1)
    have h2 : (2 : Nat) ^ 53 ≤ 2 ^ 52 * 2 ^ (Nat.log2 m - 52) := by
      rw [← Nat.pow_add]
      exact Nat.pow_le_pow_right (by decide) (by omega)
    omega
  split_ifs at h with hc hlt hlt
  · injection h with h; rw [← h]; exact hbig _ (Nat.le_succ _)
  · injection h with h; rw [← h]; exact hbig _ (le_refl _)

theorem toDouble_cases (n : Int) :
    (∃ v : Int, toDouble n = .int v ∧ (n.natAbs < 2 ^ 53 → v = n) ∧
      (2 ^ 53 ≤ n → 2 ^ 53 ≤ v) ∧ (n ≤ -2 ^ 53 → v ≤ -2 ^ 53)) ∨
    (toDouble n = .posInf ∧ 2 ^ 53 ≤ n) ∨ (toDouble n = .negInf ∧ n ≤ -2 ^ 53) := by
  by_cases hsmall : n.natAbs < 2 ^ 53
  · exact Or.inl ⟨n, toDouble_of_small n hsmall, fun _ => rfl, fun h => by omega,
      fun h => by omega⟩
  · have hm : 2 ^ 53 ≤ n.natAbs := by omega
    unfold toDouble
    cases hr : roundNat n.natAbs with
    | none =>
      by_cases hneg : n < 0
      · exact Or.inr (Or.inr ⟨by simp [hneg], by omega⟩)
      · exact Or.inr (Or.inl ⟨by simp [hneg], by omega⟩)
    | some v =>
      have hv := roundNat_ge_of_large _ v hm hr
      by_cases hneg : n < 0
      · exact Or.inl ⟨-(v : Int), by simp [hneg], fun h => absurd h hsmall,
          fun h => by omega, fun _ => by omega⟩
      · exact Or.inl ⟨(v : Int), by simp [hneg], fun h => absurd h hsmall,
          fun _ => by omega, fun h => by omega⟩

theorem jsSliceNumber_length_le {α : Type} (xs : List α) (s : JsNumber) (limit : Nat)
    (hsafe : limit < 2 ^ 53) (hlen : xs.length < 2 ^ 53) :
    (jsSliceNumber xs s (numAdd s (.int limit))).length ≤ limit := by
  cases s with
  | int a =>
    simp only [numAdd]
    rcases toDouble_cases (a + (limit : Int)) with ⟨v, hv, h1, h2, h3⟩ | ⟨hv, h⟩ | ⟨hv, h⟩
    · rw [hv]
      simp only [jsSliceNumber, sliceIndex, List.length_take, List.length_drop]
      by_cases hsmall : (a + (limit : Int)).natAbs < 2 ^ 53
      · have := h1 hsmall
        split_ifs <;> omega
      · by_cases hpos : 2 ^ 53 ≤ a + (limit : Int)
        · have := h2 hpos
          split_ifs <;> omega
        · have := h3 (by omega)
          split_ifs <;> omega
    · rw [hv]
      simp only [jsSliceNumber, sliceIndex, List.length_take, List.length_drop]
      split_ifs <;> omega
    · rw [hv]
      simp only [jsSliceNumber, sliceIndex, List.length_take, List.length_drop]
      split_ifs <;> omega
  | posInf =>
    simp [numAdd, jsSliceNumber, sliceIndex]
  | negInf =>
    simp [numAdd, jsSliceNumber, sliceIndex]
  | nan =>
    simp [numAdd, jsSliceNumber, sliceIndex]

theorem numGt_orDefaultNumber_one (page : Int) :
    numGt (orDefaultNumber (some page) 1) 1 = true ↔ 1 < page := by
  unfold orDefaultNumber
  by_cases h0 : page = 0
  · simp [h0, numGt]
  · simp only [h0, if_false]
    rcases toDouble_cases page with ⟨v, hv, h1, h2, h3⟩ | ⟨hv, h⟩ | ⟨hv, h⟩
    · rw [hv]
      simp only [numGt, gt_iff_lt, decide_eq_true_eq]
      by_cases hsmall : page.natAbs < 2 ^ 53
      · rw [h1 hsmall]
      · by_cases hpos : 2 ^ 53 ≤ page
        · have := h2 hpos
          constructor <;> intro <;> omega
        · have := h3 (by omega)
          constructor <;> intro <;> omega
    · rw [hv]; simp only [numGt, true_iff]; omega
    · rw [hv]; simp only [numGt]
      constructor
      · intro h'; exact absurd h' (by decide)
      · intro h'; omega

theorem toDouble_natCast_cases (n : Nat) :
    (n < 2 ^ 53 ∧ toDouble (n : Int) = .int n) ∨
    (2 ^ 53 ≤ n ∧ ∃ v : Nat, 2 ^ 53 ≤ v ∧ toDouble (n : Int) = .int v) ∨
    (2 ^ 53 ≤ n ∧ toDouble (n : Int) = .posInf) := by
  by_cases hsmall : n < 2 ^ 53
  · exact Or.inl ⟨hsmall, toDouble_natCast_of_small n hsmall⟩
  · have hm : 2 ^ 53 ≤ n := by omega
    unfold toDouble
    rw [Int.natAbs_ofNat]
    cases hr : roundNat n with
    | none => exact Or.inr (Or.inr ⟨hm, by simp⟩)
    | some v =>
      have hv := roundNat_ge_of_large _ v hm hr
      exact Or.inr (Or.inl ⟨hm, v, hv, by simp⟩)

theorem roundNat_isSome (m : Nat) (h : m < 2 ^ 1024 - 2 ^ 970) : ∃ v, roundNat m = some v := by
  by_cases hsmall : m < 2 ^ 53
  · exact ⟨m, by unfold roundNat; rw [if_pos hsmall]⟩
  · have hm0 : m ≠ 0 := by
      have : 0 < 2 ^ 53 := Nat.two_pow_pos _
      omega
    have hlog53 : 53 ≤ Nat.log2 m := (Nat.le_log2 hm0).2 (by omega)
    have hlog : Nat.log2 m < 1024 := (Nat.log2_lt hm0).2 (by omega)
    have hup : m < 2 ^ (Nat.log2 m + 1) := Nat.lt_log2_self
    have he : Nat.log2 m - 52 ≤ 971 := by omega
    have hq : m / 2 ^ (Nat.log2 m - 52) < 2 ^ 53 := by
      rw [Nat.div_lt_iff_lt_mul (Nat.two_pow_pos _), ← Nat.pow_add]
      have : 53 + (Nat.log2 m - 52) = Nat.log2 m + 1 := by omega
      rw [this]; exact hup
    have hdm := Nat.div_add_mod m (2 ^ (Nat.log2 m - 52))
    have hpe : (2 : Nat) ^ (Nat.log2 m - 52) ≤ 2 ^ 971 := Nat.pow_le_pow_right (by decide) he
    unfold roundNat
    rw [if_neg hsmall]
    simp only
    split_ifs with hc hlt hlt
    · exact ⟨_, rfl⟩
    · exfalso
      apply hlt
      by_cases hq1 : m / 2 ^ (Nat.log2 m - 52) + 1 < 2 ^ 53
      · calc (m / 2 ^ (Nat.log2 m - 52) + 1) * 2 ^ (Nat.log2 m - 52)
            ≤ (2 ^ 53 - 1) * 2 ^ 971 := Nat.mul_le_mul (by omega) hpe
          _ < 2 ^ 1024 := by norm_num
      · have hqe : m / 2 ^ (Nat.log2 m - 52) + 1 = 2 ^ 53 := by omega
        rw [hqe]
        by_cases he2 : Nat.log2 m - 52 ≤ 970
        · calc 2 ^ 53 * 2 ^ (Nat.log2 m - 52) ≤ 2 ^ 53 * 2 ^ 970 :=
                Nat.mul_le_mul_left _ (Nat.pow_le_pow_right (by decide) he2)
            _ < 2 ^ 1024 := by norm_num
        · exfalso
          have he3 : Nat.log2 m - 52 = 971 := by omega
          rw [he3] at hc hdm hqe
          have hhalf : 2 ^ 970 ≤ m % 2 ^ 971 := by
            have h970 : (971 : Nat) - 1 = 970 := rfl
            rw [h970] at hc
            rcases hc with hc | hc
            · exact le_of_lt hc
            · exact le_of_eq hc.1.symm
          have hqv : m / 2 ^ 971 = 2 ^ 53 - 1 := by omega
          rw [hqv] at hdm
          have : 2 ^ 971 * (2 ^ 53 - 1) + 2 ^ 970 ≤ m := by omega
          have hc2 : (2 : Nat) ^ 971 * (2 ^ 53 - 1) + 2 ^ 970 = 2 ^ 1024 - 2 ^ 970 := by norm_num
          omega
    · exact ⟨_, rfl⟩
    · exfalso
      apply hlt
      calc m / 2 ^ (Nat.log2 m - 52) * 2 ^ (Nat.log2 m - 52) ≤ m := Nat.div_mul_le_self _ _
        _ < 2 ^ 1024 := by omega

theorem toDouble_finite_cases (n : Nat) (hfin : n < 2 ^ 1024 - 2 ^ 970) :
    (n < 2 ^ 53 ∧ toDouble (n : Int) = .int n) ∨
    (2 ^ 53 ≤ n ∧ ∃ v : Nat, 2 ^ 53 ≤ v ∧ toDouble (n : Int) = .int v) := by
  rcases toDouble_natCast_cases n with h | h | ⟨_, h⟩
  · exact Or.inl h
  · exact Or.inr h
  · exfalso
    obtain ⟨v, hv⟩ := roundNat_isSome n hfin
    unfold toDouble at h
    rw [Int.natAbs_ofNat, hv] at h
    simp at h

theorem jsSliceNumber_of_start_ge {α : Type} (xs : List α) (s e : JsNumber)
    (hs : s = .posInf ∨ ∃ v : Nat, s = .int v ∧ xs.length ≤ v) :
    jsSliceNumber xs s e = [] := by
  have hk : sliceIndex (xs.length : Int) s = (xs.length : Int) := by
    rcases hs with h | ⟨v, h, hv⟩
    · rw [h]; rfl
    · rw [h]
      simp only [sliceIndex]
      rw [if_neg (by omega)]
      omega
  unfold jsSliceNumber
  simp only [hk]
  simp

theorem toDouble_atLeast (n t : Nat) (h : t ≤ n) (ht : t < 2 ^ 53) :
    toDouble (n : Int) = .posInf ∨ ∃ v : Nat, toDouble (n : Int) = .int v ∧ t ≤ v := by
  rcases toDouble_natCast_cases n with ⟨_, h1⟩ | ⟨_, v, hv, h1⟩ | ⟨_, h1⟩
  · exact Or.inr ⟨n, h1, h⟩
  · exact Or.inr ⟨v, h1, by omega⟩
  · exact Or.inl h1

theorem limitDouble_cases (limit : Nat) (hlimit : 1 ≤ limit)
    (hfin : limit < 2 ^ 1024 - 2 ^ 970) :
    ∃ L : Nat, toDouble (limit : Int) = .int L ∧ 1 ≤ L ∧ (limit < 2 ^ 53 → L = limit) ∧
      (2 ^ 53 ≤ limit → 2 ^ 53 ≤ L) := by
  rcases toDouble_finite_cases limit hfin with ⟨hl, hL⟩ | ⟨hl, L, hLge, hL⟩
  · exact ⟨limit, hL, hlimit, fun _ => rfl, fun h => by omega⟩
  · exact ⟨L, hL, by omega, fun h => by omega, fun _ => hLge⟩

theorem pageMinusOne_cases (page : Nat) (hpage : 1 ≤ page) :
    (page < 2 ^ 53 → numAdd (toDouble (page : Int)) (.int (-1)) = .int ((page - 1 : Nat) : Int)) ∧
    (2 ^ 53 ≤ page → numAdd (toDouble (page : Int)) (.int (-1)) = .posInf ∨
      ∃ a : Nat, numAdd (toDouble (page : Int)) (.int (-1)) = .int a ∧ 2 ^ 53 - 1 ≤ a) := by
  rcases toDouble_natCast_cases page with ⟨hs, h1⟩ | ⟨hl, v, hv, h1⟩ | ⟨hl, h1⟩
  · refine ⟨fun _ => ?_, fun h => by omega⟩
    rw [h1]
    simp only [numAdd]
    have : (page : Int) + -1 = ((page - 1 : Nat) : Int) := by omega
    rw [this]
    exact toDouble_natCast_of_small _ (by omega)
  · refine ⟨fun h => by omega, fun _ => ?_⟩
    rw [h1]
    simp only [numAdd]
    have : (v : Int) + -1 = ((v - 1 : Nat) : Int) := by omega
    rw [this]
    rcases toDouble_atLeast (v - 1) (2 ^ 53 - 1) (by omega) (by omega) with h | ⟨a, h, ha⟩
    · exact Or.inl h
    · exact Or.inr ⟨a, h, ha⟩
  · refine ⟨fun h => by omega, fun _ => ?_⟩
    rw [h1]
    exact Or.inl rfl

theorem startIndex_cases (page limit : Nat) (hpage : 1 ≤ page) (hlimit : 1 ≤ limit)
    (hfin : limit < 2 ^ 1024 - 2 ^ 970) (t : Nat) (ht : t < 2 ^ 53) :
    ((page - 1) * limit < t →
      numMul (numAdd (toDouble (page : Int)) (.int (-1))) (toDouble (limit : Int))
        = .int (((page - 1) * limit : Nat) : Int)) ∧
    (t ≤ (page - 1) * limit →
      numMul (numAdd (toDouble (page : Int)) (.int (-1))) (toDouble (limit : Int)) = .posInf ∨
      ∃ v : Nat,
        numMul (numAdd (toDouble (page : Int)) (.int (-1))) (toDouble (limit : Int)) = .int v ∧
        t ≤ v) := by
  obtain ⟨L, hL, hL1, hLs, hLl⟩ := limitDouble_cases limit hlimit hfin
  obtain ⟨hA1, hA2⟩ := pageMinusOne_cases page hpage
  rw [hL]
  constructor
  · intro hlt
    by_cases hp1 : page = 1
    · subst hp1
      rw [hA1 (by norm_num)]
      simp only [numMul]
      have : (((1 - 1 : Nat) : Int)) * (L : Int) = ((0 : Nat) : Int) := by simp
      rw [this, toDouble_natCast_of_small 0 (by norm_num)]
      simp
    · have hp2 : 1 ≤ page - 1 := by omega
      have h1 : page - 1 ≤ (page - 1) * limit := Nat.le_mul_of_pos_right _ (by omega)
      have h2 : limit ≤ (page - 1) * limit := Nat.le_mul_of_pos_left _ (by omega)
      rw [hA1 (by omega)]
      simp only [numMul]
      rw [hLs (by omega)]
      have : ((page - 1 : Nat) : Int) * (limit : Int) = (((page - 1) * limit : Nat) : Int) := by
        push_cast; ring
      rw [this]
      exact toDouble_natCast_of_small _ (by omega)
  · intro hge
    by_cases hps : page < 2 ^ 53
    · rw [hA1 hps]
      simp only [numMul]
      have : ((page - 1 : Nat) : Int) * (L : Int) = (((page - 1) * L : Nat) : Int) := by
        push_cast; ring
      rw [this]
      apply toDouble_atLeast _ _ _ ht
      by_cases hls : limit < 2 ^ 53
      · rw [hLs hls]; exact hge
      · have hLbig := hLl (by omega)
        by_cases hp1 : page = 1
        · subst hp1
          simp at hge
          omega
        · have : L ≤ (page - 1) * L := Nat.le_mul_of_pos_left _ (by omega)
          omega
    · rcases hA2 (by omega) with h | ⟨a, h, ha⟩
      · rw [h]
        left
        have hL0 : (L : Int) ≠ 0 := by omega
        have hLpos : (0 : Int) < (L : Int) := by omega
        simp [numMul, infTimes, hL0, hLpos]
      · rw [h]
        simp only [numMul]
        have : (a : Int) * (L : Int) = ((a * L : Nat) : Int) := by push_cast; ring
        rw [this]
        apply toDouble_atLeast _ _ _ ht
        have : a ≤ a * L := Nat.le_mul_of_pos_right _ (by omega)
        omega

theorem paginateNumber_items (results : List Record) (page limit : Nat) (hpage : 1 ≤ page)
    (hlimit : 1 ≤ limit) (hfin : limit < 2 ^ 1024 - 2 ^ 970)
    (hlen : results.length < 2 ^ 53) :
    (paginateNumber results (toDouble (page : Int)) (toDouble (limit : Int))).items =
      (results.drop ((page - 1) * limit)).take limit := by
  obtain ⟨hS1, hS2⟩ := startIndex_cases page limit hpage hlimit hfin results.length hlen
  obtain ⟨L, hL, hL1, hLs, hLl⟩ := limitDouble_cases limit hlimit hfin
  show jsSliceNumber results _ _ = _
  by_cases hlt : (page - 1) * limit < results.length
  · rw [hS1 hlt, hL]
    simp only [numAdd]
    have hcast : ((((page - 1) * limit : Nat)) : Int) + (L : Int)
        = ((((page - 1) * limit + L : Nat)) : Int) := by push_cast; ring
    rw [hcast]
    have hfull : ∀ e : JsNumber, sliceIndex (results.length : Int) e = (results.length : Int) →
        results.length ≤ (page - 1) * limit + limit →
        jsSliceNumber results (.int (((page - 1) * limit : Nat) : Int)) e
          = (results.drop ((page - 1) * limit)).take limit := by
      intro e he hcover
      unfold jsSliceNumber
      simp only [he]
      simp only [sliceIndex]
      rw [if_neg (by omega)]
      have hk : (min ((((page - 1) * limit : Nat)) : Int) (results.length : Int)).toNat
          = (page - 1) * limit := by omega
      rw [hk]
      rw [List.take_of_length_le (by simp; omega), List.take_of_length_le (by simp; omega)]
    rcases toDouble_natCast_cases ((page - 1) * limit + L) with ⟨hs, h1⟩ | ⟨hl, v, hv, h1⟩ |
      ⟨hl, h1⟩
    · rw [h1, jsSliceNumber_int]
      have hLe : L = limit := by
        by_cases hls : limit < 2 ^ 53
        · exact hLs hls
        · have := hLl (by omega); omega
      rw [hLe]
      push_cast
      exact jsSlice_of_nat results ((page - 1) * limit) limit
    · rw [h1]
      apply hfull
      · simp only [sliceIndex]
        rw [if_neg (by omega)]
        omega
      · by_cases hls : limit < 2 ^ 53
        · rw [hLs hls] at hl; omega
        · omega
    · rw [h1]
      apply hfull
      · rfl
      · by_cases hls : limit < 2 ^ 53
        · rw [hLs hls] at hl; omega
        · omega
  · have hge : results.length ≤ (page - 1) * limit := by omega
    rw [jsSliceNumber_of_start_ge results _ _ (hS2 hge), List.drop_eq_nil_of_le hge,
      List.take_nil]

theorem roundNat_tie_to_even (m q : Nat) (h1 : 2 ^ 53 ≤ m) (h2 : m < 2 ^ 54)
    (hq : m / 2 = q) (hr : m % 2 = 1) (heven : q % 2 = 0) : roundNat m = some (q * 2) := by
  have hm0 : m ≠ 0 := by
    have : 0 < 2 ^ 53 := Nat.two_pow_pos _
    omega
  have h3 : 53 ≤ Nat.log2 m := (Nat.le_log2 hm0).2 h1
  have h4 : Nat.log2 m < 54 := (Nat.log2_lt hm0).2 h2
  have hlog : Nat.log2 m - 52 = 1 := by omega
  unfold roundNat
  rw [if_neg (by omega)]
  simp only [hlog, Nat.pow_one, hq, hr, heven, Nat.sub_self, Nat.pow_zero]
  have hcond : ¬ ((1 : Nat) > 1 ∨ (True ∧ (0 : Nat) = 1)) := by
    rintro (h | ⟨_, h⟩)
    · exact absurd h (by decide)
    · exact absurd h (by decide)
  have hfin : q * 2 < 2 ^ 1024 := by
    have : (2 : Nat) ^ 54 ≤ 2 ^ 1024 := Nat.pow_le_pow_right (by decide) (by decide)
    omega
  rw [if_neg hcond, if_pos hfin]

theorem roundNat_above_safe : roundNat (2 ^ 53 + 1) = some (2 ^ 52 * 2) := by
  have h1 : (2 : Nat) ^ 53 ≤ 2 ^ 53 + 1 := by norm_num
  have h2 : (2 ^ 53 + 1 : Nat) < 2 ^ 54 := by norm_num
  have h3 : (2 ^ 53 + 1 : Nat) / 2 = 2 ^ 52 := by norm_num
  have h4 : (2 ^ 53 + 1 : Nat) % 2 = 1 := by norm_num
  have h5 : (2 ^ 52 : Nat) % 2 = 0 := by norm_num
  exact roundNat_tie_to_even (2 ^ 53 + 1) (2 ^ 52) h1 h2 h3 h4 h5

theorem toDouble_natCast_of_round (n v : Nat) (h : roundNat n = some v) :
    toDouble (n : Int) = .int (v : Int) := by
  unfold toDouble
  rw [Int.natAbs_ofNat, h]
  have : ¬ ((n : Int) < 0) := by omega
  simp [this]

theorem toDouble_above_safe :
    toDouble ((2 ^ 53 + 1 : Nat) : Int) = .int ((2 ^ 52 * 2 : Nat) : Int) :=
  toDouble_natCast_of_round _ _ roundNat_above_safe

theorem searchResults_length_le (data : List Record) (q : Option String) :
    (searchResults data q).length ≤ data.length := by
  unfold searchResults
  cases q with
  | none => exact le_refl _
  | some term =>
    simp only
    split_ifs
    · exact le_refl _
    · exact List.length_filter_le _ _

theorem ceilDiv_toDouble (n limit : Nat) (hlimit : 1 ≤ limit)
    (hfin : limit < 2 ^ 1024 - 2 ^ 970) (hn : n < 2 ^ 53) :
    ceilDiv n (toDouble (limit : Int)) = .int ⌈(n : ℚ) / ((limit : Int) : ℚ)⌉ := by
  obtain ⟨L, hL, hL1, hLs, hLl⟩ := limitDouble_cases limit hlimit hfin
  rw [hL]
  have hL0 : (L : Int) ≠ 0 := by omega
  simp only [ceilDiv, hL0, if_false]
  by_cases hls : limit < 2 ^ 53
  · rw [hLs hls]
  · have hLbig := hLl (by omega)
    have hceil : ∀ d : Nat, 2 ^ 53 ≤ d →
        ⌈(n : ℚ) / (((d : Int)) : ℚ)⌉ = if n = 0 then 0 else 1 := by
      intro d hd
      have hdpos : (0 : ℚ) < (((d : Int)) : ℚ) := by
        have : 0 < d := by omega
        exact_mod_cast this
      by_cases h0 : n = 0
      · simp [h0]
      · rw [if_neg h0, Int.ceil_eq_iff]
        constructor
        · have : (0 : ℚ) < (n : ℚ) := by exact_mod_cast Nat.pos_of_ne_zero h0
          simpa using div_pos this hdpos
        · rw [div_le_iff₀ hdpos]
          have : n ≤ d := by omega
          have h' : (n : ℚ) ≤ (d : ℚ) := by exact_mod_cast this
          simpa using h'
    rw [hceil L hLbig, hceil limit (by omega)]

theorem jsSliceNumber_length_le_length {α : Type} (xs : List α) (s e : JsNumber) :
    (jsSliceNumber xs s e).length ≤ xs.length := by
  unfold jsSliceNumber
  simp only [List.length_take, List.length_drop]
  omega

theorem mem_some_page_number (results : List Record) (r : Record) (hr : r ∈ results)
    (limit : Nat) (hlimit : 1 ≤ limit) (hfin : limit < 2 ^ 1024 - 2 ^ 970)
    (hlen : results.length < 2 ^ 53) :
    ∃ page : Nat, 1 ≤ page ∧
      r ∈ (paginateNumber results (toDouble (page : Int)) (toDouble (limit : Int))).items := by
  obtain ⟨i, hi, hget⟩ := List.getElem_of_mem hr
  refine ⟨i / limit + 1, Nat.le_add_left 1 _, ?_⟩
  rw [paginateNumber_items results (i / limit + 1) limit (Nat.le_add_left 1 _) hlimit hfin hlen,
    Nat.add_sub_cancel]
  have hmod : i % limit < limit := Nat.mod_lt _ (by omega)
  have hidx : i / limit * limit + i % limit = i := by
    rw [Nat.mul_comm]; exact Nat.div_add_mod i limit
  have hel : ((results.drop (i / limit * limit)).take limit)[i % limit]? = some r := by
    rw [List.getElem?_take, if_pos hmod, List.getElem?_drop, hidx,
      List.getElem?_eq_getElem hi, hget]
  exact List.getElem?_mem hel

theorem getItemsNumber_of_digits (c : ItemsCache) (fs : Fs) (q : Option String)
    (page limit : Nat) (data : List Record) (c1 : ItemsCache) (ops : List IoOp)
    (hread : readData c fs = (.ok data, c1, ops)) (hpage : 1 ≤ page) (hlimit : 1 ≤ limit) :
    getItemsNumber c fs ⟨some (toString limit), some (toString page), q⟩ =
      (.json 200 (paginateNumber (searchResults data q) (toDouble (page : Int))
        (toDouble (limit : Int))), c1, ops) := by
  rw [getItemsNumber_of_read c fs _ data c1 ops hread, pageNumber_toString _ _ page hpage,
    limitNumber_toString _ _ limit hlimit]

theorem limit_huge_pos : 1 ≤ 10 ^ 400 := Nat.one_le_pow _ _ (by decide)

theorem limitNumber_huge (page q : Option String) :
    limitNumber ⟨some (toString (10 ^ 400)), page, q⟩ = .posInf := by
  rw [limitNumber_toString _ _ (10 ^ 400) limit_huge_pos]
  exact toDouble_of_huge _ pow_ten_huge

theorem pageNumber_of_digits (query : Query) (page : Int)
    (h : query.page = some (toString page)) :
    pageNumber query = orDefaultNumber (some page) 1 := by
  simp [pageNumber, h, parseInt_toString_int]

theorem pageItemsNumber_of_read (c : ItemsCache) (fs : Fs) (limit : Nat) (q : Option String)
    (page : Nat) (data : List Record) (c1 : ItemsCache) (ops : List IoOp)
    (hread : readData c fs = (.ok data, c1, ops)) (hpage : 1 ≤ page) (hlimit : 1 ≤ limit)
    (hfinite : limit < 2 ^ 1024 - 2 ^ 970) (hlen : data.length < 2 ^ 53) :
    pageItemsNumber c fs limit q page
      = ((searchResults data q).drop ((page - 1) * limit)).take limit := by
  unfold pageItemsNumber
  rw [getItemsNumber_of_digits c fs q page limit data c1 ops hread hpage hlimit]
  exact paginateNumber_items _ page limit hpage hlimit hfinite
    (lt_of_le_of_lt (searchResults_length_le data q) hlen)

theorem toLower_eq_capitalSigma (c : Char) (h : c.toLower = capitalSigma) :
    c = capitalSigma := by
  unfold Char.toLower at h
  simp only at h
  split_ifs at h with hc
  · exfalso
    obtain ⟨h1, h2⟩ := hc
    have h3 : c.toNat ≥ 65 := h1
    have h4 : c.toNat ≤ 90 := h2
    generalize c.toNat = n at h h3 h4
    interval_cases n <;> exact absurd h (by decide)
  · exact h

theorem no_sigma_of_map_toLower (t sub : List Char)
    (h : t.map Char.toLower = sub.map Char.toLower) (hs : capitalSigma ∉ sub) :
    capitalSigma ∉ t := by
  intro hmem
  have h1 : capitalSigma.toLower ∈ t.map Char.toLower := List.mem_map_of_mem _ hmem
  rw [h] at h1
  obtain ⟨c, hc, hceq⟩ := List.mem_map.1 h1
  have hsig : capitalSigma.toLower = capitalSigma := by decide
  rw [hsig] at hceq
  exact hs (by rw [← toLower_eq_capitalSigma c hceq]; exact hc)

/-! ## Record-store cache -/

/-- Claim C1: provided the modification timestamp can be read, `readData` re-reads the file if and
only if the cache is empty (no snapshot or no timestamp) or the file's modification time is
strictly greater than the cached timestamp. On a reload that reads and parses, the cached
snapshot becomes the parsed content, the cached timestamp becomes that modification time,
and the parsed content is returned; without a reload the cache is unchanged and the cached
snapshot is returned. -/
theorem readData_reload_iff (c : ItemsCache) (fs : Fs) (hstat : fs.statFails = false) :
    (IoOp.readFile ∈ (readData c fs).2.2 ↔
        (c.dataCache = none ∨ c.lastModified = none ∨
          ∃ lm, c.lastModified = some lm ∧ lm < fs.mtime)) ∧
    (∀ items, IoOp.readFile ∈ (readData c fs).2.2 → fs.readFails = false →
        fs.raw = .json items →
        readData c fs = (.ok items, ⟨some items, some fs.mtime⟩, [.stat, .readFile])) ∧
    (IoOp.readFile ∉ (readData c fs).2.2 →
        ∃ data, c.dataCache = some data ∧ readData c fs = (.ok data, c, [.stat])) := by
  obtain ⟨dc, lm⟩ := c
  obtain ⟨mtime, raw, sf, rf, wf⟩ := fs
  simp only at hstat
  subst hstat
  cases dc <;> cases lm <;> cases rf <;> cases raw <;>
    simp [readData, refreshCache, jsonParse] <;>
    (try split_ifs) <;> simp_all

/-- Witness for C1, at the start of the process: the empty cache loads the two test records. -/
theorem readData_reload_iff_witness :
    sampleFs.statFails = false ∧
    readData emptyCache sampleFs =
      (.ok [sampleRecord1, sampleRecord2], ⟨some [sampleRecord1, sampleRecord2], some 5⟩,
        [.stat, .readFile]) :=
  ⟨rfl, (readData_reload_iff emptyCache sampleFs rfl).2.1 [sampleRecord1, sampleRecord2]
    (by decide) rfl rfl⟩

/-- Claim C2, evaluated where the claim fails: the cache holds the two test records, the body is
valid and the write is rejected. The handler ends in `next(err)`, the file is untouched, the
cached timestamp is unchanged, yet the cached snapshot now has three records: the new record
was pushed onto the cached array and is not taken back. -/
theorem postItem_failed_write_keeps_pushed_record :
    postItem loadedCache readOnlyFs sampleBody 7 8 8 =
      (.next writeError,
        ⟨some [sampleRecord1, sampleRecord2, newItem sampleBody 7], some 5⟩,
        readOnlyFs, [.stat, .writeFile]) ∧
    newItem sampleBody 7 = ⟨7, "Test Product", "Test Category", 299⟩ ∧
    loadedCache.dataCache = some [sampleRecord1, sampleRecord2] ∧
    readOnlyFs.raw = .json [sampleRecord1, sampleRecord2] := by
  refine ⟨?_, ?_, rfl, rfl⟩
  · decide
  · decide

/-! ## Query engine -/

/-- Claim C3, counterexample: over the two test records, the request `page=1` with the limit
written as 1 followed by 400 zeros. `parseInt` reads that limit as `Infinity`, the start index
`0 * Infinity` is `NaN`, and the slice is empty: the response carries no item, where positions
0 up to the limit of the filtered sequence hold both records. -/
theorem getItemsNumber_infinite_limit :
    parseInt (toString (10 ^ 400)) = some ((10 ^ 400 : Nat) : Int) ∧
    1 ≤ 10 ^ 400 ∧
    limitNumber ⟨some (toString (10 ^ 400)), some "1", none⟩ = .posInf ∧
    pageNumber ⟨some (toString (10 ^ 400)), some "1", none⟩ = .int 1 ∧
    getItemsNumber emptyCache sampleFs ⟨some (toString (10 ^ 400)), some "1", none⟩ =
      (.json 200
        { items := []
          pagination :=
            { currentPage := .int 1, totalItems := 2, totalPages := .int 0,
              itemsPerPage := .posInf, hasNextPage := false, hasPrevPage := false } },
        loadedCache, [.stat, .readFile]) ∧
    ((searchResults [sampleRecord1, sampleRecord2] none).drop ((1 - 1) * 10 ^ 400)).take
      (10 ^ 400) = [sampleRecord1, sampleRecord2] := by
  have hl := limitNumber_huge (some "1") none
  have hp : pageNumber ⟨some (toString (10 ^ 400)), some "1", none⟩ = .int 1 := by
    decide
  refine ⟨parseInt_toString _, limit_huge_pos, hl, hp, ?_, ?_⟩
  · rw [getItemsNumber_of_read emptyCache sampleFs _ [sampleRecord1, sampleRecord2] loadedCache
      [.stat, .readFile] rfl, hl, hp]
    decide
  · have h1 : (2 : Nat) ^ 1 ≤ 2 ^ 1024 := Nat.pow_le_pow_right (by decide) (by decide)
    have h2 : [sampleRecord1, sampleRecord2].length ≤ 10 ^ 400 :=
      le_trans h1 pow_ten_huge
    show ([sampleRecord1, sampleRecord2].drop ((1 - 1) * 10 ^ 400)).take (10 ^ 400) = _
    rw [Nat.sub_self, Nat.zero_mul, List.drop_zero, List.take_of_length_le h2]

/-- Claim C3, amended: for every filtered sequence of a snapshot of fewer than 2^53 records,
every integer `page >= 1` and every integer `limit >= 1` below `2^1024 - 2^970` (the limits
that `parseInt` reads as a finite number), both sent as their decimal digits, the list request
answers 200 with exactly the elements of the filtered sequence at positions
`(page-1)*limit` up to `(page-1)*limit + limit`, in their order; their number is
`min(limit, max(0, totalItems - limit*(page-1)))`, and a page past the end is the empty
list. -/
theorem getItemsNumber_page_slice (c : ItemsCache) (fs : Fs) (q : Option String)
    (page limit : Nat) (data : List Record) (c1 : ItemsCache) (ops : List IoOp)
    (hread : readData c fs = (.ok data, c1, ops)) (hpage : 1 ≤ page) (hlimit : 1 ≤ limit)
    (hfinite : limit < 2 ^ 1024 - 2 ^ 970) (hlen : data.length < 2 ^ 53) :
    ∃ resp, getItemsNumber c fs ⟨some (toString limit), some (toString page), q⟩
        = (.json 200 resp, c1, ops) ∧
      resp.pagination.totalItems = (searchResults data q).length ∧
      resp.items = ((searchResults data q).drop ((page - 1) * limit)).take limit ∧
      (∀ i : Nat, i < limit →
        resp.items[i]? = (searchResults data q)[(page - 1) * limit + i]?) ∧
      (∀ i : Nat, limit ≤ i → resp.items[i]? = none) ∧
      (resp.items.length : Int) =
        min (limit : Int)
          (max 0 (((searchResults data q).length : Int) - (limit : Int) * ((page : Int) - 1))) ∧
      ((searchResults data q).length ≤ (page - 1) * limit → resp.items = []) := by
  have hlen2 : (searchResults data q).length < 2 ^ 53 :=
    lt_of_le_of_lt (searchResults_length_le data q) hlen
  have hitems := paginateNumber_items (searchResults data q) page limit hpage hlimit hfinite
    hlen2
  refine ⟨_, getItemsNumber_of_digits c fs q page limit data c1 ops hread hpage hlimit,
    rfl, hitems, ?_, ?_, ?_, ?_⟩
  · intro i hi
    rw [hitems, List.getElem?_take, if_pos hi, List.getElem?_drop]
  · intro i hi
    rw [hitems, List.getElem?_take, if_neg (by omega)]
  · rw [hitems]
    simp only [List.length_take, List.length_drop]
    have hmul : ((((page - 1) * limit : Nat)) : Int) = (limit : Int) * ((page : Int) - 1) := by
      push_cast [Nat.cast_sub hpage]; ring
    omega
  · intro hpast
    rw [hitems, List.drop_eq_nil_of_le hpast, List.take_nil]

/-- Witness for C3 (amended): page 2 with limit 1 over the two test records is the second
record. -/
theorem getItemsNumber_page_slice_witness :
    readData emptyCache sampleFs =
      (.ok [sampleRecord1, sampleRecord2], loadedCache, [.stat, .readFile]) ∧
    1 ≤ 2 ∧ 1 ≤ 1 ∧ 1 < 2 ^ 1024 - 2 ^ 970 ∧
    [sampleRecord1, sampleRecord2].length < 2 ^ 53 ∧
    ∃ resp, getItemsNumber emptyCache sampleFs ⟨some "1", some "2", none⟩
        = (.json 200 resp, loadedCache, [.stat, .readFile]) ∧
      resp.items = [sampleRecord2] := by
  have hfin : 1 < 2 ^ 1024 - 2 ^ 970 := by norm_num
  have hlen : [sampleRecord1, sampleRecord2].length < 2 ^ 53 := by
    show 2 < 2 ^ 53
    norm_num
  refine ⟨rfl, by decide, by decide, hfin, hlen, ?_⟩
  obtain ⟨resp, h, _, hitems, _⟩ :=
    getItemsNumber_page_slice emptyCache sampleFs none 2 1
      [sampleRecord1, sampleRecord2] loadedCache [.stat, .readFile]
      rfl (by decide) (by decide) hfin hlen
  exact ⟨resp, h, by rw [hitems]; decide⟩

/-- Claim C4: for a non-empty search term the filtered sequence is the snapshot filtered, in its
order, by "the lower-cased name or the lower-cased category contains the lower-cased term as
a contiguous block"; so it is a subsequence of the snapshot, every returned record matches
and every matching record is returned. When the term is empty or missing the filtered
sequence is the whole snapshot. -/
theorem searchResults_spec (data : List Record) :
    (∀ q : String, q ≠ "" →
      searchResults data (some q) =
        data.filter (fun r => decide
          ((toLowerCase q).data <:+: (toLowerCase r.name).data ∨
           (toLowerCase q).data <:+: (toLowerCase r.category).data)) ∧
      (searchResults data (some q)).Sublist data ∧
      ∀ r, r ∈ searchResults data (some q) ↔
        r ∈ data ∧
          ((∃ pre post, (toLowerCase r.name).data = pre ++ (toLowerCase q).data ++ post) ∨
           (∃ pre post, (toLowerCase r.category).data = pre ++ (toLowerCase q).data ++ post))) ∧
    searchResults data (some "") = data ∧
    searchResults data none = data := by
  refine ⟨?_, rfl, rfl⟩
  intro q hq
  have hne : q.data.isEmpty = false := by
    cases hd : q.data with
    | nil => exact absurd (String.ext hd) hq
    | cons a as => rfl
  have hfilter : searchResults data (some q) = data.filter (matchesTerm (toLowerCase q)) := by
    simp [searchResults, hne]
  have hpred : ∀ r : Record, matchesTerm (toLowerCase q) r = decide
      ((toLowerCase q).data <:+: (toLowerCase r.name).data ∨
       (toLowerCase q).data <:+: (toLowerCase r.category).data) := by
    intro r
    rw [Bool.eq_iff_iff]
    simp [matchesTerm, includes_iff]
  refine ⟨?_, ?_, ?_⟩
  · rw [hfilter]
    exact List.filter_congr (fun r _ => hpred r)
  · rw [hfilter]
    exact List.filter_sublist data
  · intro r
    rw [hfilter, List.mem_filter, hpred]
    simp only [decide_eq_true_eq, List.IsInfix]
    constructor
    · rintro ⟨hm, h⟩
      refine ⟨hm, ?_⟩
      rcases h with ⟨s, t, h⟩ | ⟨s, t, h⟩
      · exact Or.inl ⟨s, t, h.symm⟩
      · exact Or.inr ⟨s, t, h.symm⟩
    · rintro ⟨hm, h⟩
      refine ⟨hm, ?_⟩
      rcases h with ⟨s, t, h⟩ | ⟨s, t, h⟩
      · exact Or.inl ⟨s, t, h.symm⟩
      · exact Or.inr ⟨s, t, h.symm⟩

/-- Witness for C4: the search of the test suite, `q=laptop`, keeps the laptop only. -/
theorem searchResults_spec_witness :
    "laptop" ≠ "" ∧
    searchResults [sampleRecord1, sampleRecord2] (some "laptop") = [sampleRecord1] ∧
    sampleRecord1.name = "Test Laptop" := by
  refine ⟨by decide, ?_, rfl⟩
  rw [((searchResults_spec [sampleRecord1, sampleRecord2]).1 "laptop" (by decide)).1]
  decide

/-! ## Statistics engine: recomputation -/

/-- Claim C6, evaluated where the claim fails: for a single record whose category is
"constructor" (likewise "toString") `getCategoryStats` does not return a mapping, it throws
the TypeError of calling `push` on an inherited member, and `GET /api/stats` over a store
holding that record ends in `next(err)` without caching anything. -/
theorem getCategoryStats_throws_on_inherited_name :
    inheritedNameRecord = ⟨3, "Widget", "constructor", 10⟩ ∧
    getCategoryStats [inheritedNameRecord] = .error pushTypeError ∧
    getCategoryStats [⟨3, "Widget", "toString", 10⟩] = .error pushTypeError ∧
    getStatistics ⟨none, none⟩ ⟨5, .json [inheritedNameRecord], false, false, false⟩ 9
      = (.next pushTypeError, ⟨none, none⟩, [.stat, .readFile]) ∧
    pushTypeError.status = none :=
  ⟨rfl, rfl, rfl, rfl, rfl⟩

/-! ## Creation -/

/-- Claim C7: `POST /api/items` ends in an error with status 400 if and only if the name is
not a string that is non-empty after trimming, or the category is not such a string, or the
price is not a number that is at least 0. The checks run in the order name, category, price:
the error is the one of the first violated field (and nothing is read or written). Every
other body passes validation. -/
theorem postItem_rejects_iff (c : ItemsCache) (fs : Fs) (body : Body) (now nowW mtimeW : Int) :
    ((∃ err, (postItem c fs body now nowW mtimeW).1 = .next err ∧ err.status = some 400) ↔
      (¬ (∃ s, body.name = .string s ∧ trim s ≠ "") ∨
       ¬ (∃ s, body.category = .string s ∧ trim s ≠ "") ∨
       ¬ (∃ x, body.price = .number x ∧ 0 ≤ x))) ∧
    (¬ (∃ s, body.name = .string s ∧ trim s ≠ "") →
      postItem c fs body now nowW mtimeW = (.next nameError, c, fs, [])) ∧
    ((∃ s, body.name = .string s ∧ trim s ≠ "") →
      ¬ (∃ s, body.category = .string s ∧ trim s ≠ "") →
      postItem c fs body now nowW mtimeW = (.next categoryError, c, fs, [])) ∧
    ((∃ s, body.name = .string s ∧ trim s ≠ "") →
      (∃ s, body.category = .string s ∧ trim s ≠ "") →
      ¬ (∃ x, body.price = .number x ∧ 0 ≤ x) →
      postItem c fs body now nowW mtimeW = (.next priceError, c, fs, [])) ∧
    nameError = ⟨"Name is required and must be a non-empty string", some 400⟩ ∧
    categoryError = ⟨"Category is required and must be a non-empty string", some 400⟩ ∧
    priceError = ⟨"Price is required and must be a non-negative number", some 400⟩ := by
  have hN := invalidText_eq_false_iff body.name
  have hC := invalidText_eq_false_iff body.category
  have hP := invalidPrice_eq_false_iff body.price
  have e1 : ¬ (∃ s, body.name = .string s ∧ trim s ≠ "") →
      postItem c fs body now nowW mtimeW = (.next nameError, c, fs, []) := by
    intro h
    have : invalidText body.name = true := by
      rw [← hN] at h; simpa using h
    simp [postItem, this]
  have e2 : (∃ s, body.name = .string s ∧ trim s ≠ "") →
      ¬ (∃ s, body.category = .string s ∧ trim s ≠ "") →
      postItem c fs body now nowW mtimeW = (.next categoryError, c, fs, []) := by
    intro h1 h
    have : invalidText body.category = true := by
      rw [← hC] at h; simpa using h
    simp [postItem, hN.2 h1, this]
  have e3 : (∃ s, body.name = .string s ∧ trim s ≠ "") →
      (∃ s, body.category = .string s ∧ trim s ≠ "") →
      ¬ (∃ x, body.price = .number x ∧ 0 ≤ x) →
      postItem c fs body now nowW mtimeW = (.next priceError, c, fs, []) := by
    intro h1 h2 h
    have : invalidPrice body.price = true := by
      rw [← hP] at h; simpa using h
    simp [postItem, hN.2 h1, hC.2 h2, this]
  refine ⟨⟨?_, ?_⟩, e1, e2, e3, rfl, rfl, rfl⟩
  · rintro ⟨err, hout, hstatus⟩
    by_contra hall
    simp only [not_or, not_not] at hall
    rcases postItem_of_valid c fs body now nowW mtimeW (hN.2 hall.1) (hC.2 hall.2.1)
      (hP.2 hall.2.2) with ⟨c1, fs1, ops, h⟩ | ⟨err1, c1, fs1, ops, h, hs⟩
    · rw [h] at hout; simp at hout
    · rw [h] at hout
      simp only [Outcome.next.injEq] at hout
      rw [← hout, hs] at hstatus
      simp at hstatus
  · intro h
    by_cases h1 : ∃ s, body.name = .string s ∧ trim s ≠ ""
    · by_cases h2 : ∃ s, body.category = .string s ∧ trim s ≠ ""
      · have h3 : ¬ (∃ x, body.price = .number x ∧ 0 ≤ x) := by
          rcases h with h | h | h
          · exact absurd h1 h
          · exact absurd h2 h
          · exact h
        exact ⟨priceError, by rw [e3 h1 h2 h3], rfl⟩
      · exact ⟨categoryError, by rw [e2 h1 h2], rfl⟩
    · exact ⟨nameError, by rw [e1 h1], rfl⟩

/-- Witness for C7: the invalid bodies of the test suite (price -100, missing name, missing
category) are rejected with the error of the violated field. -/
theorem postItem_rejects_iff_witness :
    postItem loadedCache sampleFs
        ⟨.string "Test Product", .string "Test Category", .number (-100)⟩ 7 8 8
      = (.next priceError, loadedCache, sampleFs, []) ∧
    postItem loadedCache sampleFs ⟨.undefined, .string "Test Category", .number 299⟩ 7 8 8
      = (.next nameError, loadedCache, sampleFs, []) ∧
    postItem loadedCache sampleFs ⟨.string "Test Product", .undefined, .number 299⟩ 7 8 8
      = (.next categoryError, loadedCache, sampleFs, []) := by
  refine ⟨?_, ?_, ?_⟩
  · refine (postItem_rejects_iff loadedCache sampleFs
      ⟨.string "Test Product", .string "Test Category", .number (-100)⟩ 7 8 8).2.2.2.1
      ⟨_, rfl, by decide⟩ ⟨_, rfl, by decide⟩ ?_
    rintro ⟨x, hx, h0⟩
    simp only [JsValue.number.injEq] at hx
    rw [← hx] at h0
    exact absurd h0 (by decide)
  · refine (postItem_rejects_iff loadedCache sampleFs
      ⟨.undefined, .string "Test Category", .number 299⟩ 7 8 8).2.1 ?_
    rintro ⟨s, hs, _⟩
    simp at hs
  · refine (postItem_rejects_iff loadedCache sampleFs
      ⟨.string "Test Product", .undefined, .number 299⟩ 7 8 8).2.2.1 ⟨_, rfl, by decide⟩ ?_
    rintro ⟨s, hs, _⟩
    simp at hs

/-- Appending a record with a finite price: for a valid body whose price is a finite number,
when the snapshot is read and the write is not rejected, the handler answers 201 with the
record made of `Date.now()`, the trimmed name, the trimmed category and the submitted price;
afterwards the cached snapshot and the file content are both the prior snapshot with this
one record appended at the end, every earlier position holding the record it held before.
The body price `1e999`, which `JSON.parse` reads as `Infinity` and lines 126-131 accept, is
not a value of `JsValue`: there the cache keeps `Infinity` and the file receives `null`. -/
theorem postItem_appends (c : ItemsCache) (fs : Fs) (name category : String) (price : ℚ)
    (now nowW mtimeW : Int) (data : List Record) (c1 : ItemsCache) (ops : List IoOp)
    (hname : trim name ≠ "") (hcategory : trim category ≠ "") (hprice : 0 ≤ price)
    (hread : readData c fs = (.ok data, c1, ops)) (hwrite : fs.writeFails = false) :
    ∃ item c2 fs2,
      postItem c fs ⟨.string name, .string category, .number price⟩ now nowW mtimeW =
        (.json 201 item, c2, fs2, ops ++ [.writeFile]) ∧
      item = ⟨now, trim name, trim category, price⟩ ∧
      c2.dataCache = some (data ++ [item]) ∧
      c2.lastModified = some nowW ∧
      fs2.raw = .json (data ++ [item]) ∧
      jsonParse fs2.raw = .ok (data ++ [item]) ∧
      (data ++ [item]).length = data.length + 1 ∧
      (∀ i : Nat, i < data.length → (data ++ [item])[i]? = data[i]?) ∧
      (data ++ [item])[data.length]? = some item := by
  have hN : invalidText (.string name) = false :=
    (invalidText_eq_false_iff _).2 ⟨name, rfl, hname⟩
  have hC : invalidText (.string category) = false :=
    (invalidText_eq_false_iff _).2 ⟨category, rfl, hcategory⟩
  have hP : invalidPrice (.number price) = false :=
    (invalidPrice_eq_false_iff _).2 ⟨price, rfl, hprice⟩
  refine ⟨⟨now, trim name, trim category, price⟩,
    ⟨some (data ++ [⟨now, trim name, trim category, price⟩]), some nowW⟩,
    { fs with raw := .json (data ++ [⟨now, trim name, trim category, price⟩]), mtime := mtimeW },
    ?_, rfl, rfl, rfl, rfl, rfl, by simp, ?_, by simp⟩
  · simp [postItem, hN, hC, hP, hread, writeData, hwrite, newItem, JsValue.str, JsValue.num,
      jsonStringify]
  · intro i hi
    exact List.getElem?_append_left hi

/-- The valid body of the test suite posted to the two test records is appended to the cache
and to the file. -/
theorem postItem_appends_witness :
    trim "Test Product" ≠ "" ∧ trim "Test Category" ≠ "" ∧ (0 : ℚ) ≤ 299 ∧
    readData emptyCache sampleFs =
      (.ok [sampleRecord1, sampleRecord2], loadedCache, [.stat, .readFile]) ∧
    sampleFs.writeFails = false ∧
    ∃ item c2 fs2,
      postItem emptyCache sampleFs sampleBody 7 8 8 =
        (.json 201 item, c2, fs2, [.stat, .readFile, .writeFile]) ∧
      item = ⟨7, "Test Product", "Test Category", 299⟩ ∧
      c2.dataCache = some [sampleRecord1, sampleRecord2, item] ∧
      fs2.raw = .json [sampleRecord1, sampleRecord2, item] := by
  refine ⟨by decide, by decide, by decide, rfl, rfl, ?_⟩
  obtain ⟨item, c2, fs2, h, hitem, hc, _, hfs, _⟩ :=
    postItem_appends emptyCache sampleFs "Test Product" "Test Category" 299 7 8 8
      [sampleRecord1, sampleRecord2] loadedCache [.stat, .readFile]
      (by decide) (by decide) (by decide) rfl rfl
  refine ⟨item, c2, fs2, h, ?_, hc, hfs⟩
  rw [hitem]; decide

/-! ## Lookup by id -/

/-- Claim C9: when the snapshot is read, `GET /api/items/:id` ends in an error if and only if
no record of the snapshot has the requested id (the integer `parseInt` reads from the
parameter); that error has status 404 and message "Item not found". Otherwise the handler
answers 200 with the first record of the snapshot, in sequence order, whose id is the
requested one. -/
theorem getItemById_spec (c : ItemsCache) (fs : Fs) (idParam : String)
    (data : List Record) (c1 : ItemsCache) (ops : List IoOp)
    (hread : readData c fs = (.ok data, c1, ops)) :
    ((∃ err, (getItemById c fs idParam).1 = .next err ∧ err.status = some 404 ∧
        err.message = "Item not found") ↔
      ∀ r ∈ data, parseInt idParam ≠ some r.id) ∧
    ((∀ r ∈ data, parseInt idParam ≠ some r.id) →
      getItemById c fs idParam = (.next notFoundError, c1, ops)) ∧
    notFoundError = ⟨"Item not found", some 404⟩ ∧
    ((∃ r ∈ data, parseInt idParam = some r.id) →
      ∃ item before after,
        getItemById c fs idParam = (.json 200 item, c1, ops) ∧
        parseInt idParam = some item.id ∧
        data = before ++ item :: after ∧
        ∀ r ∈ before, parseInt idParam ≠ some r.id) := by
  have hnone : (∀ r ∈ data, parseInt idParam ≠ some r.id) →
      getItemById c fs idParam = (.next notFoundError, c1, ops) := by
    intro h
    have : findItem data idParam = none := by
      unfold findItem
      cases hp : parseInt idParam with
      | none => rfl
      | some n =>
        simp only [List.find?_eq_none, decide_eq_true_eq]
        intro r hr he
        exact h r hr (by rw [hp, he])
    simp [getItemById, hread, this]
  have hsome : (∃ r ∈ data, parseInt idParam = some r.id) →
      ∃ item before after,
        getItemById c fs idParam = (.json 200 item, c1, ops) ∧
        parseInt idParam = some item.id ∧
        data = before ++ item :: after ∧
        ∀ r ∈ before, parseInt idParam ≠ some r.id := by
    rintro ⟨r, hr, hp⟩
    have hex : ∃ item, List.find? (fun i => decide (i.id = r.id)) data = some item := by
      cases hf : List.find? (fun i => decide (i.id = r.id)) data with
      | none =>
        rw [List.find?_eq_none] at hf
        exact absurd (by simp) (hf r hr)
      | some item => exact ⟨item, rfl⟩
    obtain ⟨item, hf⟩ := hex
    obtain ⟨hid, before, after, hsplit, hbefore⟩ := List.find?_eq_some.1 hf
    have hid2 : item.id = r.id := by simpa using hid
    refine ⟨item, before, after, ?_, by rw [hp, hid2], hsplit, ?_⟩
    · simp [getItemById, hread, findItem, hp, hf]
    · intro x hx he
      have := hbefore x hx
      rw [hp] at he
      simp only [Option.some.injEq] at he
      simp [he] at this
  refine ⟨⟨?_, fun h => ⟨notFoundError, by rw [hnone h], rfl, rfl⟩⟩, hnone, rfl, hsome⟩
  rintro ⟨err, herr, _, _⟩ r hr hp
  obtain ⟨item, _, _, h, _⟩ := hsome ⟨r, hr, hp⟩
  rw [h] at herr
  simp at herr

/-- Witness for C9: id 999 is not among the test records. -/
theorem getItemById_spec_witness :
    readData emptyCache sampleFs =
      (.ok [sampleRecord1, sampleRecord2], loadedCache, [.stat, .readFile]) ∧
    getItemById emptyCache sampleFs "999" = (.next notFoundError, loadedCache, [.stat, .readFile]) :=
  ⟨rfl, (getItemById_spec emptyCache sampleFs "999" [sampleRecord1, sampleRecord2] loadedCache
    [.stat, .readFile] rfl).2.1 (by decide)⟩

/-! ## Statistics engine: wall-clock layer -/

/-- Claim C10: when a cached summary exists and was computed less than 300000 ms before
`now`, `getStatistics` answers with that summary, performs no storage operation and leaves
the cached summary and its timestamp as they were; at 300000 ms or more it starts with a
storage stat instead. Consequently a call made within the window after a call that
answered with a summary answers with the identical summary. -/
theorem getStatistics_wall_clock (c : StatsCache) (fs : Fs) (now : Int)
    (cached : Statistics) (last : Int)
    (hcache : c.statsCache = some cached) (hlast : c.lastStatsUpdate = some last) :
    CACHE_DURATION = 300000 ∧
    (now - last < 300000 → getStatistics c fs now = (.json 200 cached, c, [])) ∧
    (300000 ≤ now - last → (getStatistics c fs now).2.2.head? = some IoOp.stat) ∧
    (∀ (c0 : StatsCache) (fs0 : Fs) (now0 : Int) (first : Statistics) (ops0 : List IoOp),
      getStatistics c0 fs0 now0 = (.json 200 first, c, ops0) → now - last < 300000 →
      getStatistics c fs now = (.json 200 first, c, [])) := by
  have hfast : now - last < 300000 → getStatistics c fs now = (.json 200 cached, c, []) := by
    intro h
    have : wallClockHit c now = some cached := by
      simp [wallClockHit, hcache, hlast, CACHE_DURATION, h]
    simp [getStatistics, this]
  refine ⟨rfl, hfast, ?_, ?_⟩
  · intro h
    have : wallClockHit c now = none := by
      have : ¬ (now - last < 300000) := by omega
      simp [wallClockHit, hcache, hlast, CACHE_DURATION, this]
    exact getStatistics_ops_of_miss c fs now this
  · intro c0 fs0 now0 first ops0 h0 hwin
    rw [hfast hwin]
    have hsame := getStatistics_cache_after c0 fs0 now0 first c ops0 h0
    rw [hcache] at hsame
    simp only [Option.some.injEq] at hsame
    rw [hsame]

/-- Witness for C10: a summary cached at time 1000 is served at time 300999 without any
storage operation. -/
theorem getStatistics_wall_clock_witness :
    warmStatsCache.statsCache = some emptyStats ∧
    warmStatsCache.lastStatsUpdate = some 1000 ∧
    getStatistics warmStatsCache sampleFs 300999 = (.json 200 emptyStats, warmStatsCache, []) ∧
    (getStatistics warmStatsCache sampleFs 301000).2.2.head? = some IoOp.stat :=
  ⟨rfl, rfl,
    (getStatistics_wall_clock warmStatsCache sampleFs 300999 emptyStats 1000 rfl rfl).2.1
      (by decide),
    (getStatistics_wall_clock warmStatsCache sampleFs 301000 emptyStats 1000 rfl rfl).2.2.1
      (by decide)⟩

/-! ## Statistics engine: storage layer and recomputation shape -/

/-- Claim C11, counterexample: a summary computed at time 1000 is cached, the file was last
modified at time 5, and the request comes at time 400000, after the window. The handler
answers with the cached summary after one storage stat, but the stamp `lastStatsUpdate` is
still 1000, not 400000, and a further call one millisecond later performs the storage stat
again instead of taking the wall-clock fast path. -/
theorem getStatistics_storage_hit_keeps_stamp :
    warmStatsCache = ⟨some emptyStats, some 1000⟩ ∧ sampleFs.mtime = 5 ∧
    getStatistics warmStatsCache sampleFs 400000
      = (.json 200 emptyStats, ⟨some emptyStats, some 1000⟩, [.stat]) ∧
    (getStatistics warmStatsCache sampleFs 400000).2.1.lastStatsUpdate ≠ some 400000 ∧
    getStatistics (getStatistics warmStatsCache sampleFs 400000).2.1 sampleFs 400001
      = (.json 200 emptyStats, ⟨some emptyStats, some 1000⟩, [.stat]) := by
  refine ⟨rfl, rfl, ?_, ?_, ?_⟩ <;> decide

/-- Claim C11, amended: when a cached summary exists, the 5-minute window has elapsed, the
storage stat succeeds and the modification timestamp is no newer than the time the summary
was computed, `getStatistics` performs one storage stat, answers with the cached summary
without re-reading the records, and leaves the summary and the stamp `lastStatsUpdate`
unchanged; every later call on the same storage does the same. -/
theorem getStatistics_storage_layer (c : StatsCache) (fs : Fs) (now : Int)
    (cached : Statistics) (last : Int)
    (hcache : c.statsCache = some cached) (hlast : c.lastStatsUpdate = some last)
    (hwindow : 300000 ≤ now - last) (hstat : fs.statFails = false) (hmtime : fs.mtime ≤ last) :
    getStatistics c fs now = (.json 200 cached, c, [.stat]) ∧
    (getStatistics c fs now).2.1.statsCache = some cached ∧
    (getStatistics c fs now).2.1.lastStatsUpdate = some last ∧
    IoOp.readFile ∉ (getStatistics c fs now).2.2 ∧
    (∀ later : Int, now ≤ later →
      getStatistics (getStatistics c fs now).2.1 fs later = (.json 200 cached, c, [.stat])) := by
  have key : ∀ t : Int, now ≤ t → getStatistics c fs t = (.json 200 cached, c, [.stat]) := by
    intro t ht
    have hmiss : wallClockHit c t = none := by
      have : ¬ (t - last < 300000) := by omega
      simp [wallClockHit, hcache, hlast, CACHE_DURATION, this]
    have hhit : storageHit c fs.mtime = some cached := by
      simp [storageHit, hcache, hlast, hmtime]
    exact getStatistics_of_storageHit c fs t cached hmiss hstat hhit
  have h := key now (le_refl _)
  refine ⟨h, ?_, ?_, ?_, ?_⟩
  · rw [h]; exact hcache
  · rw [h]; exact hlast
  · rw [h]; simp
  · intro later hl
    rw [h]; exact key later hl

/-- Witness for C11 (amended): the summary cached at time 1000, requested at time 400000. -/
theorem getStatistics_storage_layer_witness :
    warmStatsCache.statsCache = some emptyStats ∧ warmStatsCache.lastStatsUpdate = some 1000 ∧
    (300000 : Int) ≤ 400000 - 1000 ∧ sampleFs.statFails = false ∧ sampleFs.mtime ≤ 1000 ∧
    getStatistics warmStatsCache sampleFs 400000 = (.json 200 emptyStats, warmStatsCache, [.stat]) :=
  ⟨rfl, rfl, by decide, rfl, by decide,
    (getStatistics_storage_layer warmStatsCache sampleFs 400000 emptyStats 1000 rfl rfl
      (by decide) rfl (by decide)).1⟩

/-- Claim C12: when the statistics are recomputed (no cache hit, stat and read succeed) over
zero records, the answer is exactly `total: 0, averagePrice: 0` with no `categories` and no
`priceRange` key, and that summary is cached with the current time; over one or more records
every summary the handler answers with has `total`, `averagePrice`, `categories` and
`priceRange` and is cached with the current time, and the handler answers with one at least
whenever no category names a member of `Object.prototype`. -/
theorem getStatistics_recompute_shape (c : StatsCache) (fs : Fs) (now : Int)
    (hmiss : wallClockHit c now = none) (hstat : fs.statFails = false)
    (hstorage : storageHit c fs.mtime = none) (hread : fs.readFails = false) :
    (fs.raw = .json [] →
      getStatistics c fs now =
        (.json 200 emptyStats, ⟨some emptyStats, some now⟩, [.stat, .readFile])) ∧
    emptyStats = ⟨0, 0, none, none⟩ ∧
    (∀ item rest, fs.raw = .json (item :: rest) →
      (∀ stats c1 ops, getStatistics c fs now = (.json 200 stats, c1, ops) →
        stats.total = (item :: rest).length ∧
        stats.averagePrice = round2 (mean ((item :: rest).map (fun i => i.price))) ∧
        (∃ categories, stats.categories = some categories) ∧
        (∃ range, stats.priceRange = some range) ∧
        c1 = ⟨some stats, some now⟩) ∧
      ((∀ r ∈ item :: rest, r.category ∉ objectPrototypeKeys) →
        ∃ stats, getStatistics c fs now =
          (.json 200 stats, ⟨some stats, some now⟩, [.stat, .readFile]))) := by
  refine ⟨?_, rfl, ?_⟩
  · intro hraw
    rw [getStatistics_recompute c fs now [] hmiss hstat hstorage hread hraw]
  · intro item rest hraw
    have h := getStatistics_recompute c fs now (item :: rest) hmiss hstat hstorage hread hraw
    simp only at h
    constructor
    · intro stats c1 ops hres
      rw [h] at hres
      cases hc : computeStats item rest with
      | error err => simp [hc] at hres
      | ok computed =>
        simp only [hc, Prod.mk.injEq, Outcome.json.injEq, true_and] at hres
        obtain ⟨hs, hc1, _⟩ := hres
        subst hs
        obtain ⟨ht, ha, hr⟩ := computeStats_fields item rest computed hc
        refine ⟨ht, ha, ?_, ⟨_, hr⟩, hc1.symm⟩
        unfold computeStats at hc
        cases hg : getCategoryStats (item :: rest) with
        | error err => simp [hg] at hc
        | ok categories =>
          simp only [hg, Except.ok.injEq] at hc
          exact ⟨categories, by rw [← hc]⟩
    · intro hcat
      obtain ⟨stats, hs⟩ := computeStats_ok item rest hcat
      exact ⟨stats, by rw [h, hs]⟩

/-- Witness for C12: the first statistics request over the two test records. -/
theorem getStatistics_recompute_shape_witness :
    wallClockHit ⟨none, none⟩ 9 = none ∧ sampleFs.statFails = false ∧
    storageHit ⟨none, none⟩ sampleFs.mtime = none ∧ sampleFs.readFails = false ∧
    ∃ stats, getStatistics ⟨none, none⟩ sampleFs 9 =
      (.json 200 stats, ⟨some stats, some 9⟩, [.stat, .readFile]) :=
  ⟨rfl, rfl, rfl, rfl,
    ((getStatistics_recompute_shape ⟨none, none⟩ sampleFs 9 rfl rfl rfl rfl).2.2
      sampleRecord1 [sampleRecord2] rfl).2 (by decide)⟩

/-! ## Record-store cache: freshness, failures, idempotence -/

/-- Claim C13: after a successful append, when the modification time left by the write is
not later than the time `writeData` records and the file is not changed out of band, the
next `readData` performs the storage stat only, no read, and returns the snapshot whose
last element is the appended record. -/
theorem readData_after_append (c : ItemsCache) (fs : Fs) (name category : String) (price : ℚ)
    (now nowW mtimeW : Int) (data : List Record) (c1 : ItemsCache) (ops : List IoOp)
    (hname : trim name ≠ "") (hcategory : trim category ≠ "") (hprice : 0 ≤ price)
    (hread : readData c fs = (.ok data, c1, ops)) (hwrite : fs.writeFails = false)
    (hclock : mtimeW ≤ nowW) :
    ∃ item c2 fs2 ops2,
      postItem c fs ⟨.string name, .string category, .number price⟩ now nowW mtimeW =
        (.json 201 item, c2, fs2, ops2) ∧
      fs2.mtime = mtimeW ∧ c2.lastModified = some nowW ∧
      readData c2 fs2 = (.ok (data ++ [item]), c2, [.stat]) ∧
      IoOp.readFile ∉ (readData c2 fs2).2.2 ∧
      (data ++ [item]).getLast? = some item := by
  have hN : invalidText (.string name) = false :=
    (invalidText_eq_false_iff _).2 ⟨name, rfl, hname⟩
  have hC : invalidText (.string category) = false :=
    (invalidText_eq_false_iff _).2 ⟨category, rfl, hcategory⟩
  have hP : invalidPrice (.number price) = false :=
    (invalidPrice_eq_false_iff _).2 ⟨price, rfl, hprice⟩
  have hstat := readData_ok_stat c fs data c1 ops hread
  have hnext : readData ⟨some (data ++ [⟨now, trim name, trim category, price⟩]), some nowW⟩
      { fs with raw := .json (data ++ [⟨now, trim name, trim category, price⟩]), mtime := mtimeW }
      = (.ok (data ++ [⟨now, trim name, trim category, price⟩]),
          ⟨some (data ++ [⟨now, trim name, trim category, price⟩]), some nowW⟩, [.stat]) :=
    readData_fresh _ _ nowW hstat hclock
  refine ⟨⟨now, trim name, trim category, price⟩,
    ⟨some (data ++ [⟨now, trim name, trim category, price⟩]), some nowW⟩,
    { fs with raw := .json (data ++ [⟨now, trim name, trim category, price⟩]), mtime := mtimeW },
    ops ++ [.writeFile], ?_, rfl, rfl, hnext, ?_, by simp⟩
  · simp [postItem, hN, hC, hP, hread, writeData, hwrite, newItem, JsValue.str, JsValue.num,
      jsonStringify]
  · rw [hnext]; simp

/-- Witness for C13: the valid body of the test suite appended to the two test records. -/
theorem readData_after_append_witness :
    trim "Test Product" ≠ "" ∧ trim "Test Category" ≠ "" ∧ (0 : ℚ) ≤ 299 ∧
    readData emptyCache sampleFs =
      (.ok [sampleRecord1, sampleRecord2], loadedCache, [.stat, .readFile]) ∧
    sampleFs.writeFails = false ∧ (8 : Int) ≤ 8 ∧
    ∃ item c2 fs2 ops2,
      postItem emptyCache sampleFs sampleBody 7 8 8 = (.json 201 item, c2, fs2, ops2) ∧
      readData c2 fs2 = (.ok ([sampleRecord1, sampleRecord2] ++ [item]), c2, [.stat]) := by
  refine ⟨by decide, by decide, by decide, rfl, rfl, by decide, ?_⟩
  obtain ⟨item, c2, fs2, ops2, h, _, _, hnext, _⟩ :=
    readData_after_append emptyCache sampleFs "Test Product" "Test Category" 299 7 8 8
      [sampleRecord1, sampleRecord2] loadedCache [.stat, .readFile]
      (by decide) (by decide) (by decide) rfl rfl (by decide)
  exact ⟨item, c2, fs2, ops2, h, hnext⟩

/-- Claim C14: when the storage stat fails, or the refresh is due and the storage read fails,
or the read succeeds and the JSON parse fails, `readData` fails with that error and the
cache is exactly as before; and whenever `readData` fails, the cached snapshot and the
cached timestamp keep their previous values (an absent snapshot stays absent). -/
theorem readData_failure_keeps_cache (c : ItemsCache) (fs : Fs) :
    (fs.statFails = true → readData c fs = (.error statError, c, [.stat])) ∧
    (fs.statFails = false →
      (c.dataCache = none ∨ c.lastModified = none ∨
        ∃ last, c.lastModified = some last ∧ last < fs.mtime) →
      (fs.readFails = true → readData c fs = (.error readError, c, [.stat, .readFile])) ∧
      (fs.readFails = false → fs.raw = .malformed →
        readData c fs = (.error syntaxError, c, [.stat, .readFile]))) ∧
    (∀ err c1 ops, readData c fs = (.error err, c1, ops) →
      c1 = c ∧ c1.dataCache = c.dataCache ∧ c1.lastModified = c.lastModified ∧
      (err = statError ∨ err = readError ∨ err = syntaxError)) := by
  refine ⟨?_, ?_, ?_⟩
  · intro h
    simp [readData, h]
  · intro hstat hneed
    rw [readData_of_refresh c fs hstat hneed]
    constructor
    · intro hr
      simp [refreshCache, hr]
    · intro hr hraw
      simp [refreshCache, hr, hraw, jsonParse]
  · intro err c1 ops h
    have hc := readData_error_cache c fs err c1 ops h
    refine ⟨hc, by rw [hc], by rw [hc], ?_⟩
    have hrefresh : refreshCache c fs = (.error err, c1, ops) →
        err = statError ∨ err = readError ∨ err = syntaxError := by
      intro hr
      unfold refreshCache at hr
      split_ifs at hr
      · simp only [Prod.mk.injEq, Except.error.injEq] at hr
        exact Or.inr (Or.inl hr.1.symm)
      · cases hraw : fs.raw with
        | json items => simp [hraw, jsonParse] at hr
        | malformed =>
          simp only [hraw, jsonParse, Prod.mk.injEq, Except.error.injEq] at hr
          exact Or.inr (Or.inr hr.1.symm)
    unfold readData at h
    split_ifs at h
    · simp only [Prod.mk.injEq, Except.error.injEq] at h
      exact Or.inl h.1.symm
    · split at h
      · split_ifs at h
        · exact hrefresh h
        · simp at h
      · exact hrefresh h

/-- Witness for C14: a parse failure on a loaded cache, a read failure on the empty cache and
a stat failure. -/
theorem readData_failure_keeps_cache_witness :
    readData loadedCache ⟨9, .malformed, false, false, false⟩
      = (.error syntaxError, loadedCache, [.stat, .readFile]) ∧
    readData emptyCache ⟨9, .malformed, false, true, false⟩
      = (.error readError, emptyCache, [.stat, .readFile]) ∧
    readData loadedCache ⟨9, .malformed, true, false, false⟩
      = (.error statError, loadedCache, [.stat]) :=
  ⟨((readData_failure_keeps_cache loadedCache ⟨9, .malformed, false, false, false⟩).2.1 rfl
      (Or.inr (Or.inr ⟨5, rfl, by decide⟩))).2 rfl rfl,
   ((readData_failure_keeps_cache emptyCache ⟨9, .malformed, false, true, false⟩).2.1 rfl
      (Or.inl rfl)).1 rfl,
   (readData_failure_keeps_cache loadedCache ⟨9, .malformed, true, false, false⟩).1 rfl⟩

/-- Claim C15: for every cache state and every readable storage holding a record sequence,
`readData` called twice in succession on unchanged storage returns the same snapshot both
times; the second call performs no storage read, so the two calls together perform at most
one. -/
theorem readData_idempotent (c : ItemsCache) (fs : Fs) (items : List Record)
    (hstat : fs.statFails = false) (hread : fs.readFails = false)
    (hraw : fs.raw = .json items) :
    (∃ data c1 ops,
      readData c fs = (.ok data, c1, ops) ∧
      readData c1 fs = (.ok data, c1, [.stat]) ∧
      IoOp.readFile ∉ (readData c1 fs).2.2 ∧
      (ops ++ (readData c1 fs).2.2).count IoOp.readFile ≤ 1) ∧
    (∀ data c1 ops, readData c fs = (.ok data, c1, ops) →
      readData c1 fs = (.ok data, c1, [.stat])) := by
  have hex : ∃ data c1 ops, readData c fs = (.ok data, c1, ops) := by
    have hrefresh : refreshCache c fs
        = (.ok items, ⟨some items, some fs.mtime⟩, [.stat, .readFile]) := by
      simp [refreshCache, hread, hraw, jsonParse]
    obtain ⟨dc, lm⟩ := c
    cases dc with
    | none => exact ⟨_, _, _, by rw [readData_of_refresh _ fs hstat (Or.inl rfl)]; exact hrefresh⟩
    | some cached =>
      cases lm with
      | none =>
        exact ⟨_, _, _, by
          rw [readData_of_refresh _ fs hstat (Or.inr (Or.inl rfl))]; exact hrefresh⟩
      | some last =>
        by_cases hlt : last < fs.mtime
        · exact ⟨_, _, _, by
            rw [readData_of_refresh _ fs hstat (Or.inr (Or.inr ⟨last, rfl, hlt⟩))]
            exact hrefresh⟩
        · exact ⟨_, _, _, readData_fresh fs cached last hstat (by omega)⟩
  refine ⟨?_, fun data c1 ops h => readData_twice c fs data c1 ops h⟩
  obtain ⟨data, c1, ops, h⟩ := hex
  have h2 := readData_twice c fs data c1 ops h
  refine ⟨data, c1, ops, h, h2, by rw [h2]; simp, ?_⟩
  rw [h2]
  rcases readData_ok_cases c fs data c1 ops h with ⟨_, ho⟩ | ⟨_, ho, _⟩ <;> rw [ho] <;> simp

/-- Witness for C15: the second read after the first load of the two test records. -/
theorem readData_idempotent_witness :
    sampleFs.statFails = false ∧ sampleFs.readFails = false ∧
    sampleFs.raw = .json [sampleRecord1, sampleRecord2] ∧
    readData loadedCache sampleFs = (.ok [sampleRecord1, sampleRecord2], loadedCache, [.stat]) :=
  ⟨rfl, rfl, rfl,
    (readData_idempotent emptyCache sampleFs [sampleRecord1, sampleRecord2] rfl rfl rfl).2
      [sampleRecord1, sampleRecord2] loadedCache [.stat, .readFile] rfl⟩

/-- Claim C20: for every cache and storage state, a `POST /api/items` whose body fails
validation ends in an error with status 400, performs no storage operation and leaves the
file content, its modification time, the cached snapshot and the cached timestamp as they
were; the record count is the same before and after. -/
theorem postItem_invalid_frame (c : ItemsCache) (fs : Fs) (body : Body) (now nowW mtimeW : Int)
    (hinvalid : ¬ (∃ s, body.name = .string s ∧ trim s ≠ "") ∨
      ¬ (∃ s, body.category = .string s ∧ trim s ≠ "") ∨
      ¬ (∃ x, body.price = .number x ∧ 0 ≤ x)) :
    ∃ err, postItem c fs body now nowW mtimeW = (.next err, c, fs, []) ∧
      err.status = some 400 ∧
      (postItem c fs body now nowW mtimeW).2.1.dataCache = c.dataCache ∧
      (postItem c fs body now nowW mtimeW).2.1.lastModified = c.lastModified ∧
      (postItem c fs body now nowW mtimeW).2.2.1.raw = fs.raw ∧
      (postItem c fs body now nowW mtimeW).2.2.1.mtime = fs.mtime ∧
      (∀ before, c.dataCache = some before →
        ∃ after, (postItem c fs body now nowW mtimeW).2.1.dataCache = some after ∧
          after.length = before.length) := by
  have hN := invalidText_eq_false_iff body.name
  have hC := invalidText_eq_false_iff body.category
  have hP := invalidPrice_eq_false_iff body.price
  have key : ∃ err, postItem c fs body now nowW mtimeW = (.next err, c, fs, []) ∧
      err.status = some 400 := by
    by_cases h1 : invalidText body.name = false
    · by_cases h2 : invalidText body.category = false
      · have h3 : invalidPrice body.price = true := by
          rcases hinvalid with h | h | h
          · exact absurd (hN.1 h1) h
          · exact absurd (hC.1 h2) h
          · rw [← hP] at h; simpa using h
        exact ⟨priceError, by simp [postItem, h1, h2, h3], rfl⟩
      · have h2t : invalidText body.category = true := by simpa using h2
        exact ⟨categoryError, by simp [postItem, h1, h2t], rfl⟩
    · have h1t : invalidText body.name = true := by simpa using h1
      exact ⟨nameError, by simp [postItem, h1t], rfl⟩
  obtain ⟨err, h, hs⟩ := key
  refine ⟨err, h, hs, by rw [h], by rw [h], by rw [h], by rw [h], ?_⟩
  intro before hb
  exact ⟨before, by rw [h]; exact hb, rfl⟩

/-- Witness for C20: a body with a missing name and price -1. -/
theorem postItem_invalid_frame_witness :
    (¬ (∃ s, (JsValue.undefined) = .string s ∧ trim s ≠ "") ∨
      ¬ (∃ s, (JsValue.string "Test Category") = .string s ∧ trim s ≠ "") ∨
      ¬ (∃ x, (JsValue.number (-1)) = .number x ∧ 0 ≤ x)) ∧
    ∃ err, postItem loadedCache sampleFs ⟨.undefined, .string "Test Category", .number (-1)⟩ 7 8 8
      = (.next err, loadedCache, sampleFs, []) ∧ err.status = some 400 := by
  have hinv : ¬ (∃ s, (JsValue.undefined) = .string s ∧ trim s ≠ "") := by
    rintro ⟨s, hs, _⟩
    simp at hs
  obtain ⟨err, h, hs, _⟩ := postItem_invalid_frame loadedCache sampleFs
    ⟨.undefined, .string "Test Category", .number (-1)⟩ 7 8 8 (Or.inl hinv)
  exact ⟨Or.inl hinv, err, h, hs⟩

/-! ## Query engine: pagination metadata and search -/

/-- Claim C16: for all integers `page >= 1` and `limit >= 1` sent as their decimal digits,
`hasNextPage` is true if and only if `page * limit` is less than the length of the filtered
sequence, that is, if and only if the filtered sequence has an element at an index
`>= page * limit`, that is, if and only if the same query for `page + 1` returns a non-empty
item list. -/
theorem getItems_hasNextPage (c : ItemsCache) (fs : Fs) (q : Option String) (page limit : Nat)
    (data : List Record) (c1 : ItemsCache) (ops : List IoOp)
    (hread : readData c fs = (.ok data, c1, ops)) (hpage : 1 ≤ page) (hlimit : 1 ≤ limit) :
    ∃ resp next,
      getItems c fs ⟨some (toString limit), some (toString page), q⟩
        = (.json 200 resp, c1, ops) ∧
      getItems c fs ⟨some (toString limit), some (toString (page + 1)), q⟩
        = (.json 200 next, c1, ops) ∧
      (resp.pagination.hasNextPage = true ↔ page * limit < (searchResults data q).length) ∧
      (resp.pagination.hasNextPage = true ↔
        ∃ i : Nat, page * limit ≤ i ∧ ∃ r, (searchResults data q)[i]? = some r) ∧
      (resp.pagination.hasNextPage = true ↔ next.items ≠ []) := by
  have h1 := getItems_of_read c fs ⟨some (toString limit), some (toString page), q⟩ data c1 ops
    hread
  have h2 := getItems_of_read c fs ⟨some (toString limit), some (toString (page + 1)), q⟩
    data c1 ops hread
  rw [pageNumOf_toString _ _ page hpage, limitNumOf_toString _ _ limit hlimit] at h1
  rw [pageNumOf_toString _ _ (page + 1) (by omega), limitNumOf_toString _ _ limit hlimit] at h2
  have hnext := paginate_hasNextPage_of_nat (searchResults data q) page limit
  refine ⟨_, _, h1, h2, hnext, ?_, ?_⟩
  · rw [hnext]
    constructor
    · intro h
      exact ⟨page * limit, le_refl _, (searchResults data q)[page * limit], by
        simp [List.getElem?_eq_getElem h]⟩
    · rintro ⟨i, hi, r, hr⟩
      have := (List.getElem?_eq_some_iff.1 hr).1
      omega
  · rw [hnext, paginate_items_of_nat _ (page + 1) limit (by omega)]
    simp only [Nat.add_sub_cancel, ne_eq, List.take_eq_nil_iff, List.drop_eq_nil_iff, not_or,
      not_le]
    constructor
    · intro h; exact ⟨by omega, h⟩
    · intro h; exact h.2

/-- Witness for C16: page 1 with limit 1 over the two test records has a next page. -/
theorem getItems_hasNextPage_witness :
    readData emptyCache sampleFs =
      (.ok [sampleRecord1, sampleRecord2], loadedCache, [.stat, .readFile]) ∧
    1 ≤ 1 ∧ 1 ≤ 1 ∧
    ∃ resp next,
      getItems emptyCache sampleFs ⟨some "1", some "1", none⟩
        = (.json 200 resp, loadedCache, [.stat, .readFile]) ∧
      getItems emptyCache sampleFs ⟨some "1", some "2", none⟩
        = (.json 200 next, loadedCache, [.stat, .readFile]) ∧
      resp.pagination.hasNextPage = true ∧ next.items ≠ [] := by
  refine ⟨rfl, by decide, by decide, ?_⟩
  obtain ⟨resp, next, h1, h2, h3, _, h5⟩ :=
    getItems_hasNextPage emptyCache sampleFs none 1 1 [sampleRecord1, sampleRecord2]
      loadedCache [.stat, .readFile] rfl (by decide) (by decide)
  have hn : resp.pagination.hasNextPage = true := h3.2 (by decide)
  exact ⟨resp, next, h1, h2, hn, h5.1 hn⟩

/-- Claim C17, counterexample: over the two test records, the request `page=2` with the limit
written as 1 followed by 400 zeros, a limit that is at least 1. `parseInt` reads it as
`Infinity`, and `Math.ceil(2 / Infinity)` is 0: the response reports `totalPages` 0 with
`totalItems` 2, and 0 times the limit is less than 2. -/
theorem getItemsNumber_infinite_limit_totalPages :
    parseInt (toString (10 ^ 400)) = some ((10 ^ 400 : Nat) : Int) ∧
    1 ≤ 10 ^ 400 ∧
    getItemsNumber emptyCache sampleFs ⟨some (toString (10 ^ 400)), some "2", none⟩ =
      (.json 200
        { items := []
          pagination :=
            { currentPage := .int 2, totalItems := 2, totalPages := .int 0,
              itemsPerPage := .posInf, hasNextPage := false, hasPrevPage := true } },
        loadedCache, [.stat, .readFile]) ∧
    ¬ (2 ≤ 0 * 10 ^ 400) ∧ 2 ≤ 1 * 10 ^ 400 := by
  have hl := limitNumber_huge (some "2") none
  have hp : pageNumber ⟨some (toString (10 ^ 400)), some "2", none⟩ = .int 2 := by
    decide
  have h1 : (2 : Nat) ^ 1 ≤ 2 ^ 1024 := Nat.pow_le_pow_right (by decide) (by decide)
  refine ⟨parseInt_toString _, limit_huge_pos, ?_, by simp, ?_⟩
  · rw [getItemsNumber_of_read emptyCache sampleFs _ [sampleRecord1, sampleRecord2] loadedCache
      [.stat, .readFile] rfl, hl, hp]
    decide
  · rw [Nat.one_mul]
    exact le_trans h1 pow_ten_huge

/-- Claim C17, amended: in every list response, `totalItems` is the length of the filtered
sequence (the number of records that pass the search filter; the whole snapshot when there is
no search term), and `hasPrevPage` is true if and only if the supplied integer page is
greater than 1 (it is false when no page is supplied). For every integer `limit >= 1` below
`2^1024 - 2^970` (the limits that `parseInt` reads as a finite number), sent as its decimal
digits, over a snapshot of fewer than 2^53 records, `totalPages` is the ceiling of
`totalItems / limit`: the least non-negative integer `n` with `n * limit >= totalItems`. -/
theorem getItemsNumber_pagination_metadata (c : ItemsCache) (fs : Fs) (query : Query)
    (data : List Record) (c1 : ItemsCache) (ops : List IoOp)
    (hread : readData c fs = (.ok data, c1, ops)) :
    ∃ resp, getItemsNumber c fs query = (.json 200 resp, c1, ops) ∧
      resp.pagination.totalItems = (searchResults data query.q).length ∧
      (∀ term : String, query.q = some term → term ≠ "" →
        resp.pagination.totalItems =
          data.countP (fun r => decide
            ((toLowerCase term).data <:+: (toLowerCase r.name).data ∨
             (toLowerCase term).data <:+: (toLowerCase r.category).data))) ∧
      (query.q = none ∨ query.q = some "" → resp.pagination.totalItems = data.length) ∧
      (∀ page : Int, query.page = some (toString page) →
        (resp.pagination.hasPrevPage = true ↔ 1 < page)) ∧
      (query.page = none → resp.pagination.hasPrevPage = false) ∧
      (∀ limit : Nat, query.limit = some (toString limit) → 1 ≤ limit →
        limit < 2 ^ 1024 - 2 ^ 970 → data.length < 2 ^ 53 →
        ∃ totalPages : Nat,
          resp.pagination.totalPages = .int (totalPages : Int) ∧
          (totalPages : Int) = ⌈(resp.pagination.totalItems : ℚ) / (limit : ℚ)⌉ ∧
          resp.pagination.totalItems ≤ totalPages * limit ∧
          ∀ n : Nat, resp.pagination.totalItems ≤ n * limit → totalPages ≤ n) := by
  refine ⟨_, getItemsNumber_of_read c fs query data c1 ops hread, rfl, ?_, ?_, ?_, ?_, ?_⟩
  · intro term hq hne
    simp only [paginateNumber, hq]
    rw [searchResults_of_nonempty data term hne, List.countP_eq_length_filter]
    congr 1
    exact List.filter_congr (fun r _ => matchesTerm_eq_decide term r)
  · intro hq
    rcases hq with hq | hq <;> simp [paginateNumber, hq, searchResults]
  · intro page hpage
    show numGt (pageNumber query) 1 = true ↔ 1 < page
    rw [pageNumber_of_digits query page hpage]
    exact numGt_orDefaultNumber_one page
  · intro hpage
    show numGt (pageNumber query) 1 = false
    simp only [pageNumber, hpage]
    decide
  · intro limit hq hlimit hfinite hlen
    have hlen2 : (searchResults data query.q).length < 2 ^ 53 :=
      lt_of_le_of_lt (searchResults_length_le data query.q) hlen
    have hlim : limitNumber query = toDouble (limit : Int) := by
      have h0 : (limit : Int) ≠ 0 := by omega
      simp [limitNumber, hq, parseInt_toString, orDefaultNumber, h0]
    obtain ⟨h0, hle, hleast⟩ :=
      ceil_div_least (searchResults data query.q).length (limit : Int) (by omega)
    obtain ⟨T, hT⟩ : ∃ T : Nat,
        ⌈((searchResults data query.q).length : ℚ) / ((limit : Int) : ℚ)⌉ = (T : Int) :=
      ⟨_, (Int.toNat_of_nonneg h0).symm⟩
    rw [hT] at hle hleast
    refine ⟨T, ?_, ?_, ?_, ?_⟩
    · show ceilDiv _ (limitNumber query) = _
      rw [hlim, ceilDiv_toDouble _ limit hlimit hfinite hlen2, hT]
    · show (T : Int) = ⌈((searchResults data query.q).length : ℚ) / (limit : ℚ)⌉
      rw [← hT]
      simp
    · show (searchResults data query.q).length ≤ T * limit
      exact_mod_cast hle
    · intro n hn
      have hn2 : (((searchResults data query.q).length : Nat) : Int) ≤ (n : Int) * (limit : Int) := by
        exact_mod_cast hn
      have := hleast (n : Int) hn2
      exact_mod_cast this

/-- Witness for C17 (amended): page 2 with limit 1 and search term "test" over the two test
records. -/
theorem getItemsNumber_pagination_metadata_witness :
    readData emptyCache sampleFs =
      (.ok [sampleRecord1, sampleRecord2], loadedCache, [.stat, .readFile]) ∧
    ∃ resp, getItemsNumber emptyCache sampleFs ⟨some "1", some "2", some "test"⟩
        = (.json 200 resp, loadedCache, [.stat, .readFile]) ∧
      resp.pagination.totalItems = 2 ∧ resp.pagination.hasPrevPage = true ∧
      resp.pagination.totalPages = .int 2 := by
  refine ⟨rfl, ?_⟩
  obtain ⟨resp, h, h1, _, _, h4, _, h6⟩ :=
    getItemsNumber_pagination_metadata emptyCache sampleFs ⟨some "1", some "2", some "test"⟩
      [sampleRecord1, sampleRecord2] loadedCache [.stat, .readFile] rfl
  have ht : resp.pagination.totalItems = 2 := by rw [h1]; decide
  have hfin : 1 < 2 ^ 1024 - 2 ^ 970 := by norm_num
  have hlen : [sampleRecord1, sampleRecord2].length < 2 ^ 53 := by
    show 2 < 2 ^ 53
    norm_num
  obtain ⟨T, hT, _, hle, hleast⟩ := h6 1 rfl (by decide) hfin hlen
  rw [ht] at hle hleast
  have hup := hleast 2 (by decide)
  have hT2 : T = 2 := by omega
  refine ⟨resp, h, ht, (h4 2 rfl).2 (by decide), ?_⟩
  rw [hT, hT2]
  rfl

/-- Claim C18, counterexample: the request `page=0&limit=0`. Both parameters are numeric and
`parseInt` reads the integer 0 from them, yet `currentPage` is 1 and `itemsPerPage` is 10:
`0 || 1` and `0 || 10` take the default. -/
theorem getItems_zero_parameters_default :
    parseInt "0" = some 0 ∧
    getItems emptyCache sampleFs ⟨some "0", some "0", none⟩ =
      (.json 200
        { items := [sampleRecord1, sampleRecord2]
          pagination :=
            { currentPage := 1, totalItems := 2, totalPages := 1, itemsPerPage := 10,
              hasNextPage := false, hasPrevPage := false } },
        loadedCache, [.stat, .readFile]) ∧
    pageNumOf ⟨some "0", some "0", none⟩ ≠ 0 ∧
    limitNumOf ⟨some "0", some "0", none⟩ ≠ 0 := by
  refine ⟨by decide, ?_, by decide, by decide⟩
  rw [getItems_of_read emptyCache sampleFs ⟨some "0", some "0", none⟩
    [sampleRecord1, sampleRecord2] loadedCache [.stat, .readFile] rfl]
  have hp : pageNumOf ⟨some "0", some "0", none⟩ = 1 := by decide
  have hl : limitNumOf ⟨some "0", some "0", none⟩ = 10 := by decide
  rw [hp, hl]
  have hceil : ⌈((2 : Nat) : ℚ) / ((10 : Int) : ℚ)⌉ = 1 := by
    rw [Int.ceil_eq_iff]; norm_num
  simp only [paginate, searchResults, sampleRecord1, sampleRecord2, List.length_cons,
    List.length_nil, hceil]
  decide

/-- Claim C18, amended: `currentPage` equals the integer `parseInt` reads from the page
parameter when there is one and it is not 0, and equals 1 when the parameter is missing,
not numeric, or reads as 0; `itemsPerPage` equals the integer read from the limit parameter
when there is one and it is not 0, and equals 10 when the parameter is missing, not numeric,
or reads as 0. -/
theorem getItems_page_limit_defaults (c : ItemsCache) (fs : Fs) (query : Query)
    (data : List Record) (c1 : ItemsCache) (ops : List IoOp)
    (hread : readData c fs = (.ok data, c1, ops)) :
    ∃ resp, getItems c fs query = (.json 200 resp, c1, ops) ∧
      (∀ s n, query.page = some s → parseInt s = some n → n ≠ 0 →
        resp.pagination.currentPage = n) ∧
      ((query.page = none ∨
          ∃ s, query.page = some s ∧ (parseInt s = none ∨ parseInt s = some 0)) →
        resp.pagination.currentPage = 1) ∧
      (∀ s n, query.limit = some s → parseInt s = some n → n ≠ 0 →
        resp.pagination.itemsPerPage = n) ∧
      ((query.limit = none ∨
          ∃ s, query.limit = some s ∧ (parseInt s = none ∨ parseInt s = some 0)) →
        resp.pagination.itemsPerPage = 10) := by
  refine ⟨_, getItems_of_read c fs query data c1 ops hread, ?_, ?_, ?_, ?_⟩
  · intro s n hs hp hn
    simp [paginate, pageNumOf, hs, hp, orDefault, hn]
  · intro h
    rcases h with h | ⟨s, hs, h | h⟩
    · simp only [paginate, pageNumOf, h]; decide
    · simp [paginate, pageNumOf, hs, h, orDefault]
    · simp [paginate, pageNumOf, hs, h, orDefault]
  · intro s n hs hp hn
    simp [paginate, limitNumOf, hs, hp, orDefault, hn]
  · intro h
    rcases h with h | ⟨s, hs, h | h⟩
    · simp only [paginate, limitNumOf, h]; decide
    · simp [paginate, limitNumOf, hs, h, orDefault]
    · simp [paginate, limitNumOf, hs, h, orDefault]

/-- Witness for C18 (amended): `page=3&limit=abc` over the two test records. -/
theorem getItems_page_limit_defaults_witness :
    readData emptyCache sampleFs =
      (.ok [sampleRecord1, sampleRecord2], loadedCache, [.stat, .readFile]) ∧
    ∃ resp, getItems emptyCache sampleFs ⟨some "abc", some "3", none⟩
        = (.json 200 resp, loadedCache, [.stat, .readFile]) ∧
      resp.pagination.currentPage = 3 ∧ resp.pagination.itemsPerPage = 10 := by
  refine ⟨rfl, ?_⟩
  obtain ⟨resp, h, h1, _, _, h4⟩ :=
    getItems_page_limit_defaults emptyCache sampleFs ⟨some "abc", some "3", none⟩
      [sampleRecord1, sampleRecord2] loadedCache [.stat, .readFile] rfl
  exact ⟨resp, h, h1 "3" 3 rfl (by decide) (by decide),
    h4 (Or.inr ⟨"abc", rfl, Or.inl (by decide)⟩)⟩

/-- Claim C19, counterexample: the snapshot holds one record named "A" followed by the Greek
capital sigma, and the search term is the capital sigma alone: non-empty and equal to a
contiguous substring of the name. `toLowerCase` turns the sigma of the name into the final
sigma (a cased letter before it, none after it) and the sigma of the term into the small
sigma, so the record is not in the filtered sequence and `totalItems` is 0. -/
theorem searchResults_misses_final_sigma :
    capitalSigma.toNat = 0x03A3 ∧
    sigmaRecord.name = ⟨['A', capitalSigma]⟩ ∧
    sigmaTerm = ⟨[capitalSigma]⟩ ∧ sigmaTerm ≠ "" ∧
    sigmaTerm.data <:+: sigmaRecord.name.data ∧
    toLowerCase sigmaRecord.name = ⟨['a', finalSigma]⟩ ∧
    toLowerCase sigmaTerm = ⟨[smallSigma]⟩ ∧
    sigmaRecord ∈ [sigmaRecord] ∧
    sigmaRecord ∉ searchResults [sigmaRecord] (some sigmaTerm) ∧
    (getItems emptyCache sigmaFs ⟨none, none, some sigmaTerm⟩).1
      = .json 200 ⟨[], ⟨1, 0, 0, 10, false, false⟩⟩ := by
  have hs : searchResults [sigmaRecord] (some sigmaTerm) = [] := by decide
  refine ⟨by decide, rfl, rfl, by decide, ⟨['A'], [], rfl⟩, by decide, by decide, by decide,
    by rw [hs]; simp, ?_⟩
  rw [getItems_of_read emptyCache sigmaFs ⟨none, none, some sigmaTerm⟩
    [sigmaRecord] ⟨some [sigmaRecord], some 5⟩ [.stat, .readFile] rfl]
  have hp : pageNumOf ⟨none, none, some sigmaTerm⟩ = 1 := by decide
  have hl : limitNumOf ⟨none, none, some sigmaTerm⟩ = 10 := by decide
  simp only [hs, hp, hl]
  have hceil : ⌈((0 : Nat) : ℚ) / ((10 : Int) : ℚ)⌉ = 0 := by
    rw [Int.ceil_eq_iff]; norm_num
  simp only [paginate, List.length_nil, hceil]
  decide

/-- Claim C19, amended: for every snapshot, every record `r` in it and every non-empty term
`t` that equals, character by character up to the case of the letters A to Z, a contiguous
substring of `r.name` or of `r.category`, where that field does not contain the Greek
capital sigma (nor, then, does the term), the filtered sequence of the query with search
term `t` includes `r`: `r` is counted in `totalItems` and, over a snapshot of fewer than 2^53
records, for every integer `limit >= 1` below `2^1024 - 2^970` (the limits that `parseInt`
reads as a finite number), appears on some page. -/
theorem searchResults_includes_substring (data : List Record) (r : Record) (t : String)
    (sub : List Char) (hr : r ∈ data) (ht : t ≠ "")
    (hsub : (sub <:+: r.name.data ∧ capitalSigma ∉ r.name.data) ∨
      (sub <:+: r.category.data ∧ capitalSigma ∉ r.category.data))
    (hcase : t.data.map Char.toLower = sub.map Char.toLower) :
    r ∈ searchResults data (some t) ∧
    (∀ (c : ItemsCache) (fs : Fs) (c1 : ItemsCache) (ops : List IoOp) (limit : Nat),
      readData c fs = (.ok data, c1, ops) → 1 ≤ limit → limit < 2 ^ 1024 - 2 ^ 970 →
      data.length < 2 ^ 53 →
      ∃ (page : Nat) (resp : ItemsResponseNumber), 1 ≤ page ∧
        getItemsNumber c fs ⟨some (toString limit), some (toString page), some t⟩
          = (.json 200 resp, c1, ops) ∧
        r ∈ resp.items ∧ 1 ≤ resp.pagination.totalItems) := by
  have hlow : ∀ s : String, sub <:+: s.data → capitalSigma ∉ s.data →
      (toLowerCase t).data <:+: (toLowerCase s).data := by
    intro s h1 h2
    have hsubs : capitalSigma ∉ sub := fun e => h2 (h1.subset e)
    have hterm : capitalSigma ∉ t.data := no_sigma_of_map_toLower _ _ hcase hsubs
    have hts : toLowerCase t = toLowerCase ⟨sub⟩ := by
      simp only [toLowerCase, lowerChars_of_no_sigma _ [] hterm,
        lowerChars_of_no_sigma _ [] hsubs, hcase]
    rw [hts]
    exact toLowerCase_infix_of_no_sigma s sub h1 h2
  have hmem : r ∈ searchResults data (some t) := by
    rw [searchResults_of_nonempty data t ht, List.mem_filter, matchesTerm_eq_decide]
    refine ⟨hr, ?_⟩
    rw [decide_eq_true_eq]
    rcases hsub with ⟨h1, h2⟩ | ⟨h1, h2⟩
    · exact Or.inl (hlow r.name h1 h2)
    · exact Or.inr (hlow r.category h1 h2)
  refine ⟨hmem, ?_⟩
  intro c fs c1 ops limit hread hlimit hfinite hlen
  obtain ⟨page, hpage, hin⟩ := mem_some_page_number _ r hmem limit hlimit hfinite
    (lt_of_le_of_lt (searchResults_length_le data (some t)) hlen)
  refine ⟨page, _, hpage,
    getItemsNumber_of_digits c fs (some t) page limit data c1 ops hread hpage hlimit, hin, ?_⟩
  exact List.length_pos_of_mem hmem

/-- Witness for C19 (amended): the term "LAPTOP" finds the record named "Test Laptop". -/
theorem searchResults_includes_substring_witness :
    sampleRecord1 ∈ [sampleRecord1, sampleRecord2] ∧ "LAPTOP" ≠ "" ∧
    "Laptop".data <:+: sampleRecord1.name.data ∧ capitalSigma ∉ sampleRecord1.name.data ∧
    "LAPTOP".data.map Char.toLower = "Laptop".data.map Char.toLower ∧
    sampleRecord1 ∈ searchResults [sampleRecord1, sampleRecord2] (some "LAPTOP") :=
  ⟨by decide, by decide, by decide, by decide, by decide,
    (searchResults_includes_substring [sampleRecord1, sampleRecord2] sampleRecord1 "LAPTOP"
      "Laptop".data (by decide) (by decide) (Or.inl ⟨by decide, by decide⟩) (by decide)).1⟩

/-! ## Frames, invariants, error responses, partition -/

/-- Claim C21, counterexample: at process start the record-store cache is empty; the request
for id 999, which no record has, ends in the 404 error, and the record-store cache is no
longer what it was: `readData` has loaded the two test records and the file's timestamp.
And on storage whose stat fails the same request ends in an error without status, not in
a 404. -/
theorem serveGetItemById_loads_cache :
    freshServer = ⟨⟨none, none⟩, warmStatsCache, sampleFs⟩ ∧
    (∀ r ∈ [sampleRecord1, sampleRecord2], parseInt "999" ≠ some r.id) ∧
    serveGetItemById freshServer "999" =
      (.next notFoundError,
        ⟨⟨some [sampleRecord1, sampleRecord2], some 5⟩, warmStatsCache, sampleFs⟩,
        [.stat, .readFile]) ∧
    (serveGetItemById freshServer "999").2.1.items ≠ freshServer.items ∧
    (serveGetItemById ⟨emptyCache, warmStatsCache, ⟨5, .json [], true, false, false⟩⟩ "999").1
      = .next statError ∧
    statError.status = none := by
  refine ⟨rfl, by decide, by decide, by decide, by decide, rfl⟩

/-- Claim C21, amended: for every back-end state on which the snapshot can be read and every
id held by no record of the snapshot, `GET /api/items/:id` ends in the 404 error, leaves the
statistics summary and its timestamp and the data file as they were, and writes nothing; the
record-store cache changes only by the reload of `readData`: when nothing is re-read, and in
particular when the cache is present and the file's timestamp is not newer, the whole state
is the same after the request as before it, and otherwise the cache becomes the snapshot
just read with the file's timestamp. -/
theorem serveGetItemById_frame (s : Server) (idParam : String)
    (data : List Record) (c1 : ItemsCache) (ops : List IoOp)
    (hread : readData s.items s.fs = (.ok data, c1, ops))
    (hnone : ∀ r ∈ data, parseInt idParam ≠ some r.id) :
    serveGetItemById s idParam = (.next notFoundError, { s with items := c1 }, ops) ∧
    notFoundError.status = some 404 ∧
    (serveGetItemById s idParam).2.1.stats = s.stats ∧
    (serveGetItemById s idParam).2.1.fs = s.fs ∧
    IoOp.writeFile ∉ (serveGetItemById s idParam).2.2 ∧
    (IoOp.readFile ∉ ops → (serveGetItemById s idParam).2.1 = s) ∧
    (IoOp.readFile ∈ ops →
      (serveGetItemById s idParam).2.1.items = ⟨some data, some s.fs.mtime⟩) ∧
    (∀ cached last, s.items = ⟨some cached, some last⟩ → s.fs.mtime ≤ last →
      (serveGetItemById s idParam).2.1 = s) := by
  have h := getItemById_not_found s.items s.fs idParam data c1 ops hread hnone
  have hserve : serveGetItemById s idParam = (.next notFoundError, { s with items := c1 }, ops) := by
    simp [serveGetItemById, h]
  have hcases := readData_ok_cases s.items s.fs data c1 ops hread
  refine ⟨hserve, rfl, by rw [hserve], by rw [hserve], ?_, ?_, ?_, ?_⟩
  · rw [hserve]
    rcases hcases with ⟨_, ho⟩ | ⟨_, ho, _⟩ <;> rw [ho] <;> simp
  · intro hno
    rw [hserve]
    rcases hcases with ⟨_, ho⟩ | ⟨hc, _, _⟩
    · rw [ho] at hno; simp at hno
    · simp only [hc]
  · intro hyes
    rw [hserve]
    rcases hcases with ⟨hc, _⟩ | ⟨_, ho, _⟩
    · exact hc
    · rw [ho] at hyes; simp at hyes
  · intro cached last hc hfresh
    rw [hserve]
    have hstat := readData_ok_stat s.items s.fs data c1 ops hread
    have hf := readData_fresh s.fs cached last hstat hfresh
    rw [← hc, hread] at hf
    simp only [Prod.mk.injEq] at hf
    simp only [hf.2.1]

/-- Witness for C21 (amended): id 999 on the loaded cache over the test data file. -/
theorem serveGetItemById_frame_witness :
    readData loadedCache sampleFs = (.ok [sampleRecord1, sampleRecord2], loadedCache, [.stat]) ∧
    (∀ r ∈ [sampleRecord1, sampleRecord2], parseInt "999" ≠ some r.id) ∧
    serveGetItemById ⟨loadedCache, warmStatsCache, sampleFs⟩ "999" =
      (.next notFoundError, ⟨loadedCache, warmStatsCache, sampleFs⟩, [.stat]) :=
  ⟨rfl, by decide,
    (serveGetItemById_frame ⟨loadedCache, warmStatsCache, sampleFs⟩ "999"
      [sampleRecord1, sampleRecord2] loadedCache [.stat] rfl (by decide)).1⟩

/-- Claim C22, counterexample: the store holds the two test records, with distinct ids. Two
appends succeed in the same millisecond, `Date.now()` being 7 both times: the second one
gives its record the id 7 that the record appended immediately before already has, and the
ids in the store are no longer pairwise distinct. -/
theorem postItem_repeats_id_within_a_millisecond :
    ([sampleRecord1, sampleRecord2].map (fun r => r.id)).Nodup ∧
    postItem loadedCache sampleFs sampleBody 7 8 8 =
      (.json 201 ⟨7, "Test Product", "Test Category", 299⟩,
        ⟨some [sampleRecord1, sampleRecord2, ⟨7, "Test Product", "Test Category", 299⟩], some 8⟩,
        ⟨8, .json [sampleRecord1, sampleRecord2, ⟨7, "Test Product", "Test Category", 299⟩],
          false, false, false⟩,
        [.stat, .writeFile]) ∧
    ([sampleRecord1, sampleRecord2, ⟨7, "Test Product", "Test Category", 299⟩].map
      (fun r => r.id)).Nodup ∧
    postItem
        ⟨some [sampleRecord1, sampleRecord2, ⟨7, "Test Product", "Test Category", 299⟩], some 8⟩
        ⟨8, .json [sampleRecord1, sampleRecord2, ⟨7, "Test Product", "Test Category", 299⟩],
          false, false, false⟩
        sampleBody 7 8 8 =
      (.json 201 ⟨7, "Test Product", "Test Category", 299⟩,
        ⟨some [sampleRecord1, sampleRecord2, ⟨7, "Test Product", "Test Category", 299⟩,
          ⟨7, "Test Product", "Test Category", 299⟩], some 8⟩,
        ⟨8, .json [sampleRecord1, sampleRecord2, ⟨7, "Test Product", "Test Category", 299⟩,
          ⟨7, "Test Product", "Test Category", 299⟩], false, false, false⟩,
        [.stat, .writeFile]) ∧
    ¬ ([sampleRecord1, sampleRecord2, ⟨7, "Test Product", "Test Category", 299⟩,
        (⟨7, "Test Product", "Test Category", 299⟩ : Record)].map (fun r => r.id)).Nodup := by
  refine ⟨by decide, by decide, by decide, by decide, by decide⟩

/-- Claim C22, amended: if the ids of the records in the store are pairwise distinct and
`Date.now()` at the time of the append differs from each of them, then after a successful
append the ids are still pairwise distinct; the id of the new record is that `Date.now()`. -/
theorem postItem_keeps_ids_distinct (c : ItemsCache) (fs : Fs) (name category : String)
    (price : ℚ) (now nowW mtimeW : Int) (data : List Record) (c1 : ItemsCache)
    (ops : List IoOp)
    (hname : trim name ≠ "") (hcategory : trim category ≠ "") (hprice : 0 ≤ price)
    (hread : readData c fs = (.ok data, c1, ops)) (hwrite : fs.writeFails = false)
    (hdistinct : (data.map (fun r => r.id)).Nodup)
    (hfresh : ∀ r ∈ data, r.id ≠ now) :
    ∃ item c2 fs2 ops2,
      postItem c fs ⟨.string name, .string category, .number price⟩ now nowW mtimeW =
        (.json 201 item, c2, fs2, ops2) ∧
      item.id = now ∧
      c2.dataCache = some (data ++ [item]) ∧
      fs2.raw = .json (data ++ [item]) ∧
      (∀ r ∈ data, r.id ≠ item.id) ∧
      ((data ++ [item]).map (fun r => r.id)).Nodup := by
  refine ⟨_, _, _, _,
    postItem_success c fs name category price now nowW mtimeW data c1 ops hname hcategory
      hprice hread hwrite, rfl, rfl, rfl, hfresh, ?_⟩
  rw [List.map_append, List.nodup_append]
  refine ⟨hdistinct, by simp, ?_⟩
  intro a ha hb
  simp only [List.map_cons, List.map_nil, List.mem_singleton] at hb
  obtain ⟨r, hr, hid⟩ := List.mem_map.1 ha
  exact hfresh r hr (by rw [hid, hb])

/-- Witness for C22 (amended): an append at time 7 to the test records with ids 1 and 2. -/
theorem postItem_keeps_ids_distinct_witness :
    trim "Test Product" ≠ "" ∧ trim "Test Category" ≠ "" ∧ (0 : ℚ) ≤ 299 ∧
    readData loadedCache sampleFs = (.ok [sampleRecord1, sampleRecord2], loadedCache, [.stat]) ∧
    sampleFs.writeFails = false ∧
    ([sampleRecord1, sampleRecord2].map (fun r => r.id)).Nodup ∧
    (∀ r ∈ [sampleRecord1, sampleRecord2], r.id ≠ 7) ∧
    ∃ item c2 fs2 ops2,
      postItem loadedCache sampleFs sampleBody 7 8 8 = (.json 201 item, c2, fs2, ops2) ∧
      (([sampleRecord1, sampleRecord2] ++ [item]).map (fun r => r.id)).Nodup := by
  refine ⟨by decide, by decide, by decide, rfl, rfl, by decide, by decide, ?_⟩
  obtain ⟨item, c2, fs2, ops2, h, _, _, _, _, hn⟩ :=
    postItem_keeps_ids_distinct loadedCache sampleFs "Test Product" "Test Category" 299 7 8 8
      [sampleRecord1, sampleRecord2] loadedCache [.stat]
      (by decide) (by decide) (by decide) rfl rfl (by decide) (by decide)
  exact ⟨item, c2, fs2, ops2, h, hn⟩

/-- Well-formedness under creation with finite prices: if every record of the store, in the
cached snapshot and in the data file, has a non-empty name, a non-empty category and a price
that is at least 0, then after any `POST /api/items` whose body price, if a number, is
finite, whether it is rejected, fails on storage, or is accepted, every record of the store
still has them; and the record created by an accepted request has a name and a category that
each contain a character that is not white space. A body price of `1e999` (`Infinity`) is
not a value of `JsValue`; the source accepts it and the file then holds the price `null`. -/
theorem postItem_preserves_wellFormed (c : ItemsCache) (fs : Fs) (body : Body)
    (now nowW mtimeW : Int) (hstore : StoreWellFormed c fs) :
    StoreWellFormed (postItem c fs body now nowW mtimeW).2.1
      (postItem c fs body now nowW mtimeW).2.2.1 ∧
    (∀ item c2 fs2 ops2, postItem c fs body now nowW mtimeW = (.json 201 item, c2, fs2, ops2) →
      item.WellFormed ∧
      (∃ ch ∈ item.name.data, isJsWhiteSpace ch = false) ∧
      (∃ ch ∈ item.category.data, isJsWhiteSpace ch = false) ∧
      (∃ data, c2.dataCache = some (data ++ [item]) ∧ fs2.raw = .json (data ++ [item]))) := by
  by_cases h1 : invalidText body.name = true
  · simp [postItem, h1, hstore]
  by_cases h2 : invalidText body.category = true
  · simp [postItem, h1, h2, hstore]
  by_cases h3 : invalidPrice body.price = true
  · simp [postItem, h1, h2, h3, hstore]
  have h1f : invalidText body.name = false := by simpa using h1
  have h2f : invalidText body.category = false := by simpa using h2
  have h3f : invalidPrice body.price = false := by simpa using h3
  obtain ⟨hwf, hvn, hvc⟩ := newItem_wellFormed body now h1f h2f h3f
  rcases hr : readData c fs with ⟨res, c1, ops⟩
  cases res with
  | error err =>
    have hc := readData_error_cache c fs err c1 ops hr
    simp [postItem, h1f, h2f, h3f, hr, hc, hstore]
  | ok data =>
    have hdata : ∀ r ∈ data, r.WellFormed := by
      rcases readData_ok_source c fs data c1 ops hr with ⟨hc, _⟩ | ⟨hf, _⟩
      · exact hstore.1 data hc
      · exact hstore.2 data hf
    have hpushed : ∀ r ∈ data ++ [newItem body now], r.WellFormed := by
      intro r hr2
      rcases List.mem_append.1 hr2 with h | h
      · exact hdata r h
      · rw [List.mem_singleton] at h; rw [h]; exact hwf
    cases hw : fs.writeFails with
    | true =>
      simp only [postItem, h1f, h2f, h3f, hr, writeData, hw, Bool.false_eq_true, if_false,
        if_true]
      refine ⟨⟨?_, hstore.2⟩, ?_⟩
      · intro items hi
        simp only [Option.some.injEq] at hi
        rw [← hi]; exact hpushed
      · intro item c2 fs2 ops2 hres
        simp at hres
    | false =>
      simp only [postItem, h1f, h2f, h3f, hr, writeData, hw, Bool.false_eq_true, if_false]
      refine ⟨⟨?_, ?_⟩, ?_⟩
      · intro items hi
        simp only [Option.some.injEq] at hi
        rw [← hi]; exact hpushed
      · intro items hi
        simp only [jsonStringify, Raw.json.injEq] at hi
        rw [← hi]; exact hpushed
      · intro item c2 fs2 ops2 hres
        simp only [Prod.mk.injEq, Outcome.json.injEq, true_and] at hres
        obtain ⟨hi, hc2, hfs2, _⟩ := hres
        subst hi
        refine ⟨hwf, hvn, hvc, data, by rw [← hc2], by rw [← hfs2]; rfl⟩

/-- The valid body of the test suite posted to the two well-formed test records leaves the
store well-formed. -/
theorem postItem_preserves_wellFormed_witness :
    StoreWellFormed loadedCache sampleFs ∧
    StoreWellFormed (postItem loadedCache sampleFs sampleBody 7 8 8).2.1
      (postItem loadedCache sampleFs sampleBody 7 8 8).2.2.1 := by
  have hrec : ∀ r ∈ [sampleRecord1, sampleRecord2], r.WellFormed := by
    intro r hr
    simp only [List.mem_cons, List.mem_singleton, List.not_mem_nil, or_false] at hr
    rcases hr with h | h <;> rw [h] <;> exact ⟨by decide, by decide, by decide⟩
  have hstore : StoreWellFormed loadedCache sampleFs := by
    constructor
    · intro items hi
      have : items = [sampleRecord1, sampleRecord2] := by
        simpa [loadedCache] using hi.symm
      rw [this]; exact hrec
    · intro items hi
      have : items = [sampleRecord1, sampleRecord2] := by
        simpa [sampleFs] using hi.symm
      rw [this]; exact hrec
  exact ⟨hstore, (postItem_preserves_wellFormed loadedCache sampleFs sampleBody 7 8 8 hstore).1⟩

/-- Claim C24, counterexample: over the two test records, `page=1&limit=-1` answers with
`itemsPerPage` -1 and one item (`slice(0, -1)` drops the last record), which is more than
the limit; `page=1&limit=0` answers with `itemsPerPage` 10, not 0, and two items; and
`page=1&limit=9007199254740993` (2^53 + 1) answers with `itemsPerPage` 9007199254740992, the
double nearest to the limit, not the limit. -/
theorem getItemsNumber_limit_not_kept :
    parseInt "-1" = some (-1) ∧ parseInt "0" = some 0 ∧ parseInt "1" = some 1 ∧
    (∃ resp, getItemsNumber emptyCache sampleFs ⟨some "-1", some "1", none⟩
        = (.json 200 resp, loadedCache, [.stat, .readFile]) ∧
      resp.pagination.itemsPerPage = .int (-1) ∧ resp.items = [sampleRecord1] ∧
      ¬ ((resp.items.length : Int) ≤ -1)) ∧
    (∃ resp, getItemsNumber emptyCache sampleFs ⟨some "0", some "1", none⟩
        = (.json 200 resp, loadedCache, [.stat, .readFile]) ∧
      resp.pagination.itemsPerPage = .int 10 ∧ resp.items = [sampleRecord1, sampleRecord2] ∧
      ¬ ((resp.items.length : Int) ≤ 0)) ∧
    parseInt "9007199254740993" = some 9007199254740993 ∧
    (∃ resp, getItemsNumber emptyCache sampleFs ⟨some "9007199254740993", some "1", none⟩
        = (.json 200 resp, loadedCache, [.stat, .readFile]) ∧
      resp.pagination.itemsPerPage = .int 9007199254740992 ∧
      (9007199254740992 : Int) ≠ 9007199254740993) := by
  refine ⟨by decide, by decide, by decide, ?_, ?_, by decide, ?_⟩
  · refine ⟨_, getItemsNumber_of_read emptyCache sampleFs ⟨some "-1", some "1", none⟩
      [sampleRecord1, sampleRecord2] loadedCache [.stat, .readFile] rfl, ?_, ?_, ?_⟩
    · show limitNumber ⟨some "-1", some "1", none⟩ = .int (-1)
      decide
    · show jsSliceNumber _ _ _ = _
      decide
    · have : (paginateNumber (searchResults [sampleRecord1, sampleRecord2] none)
          (pageNumber ⟨some "-1", some "1", none⟩)
          (limitNumber ⟨some "-1", some "1", none⟩)).items = [sampleRecord1] := by
        show jsSliceNumber _ _ _ = _
        decide
      rw [this]; decide
  · refine ⟨_, getItemsNumber_of_read emptyCache sampleFs ⟨some "0", some "1", none⟩
      [sampleRecord1, sampleRecord2] loadedCache [.stat, .readFile] rfl, ?_, ?_, ?_⟩
    · show limitNumber ⟨some "0", some "1", none⟩ = .int 10
      decide
    · show jsSliceNumber _ _ _ = _
      decide
    · have : (paginateNumber (searchResults [sampleRecord1, sampleRecord2] none)
          (pageNumber ⟨some "0", some "1", none⟩)
          (limitNumber ⟨some "0", some "1", none⟩)).items
          = [sampleRecord1, sampleRecord2] := by
        show jsSliceNumber _ _ _ = _
        decide
      rw [this]; decide
  · have hp : parseInt "9007199254740993" = some 9007199254740993 := by decide
    have hn : (9007199254740993 : Int) = ((2 ^ 53 + 1 : Nat) : Int) := by norm_num
    have hv : (((2 ^ 52 * 2 : Nat)) : Int) = 9007199254740992 := by norm_num
    have hlim : limitNumber ⟨some "9007199254740993", some "1", none⟩
        = .int 9007199254740992 := by
      simp only [limitNumber, Option.getD, hp, orDefaultNumber]
      rw [if_neg (by norm_num), hn, toDouble_above_safe, hv]
    have h := getItemsNumber_of_read emptyCache sampleFs
      ⟨some "9007199254740993", some "1", none⟩
      [sampleRecord1, sampleRecord2] loadedCache [.stat, .readFile] rfl
    rw [hlim] at h
    exact ⟨_, h, rfl, by norm_num⟩

/-- Claim C24, amended: for every integer page and every integer `limit >= 1` that is exactly
a double (every integer below 2^53 is), both sent as their decimal digits, over a snapshot of
fewer than 2^53 records, `itemsPerPage` equals the supplied limit and the number of returned
items is less than or equal to that limit. -/
theorem getItemsNumber_items_within_limit (c : ItemsCache) (fs : Fs) (q : Option String)
    (page : Int) (limit : Nat) (data : List Record) (c1 : ItemsCache) (ops : List IoOp)
    (hread : readData c fs = (.ok data, c1, ops)) (hlimit : 1 ≤ limit)
    (hexact : limit < 2 ^ 53 ∨ toDouble (limit : Int) = .int (limit : Int))
    (hlen : data.length < 2 ^ 53) :
    ∃ resp, getItemsNumber c fs ⟨some (toString limit), some (toString page), q⟩
        = (.json 200 resp, c1, ops) ∧
      resp.pagination.itemsPerPage = .int (limit : Int) ∧
      resp.items.length ≤ limit := by
  have hlen2 : (searchResults data q).length < 2 ^ 53 :=
    lt_of_le_of_lt (searchResults_length_le data q) hlen
  have hex : toDouble (limit : Int) = .int (limit : Int) := by
    rcases hexact with h | h
    · exact toDouble_natCast_of_small limit h
    · exact h
  have h := getItemsNumber_of_read c fs ⟨some (toString limit), some (toString page), q⟩ data
    c1 ops hread
  rw [limitNumber_toString _ _ limit hlimit, hex] at h
  refine ⟨_, h, rfl, ?_⟩
  show (jsSliceNumber (searchResults data q) _ _).length ≤ limit
  by_cases hsmall : limit < 2 ^ 53
  · exact jsSliceNumber_length_le _ _ limit hsmall hlen2
  · exact le_trans (jsSliceNumber_length_le_length (searchResults data q) _ _) (by omega)

/-- Witness for C24 (amended): `page=-3&limit=1` over the two test records. -/
theorem getItemsNumber_items_within_limit_witness :
    readData emptyCache sampleFs =
      (.ok [sampleRecord1, sampleRecord2], loadedCache, [.stat, .readFile]) ∧
    1 ≤ 1 ∧ (1 < 2 ^ 53 ∨ toDouble ((1 : Nat) : Int) = .int ((1 : Nat) : Int)) ∧
    [sampleRecord1, sampleRecord2].length < 2 ^ 53 ∧
    ∃ resp, getItemsNumber emptyCache sampleFs ⟨some "1", some "-3", none⟩
        = (.json 200 resp, loadedCache, [.stat, .readFile]) ∧
      resp.pagination.itemsPerPage = .int 1 ∧ resp.items.length ≤ 1 := by
  have hlen : [sampleRecord1, sampleRecord2].length < 2 ^ 53 := by
    show 2 < 2 ^ 53
    norm_num
  have hex : 1 < 2 ^ 53 ∨ toDouble ((1 : Nat) : Int) = .int ((1 : Nat) : Int) :=
    Or.inl (by norm_num)
  refine ⟨rfl, by decide, hex, hlen, ?_⟩
  obtain ⟨resp, h, h1, h2⟩ :=
    getItemsNumber_items_within_limit emptyCache sampleFs none (-3) 1
      [sampleRecord1, sampleRecord2] loadedCache [.stat, .readFile] rfl (by decide) hex hlen
  exact ⟨resp, h, h1, h2⟩

/-- Claim C25, counterexample: an error named `CastError` with status 418 and message
"teapot" is answered with status 404 and message "Resource not found", not with its own
status and message; an error with code 11000 is answered 400 "Duplicate field value
entered"; and a `ValidationError` is answered 400 with an array of messages, not a string. -/
theorem errorHandler_overrides_cast_error :
    castError.status = some 418 ∧ castError.message = some "teapot" ∧
    errorHandler castError false = .ok ⟨404, false, .text "Resource not found", none⟩ ∧
    errorHandler { castError with name := some "Error", code := .number 11000 } false
      = .ok ⟨400, false, .text "Duplicate field value entered", none⟩ ∧
    errorHandler { castError with name := some "ValidationError",
                                  errors := some [some "too short", none] } false
      = .ok ⟨400, false, .list [some "too short", none], none⟩ := by
  refine ⟨rfl, rfl, rfl, rfl, rfl⟩

/-- Claim C25, amended: for every error value that is not a `CastError`, not a
`ValidationError` and does not have code 11000, `errorHandler` completes and answers with
the error's status (500 when it has none or it is 0) and with a non-empty string as message,
the error's own message, or "Server Error" when that message is missing or empty. A
`CastError` is answered 404 "Resource not found", code 11000 is answered 400 "Duplicate
field value entered", and a `ValidationError` that carries `errors` is answered 400 with the
list of their messages. The storage stat, read, write and parse errors carry no status and
are answered 500 with their message. -/
theorem errorHandler_spec (err : ErrorValue) (development : Bool) :
    (err.name ≠ some "CastError" → err.name ≠ some "ValidationError" →
      err.code ≠ .number 11000 →
      ∃ resp, errorHandler err development = .ok resp ∧
        (∀ n, err.status = some n → n ≠ 0 → resp.status = n) ∧
        (err.status = none ∨ err.status = some 0 → resp.status = 500) ∧
        (∀ m, err.message = some m → m ≠ "" → resp.message = .text m) ∧
        (err.message = none ∨ err.message = some "" → resp.message = .text "Server Error") ∧
        (∃ m, resp.message = .text m ∧ m ≠ "") ∧
        resp.success = false) ∧
    (err.name = some "CastError" → err.code ≠ .number 11000 →
      errorHandler err development =
        .ok ⟨404, false, .text "Resource not found", if development then err.stack else none⟩) ∧
    (err.name ≠ some "ValidationError" → err.code = .number 11000 →
      errorHandler err development =
        .ok ⟨400, false, .text "Duplicate field value entered",
          if development then err.stack else none⟩) ∧
    (err.name = some "ValidationError" → ∀ values, err.errors = some values →
      errorHandler err development =
        .ok ⟨400, false, .list values, if development then err.stack else none⟩) ∧
    (∀ e : JsError, e = statError ∨ e = readError ∨ e = writeError ∨ e = syntaxError →
      e.status = none ∧
      errorHandler e.toErrorValue development = .ok ⟨500, false, .text e.message, none⟩) := by
  refine ⟨?_, ?_, ?_, ?_, ?_⟩
  · intro hcast hvalidation hcode
    refine ⟨_, errorHandler_plain err development hcast hvalidation hcode, ?_, ?_, ?_, ?_, ?_,
      rfl⟩
    · intro n hn h0
      simp [statusOr, hn, h0]
    · intro h
      rcases h with h | h <;> simp [statusOr, h]
    · intro m hm hne
      simp [messageOr, hm, isEmpty_data_eq_false m hne]
    · intro h
      rcases h with h | h <;> simp [messageOr, h]
    · cases hm : err.message with
      | none => exact ⟨"Server Error", by simp [messageOr], by decide⟩
      | some m =>
        by_cases he : m = ""
        · exact ⟨"Server Error", by simp [messageOr, he], by decide⟩
        · exact ⟨m, by simp [messageOr, isEmpty_data_eq_false m he], he⟩
  · intro hname hcode
    have hv : err.name ≠ some "ValidationError" := by rw [hname]; decide
    simp [errorHandler, hname, hcode, statusOr, messageOr]
  · intro hv hcode
    simp [errorHandler, hv, hcode, statusOr, messageOr]
  · intro hname values hvalues
    simp [errorHandler, hname, hvalues, statusOr, messageOr]
  · intro e he
    rcases he with h | h | h | h <;> rw [h] <;> cases development <;> exact ⟨rfl, rfl⟩

/-- Witness for C25 (amended): the 404 error of the id lookup keeps its status and message. -/
theorem errorHandler_spec_witness :
    notFoundError.toErrorValue.name ≠ some "CastError" ∧
    notFoundError.toErrorValue.name ≠ some "ValidationError" ∧
    notFoundError.toErrorValue.code ≠ .number 11000 ∧
    ∃ resp, errorHandler notFoundError.toErrorValue false = .ok resp ∧
      resp.status = 404 ∧ resp.message = .text "Item not found" := by
  refine ⟨by decide, by decide, by decide, ?_⟩
  obtain ⟨resp, h, hs, _, hm, _⟩ :=
    (errorHandler_spec notFoundError.toErrorValue false).1 (by decide) (by decide) (by decide)
  exact ⟨resp, h, hs 404 rfl (by decide), hm "Item not found" rfl (by decide)⟩

/-- Claim C26, counterexample: over the two test records with the search term "test", which
both match, and the limit written as 1 followed by 400 zeros, a limit that is at least 1:
`totalPages` is 0 and page 1 is empty, so the pages 1 to `totalPages` concatenate to the
empty list, not to the two records of the filtered sequence. -/
theorem pages_miss_records_infinite_limit :
    1 ≤ 10 ^ 400 ∧
    searchResults [sampleRecord1, sampleRecord2] (some "test") = [sampleRecord1, sampleRecord2] ∧
    getItemsNumber emptyCache sampleFs ⟨some (toString (10 ^ 400)), some "1", some "test"⟩ =
      (.json 200
        { items := []
          pagination :=
            { currentPage := .int 1, totalItems := 2, totalPages := .int 0,
              itemsPerPage := .posInf, hasNextPage := false, hasPrevPage := false } },
        loadedCache, [.stat, .readFile]) ∧
    pageItemsNumber emptyCache sampleFs (10 ^ 400) (some "test") 1 = [] ∧
    ((List.range 0).map
        (fun k => pageItemsNumber emptyCache sampleFs (10 ^ 400) (some "test") (k + 1))).flatten
      ≠ searchResults [sampleRecord1, sampleRecord2] (some "test") := by
  have hl := limitNumber_huge (some "1") (some "test")
  have hp : pageNumber ⟨some (toString (10 ^ 400)), some "1", some "test"⟩ = .int 1 := by
    decide
  have hs : searchResults [sampleRecord1, sampleRecord2] (some "test")
      = [sampleRecord1, sampleRecord2] := by decide
  have hresp : getItemsNumber emptyCache sampleFs
      ⟨some (toString (10 ^ 400)), some "1", some "test"⟩ =
      (.json 200
        { items := []
          pagination :=
            { currentPage := .int 1, totalItems := 2, totalPages := .int 0,
              itemsPerPage := .posInf, hasNextPage := false, hasPrevPage := false } },
        loadedCache, [.stat, .readFile]) := by
    rw [getItemsNumber_of_read emptyCache sampleFs _ [sampleRecord1, sampleRecord2] loadedCache
      [.stat, .readFile] rfl, hl, hp, hs]
    decide
  refine ⟨limit_huge_pos, hs, hresp, ?_, ?_⟩
  · unfold pageItemsNumber
    have h1 : toString 1 = "1" := rfl
    rw [h1, hresp]
    rfl
  · rw [hs]
    simp

/-- Claim C26, amended: for every snapshot of fewer than 2^53 records, every search term and
every integer `limit >= 1` below `2^1024 - 2^970` (the limits that `parseInt` reads as a
finite number), `totalPages` is a natural number and the item lists returned for pages
1, 2, ..., `totalPages`, concatenated in that order, are exactly the filtered sequence; every
page from 1 to `totalPages` is non-empty and every later page is empty; entry `j` of page `p`
is the entry at position `(p-1)*limit + j` of the filtered sequence, every position of the
filtered sequence lies on a page between 1 and `totalPages`, and no position lies on two
pages: nothing is duplicated or skipped. -/
theorem pagesNumber_partition (c : ItemsCache) (fs : Fs) (q : Option String) (limit : Nat)
    (data : List Record) (c1 : ItemsCache) (ops : List IoOp)
    (hread : readData c fs = (.ok data, c1, ops)) (hlimit : 1 ≤ limit)
    (hfinite : limit < 2 ^ 1024 - 2 ^ 970) (hlen : data.length < 2 ^ 53) :
    ∃ (resp : ItemsResponseNumber) (totalPages : Nat),
      getItemsNumber c fs ⟨some (toString limit), some (toString 1), q⟩
        = (.json 200 resp, c1, ops) ∧
      resp.pagination.totalPages = .int (totalPages : Int) ∧
      ((List.range totalPages).map (fun k => pageItemsNumber c fs limit q (k + 1))).flatten
        = searchResults data q ∧
      (∀ page, 1 ≤ page → page ≤ totalPages → pageItemsNumber c fs limit q page ≠ []) ∧
      (∀ page, totalPages < page → pageItemsNumber c fs limit q page = []) ∧
      (∀ page j, 1 ≤ page → j < limit →
        (pageItemsNumber c fs limit q page)[j]?
          = (searchResults data q)[(page - 1) * limit + j]?) ∧
      (∀ i, i < (searchResults data q).length →
        1 ≤ i / limit + 1 ∧ i / limit + 1 ≤ totalPages ∧ i % limit < limit ∧
        (pageItemsNumber c fs limit q (i / limit + 1))[i % limit]?
          = (searchResults data q)[i]?) ∧
      (∀ page j page2 j2, 1 ≤ page → 1 ≤ page2 → j < limit → j2 < limit →
        (page - 1) * limit + j = (page2 - 1) * limit + j2 → page = page2 ∧ j = j2) := by
  have hlen2 : (searchResults data q).length < 2 ^ 53 :=
    lt_of_le_of_lt (searchResults_length_le data q) hlen
  obtain ⟨h0, hle, hleast⟩ :=
    ceil_div_least (searchResults data q).length (limit : Int) (by omega)
  obtain ⟨T, hT⟩ : ∃ T : Nat,
      ⌈((searchResults data q).length : ℚ) / ((limit : Int) : ℚ)⌉ = (T : Int) :=
    ⟨_, (Int.toNat_of_nonneg h0).symm⟩
  rw [hT] at hle hleast
  have hcover : (searchResults data q).length ≤ T * limit := by exact_mod_cast hle
  have hmin : ∀ m : Nat, (searchResults data q).length ≤ m * limit → T ≤ m := by
    intro m hm
    have := hleast (m : Int) (by exact_mod_cast hm)
    exact_mod_cast this
  have hresp := getItemsNumber_of_digits c fs q 1 limit data c1 ops hread (le_refl 1) hlimit
  have hitems : ∀ page, 1 ≤ page → pageItemsNumber c fs limit q page
      = ((searchResults data q).drop ((page - 1) * limit)).take limit :=
    fun page hp => pageItemsNumber_of_read c fs limit q page data c1 ops hread hp hlimit
      hfinite hlen
  refine ⟨_, T, hresp, ?_, ?_, ?_, ?_, ?_, ?_, ?_⟩
  · show ceilDiv _ (toDouble (limit : Int)) = _
    rw [ceilDiv_toDouble _ limit hlimit hfinite hlen2, hT]
  · have hmap : (List.range T).map (fun k => pageItemsNumber c fs limit q (k + 1))
        = (List.range T).map (fun k => ((searchResults data q).drop (k * limit)).take limit) := by
      apply List.map_congr_left
      intro k _
      rw [hitems (k + 1) (Nat.le_add_left 1 k), Nat.add_sub_cancel]
    rw [hmap, flatten_pages, List.take_of_length_le hcover]
  · intro page hp1 hpT
    rw [hitems page hp1]
    intro hnil
    rw [List.take_eq_nil_iff, List.drop_eq_nil_iff] at hnil
    rcases hnil with h | h
    · omega
    · have := hmin (page - 1) h
      omega
  · intro page hpT
    rw [hitems page (by omega)]
    have : (searchResults data q).length ≤ (page - 1) * limit := by
      have h1 : T ≤ page - 1 := by omega
      exact le_trans hcover (Nat.mul_le_mul_right _ h1)
    simp [List.drop_eq_nil_of_le this]
  · intro page j hp hj
    rw [hitems page hp, List.getElem?_take, if_pos hj, List.getElem?_drop]
  · intro i hi
    have hmod : i % limit < limit := Nat.mod_lt _ (by omega)
    have hidx : i / limit * limit + i % limit = i := by
      rw [Nat.mul_comm]; exact Nat.div_add_mod i limit
    refine ⟨Nat.le_add_left 1 _, ?_, hmod, ?_⟩
    · by_contra hcon
      have hT2 : T ≤ i / limit := by omega
      have : T * limit ≤ i / limit * limit := Nat.mul_le_mul_right _ hT2
      omega
    · rw [hitems _ (Nat.le_add_left 1 _), Nat.add_sub_cancel, List.getElem?_take, if_pos hmod,
        List.getElem?_drop, hidx]
  · intro page j page2 j2 hp hp2 hj hj2 heq
    have h1 : ((page - 1) * limit + j) / limit = page - 1 := by
      rw [Nat.mul_comm, Nat.mul_add_div (by omega), Nat.div_eq_of_lt hj, Nat.add_zero]
    have h2 : ((page2 - 1) * limit + j2) / limit = page2 - 1 := by
      rw [Nat.mul_comm, Nat.mul_add_div (by omega), Nat.div_eq_of_lt hj2, Nat.add_zero]
    have hpp : page - 1 = page2 - 1 := by rw [← h1, ← h2, heq]
    have hpe : page = page2 := by omega
    subst hpe
    exact ⟨rfl, by omega⟩

/-- Witness for C26 (amended): the two test records with limit 1 are pages 1 and 2. -/
theorem pagesNumber_partition_witness :
    readData emptyCache sampleFs =
      (.ok [sampleRecord1, sampleRecord2], loadedCache, [.stat, .readFile]) ∧
    1 ≤ 1 ∧ 1 < 2 ^ 1024 - 2 ^ 970 ∧ [sampleRecord1, sampleRecord2].length < 2 ^ 53 ∧
    ∃ (resp : ItemsResponseNumber) (totalPages : Nat),
      getItemsNumber emptyCache sampleFs ⟨some "1", some "1", none⟩
        = (.json 200 resp, loadedCache, [.stat, .readFile]) ∧
      ((List.range totalPages).map
          (fun k => pageItemsNumber emptyCache sampleFs 1 none (k + 1))).flatten
        = [sampleRecord1, sampleRecord2] := by
  have hfin : 1 < 2 ^ 1024 - 2 ^ 970 := by norm_num
  have hlen : [sampleRecord1, sampleRecord2].length < 2 ^ 53 := by
    show 2 < 2 ^ 53
    norm_num
  refine ⟨rfl, by decide, hfin, hlen, ?_⟩
  obtain ⟨resp, T, h, _, hflat, _⟩ :=
    pagesNumber_partition emptyCache sampleFs none 1 [sampleRecord1, sampleRecord2] loadedCache
      [.stat, .readFile] rfl (by decide) hfin hlen
  exact ⟨resp, T, h, hflat⟩

/-- Claim C27: for every non-empty record sequence, the statistics computation produces a
summary at least whenever no category names a member of `Object.prototype`; and in every
summary it produces, the `categories` are those `getCategoryStats` returns, each count is at
least 1, the counts sum to `total`, which is the number of records, the category keys are
pairwise distinct, and every record's category is the key of exactly one entry. -/
theorem computeStats_category_counts (item : Record) (rest : List Record) :
    ((∀ r ∈ item :: rest, r.category ∉ objectPrototypeKeys) →
      ∃ stats, computeStats item rest = .ok stats) ∧
    (∀ stats, computeStats item rest = .ok stats →
      ∃ categories, stats.categories = some categories ∧
        getCategoryStats (item :: rest) = .ok categories ∧
        (∀ e ∈ categories, 1 ≤ e.2.count) ∧
        (categories.map (fun e => e.2.count)).sum = stats.total ∧
        stats.total = (item :: rest).length ∧
        (categories.map Prod.fst).Nodup ∧
        (∀ r ∈ item :: rest, ∃ e ∈ categories, e.1 = r.category ∧
          ∀ e2 ∈ categories, e2.1 = r.category → e2 = e)) := by
  refine ⟨computeStats_ok item rest, ?_⟩
  intro stats h
  obtain ⟨ht, _, _⟩ := computeStats_fields item rest stats h
  unfold computeStats at h
  cases hg : getCategoryStats (item :: rest) with
  | error err => simp [hg] at h
  | ok categories =>
    simp only [hg, Except.ok.injEq] at h
    obtain ⟨hpos, hsum, hnd, hmem⟩ := getCategoryStats_counts (item :: rest) categories hg
    refine ⟨categories, by rw [← h], rfl, hpos, by rw [hsum, ht], ht, hnd, ?_⟩
    intro r hr
    obtain ⟨e, he, hk⟩ := List.mem_map.1 (hmem r hr)
    refine ⟨e, he, hk, ?_⟩
    intro e2 he2 hk2
    exact List.inj_on_of_nodup_map hnd he2 he (by rw [hk2, hk])

/-- Witness for C27: the two test records fall in two categories with counts summing to 2. -/
theorem computeStats_category_counts_witness :
    (∀ r ∈ [sampleRecord1, sampleRecord2], r.category ∉ objectPrototypeKeys) ∧
    ∃ stats categories, computeStats sampleRecord1 [sampleRecord2] = .ok stats ∧
      stats.categories = some categories ∧
      (categories.map (fun e => e.2.count)).sum = 2 := by
  refine ⟨by decide, ?_⟩
  obtain ⟨stats, h⟩ := (computeStats_category_counts sampleRecord1 [sampleRecord2]).1 (by decide)
  obtain ⟨categories, hc, _, _, hsum, ht, _⟩ :=
    (computeStats_category_counts sampleRecord1 [sampleRecord2]).2 stats h
  exact ⟨stats, categories, h, hc, by rw [hsum, ht]; rfl⟩

end Catalog
